import Mathlib

/-!
Blackjack round engine: a shallow embedding of `blackjack.cpp`

Conventions of the embedding.

* A `queue<card>` is a `List card`: `front` is the head, `pop` drops the head,
  `push` appends at the back.
* C++ `int` values are modelled as `Int`.  Where a result can leave the 32-bit range for
  operands the program lets through (`bet * 2`, `bet * 3`, `totalTokens + bet`), it is
  reduced by `wrapInt` to the two's-complement value a 32-bit `int` then holds (signed
  overflow is undefined behaviour in C++; this is what the usual compilers produce).  The
  other operations on the bet (`bet * -1`, `bet - bet / 2`, `totalTokens - bet`) stay in
  range on every bet `betMenu` lets through and are left as they are.  C++ integer
  division truncates towards zero, so `/` of the source is `Int.tdiv`.
* `front()` / `pop()` on an empty queue is undefined behaviour; the functions that draw
  a card return `none` in that case.
* `std::cin` is a `List Int` of the integers typed by the user, one per prompt; an entry
  that is no integer at all behaves like an out-of-range integer and is represented by
  one.  A function that prompts returns the unread rest of the list, and `none` when the
  input ends while it is still prompting.
* The random source of `generateDeck` is the list of the numbers the distribution
  returns, in order.
-/

namespace Blackjack

/-! ## Data model (`blackjack.h`) -/

/-- The value a 32-bit `int` holds after an arithmetic result `x`: `x` itself when it is
in the range from -2147483648 to 2147483647, and otherwise `x` reduced modulo 2^32 into
that range. -/
def wrapInt (x : Int) : Int :=
  (x + 2147483648) % 4294967296 - 2147483648

/-- One playing card: `faceValue` (1 = Ace, 11/12/13 = Jack/Queen/King) and `suit`. -/
structure card where
  faceValue : Int
  suit : Int
  deriving DecidableEq, Repr

/-- The player: the token balance and the current bet. -/
structure Player where
  totalTokens : Int
  bet : Int
  deriving DecidableEq, Repr

/-! ## Hand valuation -/

/-- The first loop of `sumHand`: walks the copied queue from the front, adding each
card's value to `handSum` and counting the aces in `aceCount`. -/
def sumHandLoop : List card → Int → Nat → Int × Nat
  | [], handSum, aceCount => (handSum, aceCount)
  | aCard :: handCopy, handSum, aceCount =>
    if aCard.faceValue > 10 then
      sumHandLoop handCopy (handSum + 10) aceCount
    else if aCard.faceValue = 1 then
      sumHandLoop handCopy (handSum + 11) (aceCount + 1)
    else
      sumHandLoop handCopy (handSum + aCard.faceValue) aceCount

/-- The second loop of `sumHand`:
`while (handSum > 21 && aceCount > 0) { handSum -= 10; aceCount--; }`. -/
def adjustAces : Nat → Int → Int
  | 0, handSum => handSum
  | aceCount + 1, handSum =>
    if handSum > 21 then adjustAces aceCount (handSum - 10) else handSum

/-- The function `sumHand` of `blackjack.cpp`. -/
def sumHand (hand : List card) : Int :=
  let r := sumHandLoop hand 0 0
  adjustAces r.2 r.1

/-- The loop of `cardCount`: one increment per popped card. -/
def cardCountLoop : List card → Int → Int
  | [], cardTotal => cardTotal
  | _ :: handCopy, cardTotal => cardCountLoop handCopy (cardTotal + 1)

/-- The function `cardCount` of `blackjack.cpp`. -/
def cardCount (hand : List card) : Int :=
  cardCountLoop hand 0

/-! ### The valuation rule as the specification words it -/

/-- The value the specification gives one card before any ace is demoted: 10 for a face
value above 10, 11 for an ace, the face value otherwise. -/
def cardPoints (c : card) : Int :=
  if c.faceValue > 10 then 10 else if c.faceValue = 1 then 11 else c.faceValue

/-- The number of aces in a hand. -/
def aceNumber (hand : List card) : Nat :=
  (hand.filter (fun c => decide (c.faceValue = 1))).length

/-- The demotion rule of the specification: with `soft` aces still counted as 11, as long
as the total exceeds 21 and such an ace is left, one of them is demoted (minus 10). -/
def demoteAces : Nat → Int → Int
  | 0, total => total
  | soft + 1, total => if 21 < total then demoteAces soft (total - 10) else total

/-- The hand total of the specification: the sum of the card values, then the demotion
of aces. -/
def handTotalSpec (hand : List card) : Int :=
  demoteAces (aceNumber hand) ((hand.map cardPoints).sum)

/-- The value of one card when an ace counts as 1: 10 for a face value above 10, the face
value otherwise. -/
def hardPoints (c : card) : Int :=
  if c.faceValue > 10 then 10 else c.faceValue

/-- The aces-as-1 total of a hand: every ace counted as 1. -/
def hardTotal (hand : List card) : Int :=
  (hand.map hardPoints).sum

/-- The total of a hand under one way of counting its aces: `eleven` says, position by
position, whether an ace at that position counts as 11 (`true`) or as 1 (`false`, also
where the list has ended); at the position of any other card the entry is ignored. -/
def countedAs : List card → List Bool → Int
  | [], _ => 0
  | c :: rest, eleven =>
    (if c.faceValue > 10 then 10
     else if c.faceValue = 1 then (if eleven.headD false then 11 else 1)
     else c.faceValue) + countedAs rest eleven.tail

/-! ## Deck generation -/

/-- The draw of `generateDeck` with its retry loop
`while (used[cardValue]) cardValue = distribution(generator);`: the first number of the
random source whose slot is still unused, and the rest of the source.  A number outside
the `used` vector (undefined behaviour in the source) and an exhausted source give
`none`. -/
def pickUnused (used : List Bool) : List Nat → Option (Nat × List Nat)
  | [] => none
  | cardValue :: rest =>
    match used[cardValue]? with
    | none => none
    | some true => pickUnused used rest
    | some false => some (cardValue, rest)

/-- The card `generateDeck` builds from the number `cardValue`:
`faceValue = cardValue % 13 + 1`, `suit = cardValue / 13`. -/
def cardOfIndex (cardValue : Nat) : card :=
  { faceValue := ((cardValue % 13 : Nat) : Int) + 1, suit := ((cardValue / 13 : Nat) : Int) }

/-- The `for` loop of `generateDeck`, with `n` iterations still to run. -/
def generateDeckLoop : Nat → List Bool → List card → List Nat → Option (List card × List Nat)
  | 0, _, deck, randoms => some (deck, randoms)
  | n + 1, used, deck, randoms =>
    match pickUnused used randoms with
    | none => none
    | some (cardValue, rest) =>
      generateDeckLoop n (used.set cardValue true) (deck ++ [cardOfIndex cardValue]) rest

/-- The function `generateDeck` of `blackjack.cpp`: it pushes 52 cards onto the queue it
is given.  The result is the new queue and the unread rest of the random source. -/
def generateDeck (deck : List card) (randoms : List Nat) : Option (List card × List Nat) :=
  generateDeckLoop 52 (List.replicate 52 false) deck randoms

/-! ## Round engine -/

/-- The variables of one round: those of `playRound` (`deck`, `pHand`, `dHand`, `whoWon`,
`player`) and the two locals of `roundMenu` (`initialPhase`, `canDoubleDown`). -/
structure RoundState where
  deck : List card
  pHand : List card
  dHand : List card
  whoWon : Int
  player : Player
  initialPhase : Bool
  canDoubleDown : Bool
  deriving DecidableEq, Repr

/-- The function `checkEarlyWin`: the returned flag and the new value of `whoWon`. -/
def checkEarlyWin (player dealer : List card) (whoWon : Int) : Bool × Int :=
  let pSum := sumHand player
  let dSum := sumHand dealer
  if pSum = 21 then
    if pSum = 21 ∧ dSum = 21 then (true, 2)
    else if pSum = 21 then (true, 0)
    else if dSum = 21 then (true, 0)
    else (true, whoWon)
  else (false, whoWon)

/-- The function `playerHit`: the new deck, player hand and `whoWon`. -/
def playerHit (deck player : List card) (whoWon : Int) : Option (List card × List card × Int) :=
  match deck with
  | [] => none
  | deckCard :: deck1 =>
    let player1 := player ++ [deckCard]
    let whoWon1 := if sumHand player1 > 21 then 3 else whoWon
    let whoWon2 := if sumHand player1 = 21 then 0 else whoWon1
    some (deck1, player1, whoWon2)

/-- The function `dealerHit`: the new deck, dealer hand and `whoWon`. -/
def dealerHit (deck dealer : List card) (whoWon : Int) : Option (List card × List card × Int) :=
  match deck with
  | [] => none
  | deckCard :: deck1 =>
    let dealer1 := dealer ++ [deckCard]
    let whoWon1 := if sumHand dealer1 > 21 then 1 else whoWon
    let whoWon2 := if sumHand dealer1 = 21 then 0 else whoWon1
    some (deck1, dealer1, whoWon2)

/-- The dealer's loop of `stand`,
`while (dSum < 17) { dealerHit(deck, dHand, whoWon); dSum = sumHand(dHand); }`,
by recursion on the deck, which every `dealerHit` shortens by its front card
(`standLoop_unfold` states the loop equation with the deck `dealerHit` returns). -/
def standLoop : List card → List card → Int → Option (List card × List card × Int)
  | [], dHand, whoWon =>
    if sumHand dHand < 17 then none else some ([], dHand, whoWon)
  | deckCard :: deck1, dHand, whoWon =>
    if sumHand dHand < 17 then
      match dealerHit (deckCard :: deck1) dHand whoWon with
      | none => none
      | some (_, dHand1, whoWon1) => standLoop deck1 dHand1 whoWon1
    else some (deckCard :: deck1, dHand, whoWon)

/-- What `stand` leaves behind: the returned value and the variables it holds by
reference. -/
structure StandResult where
  ret : Int
  deck : List card
  dHand : List card
  whoWon : Int
  deriving DecidableEq, Repr

/-- The function `stand` of `blackjack.cpp` (`bet` is passed but not used). -/
def stand (deck pHand dHand : List card) (whoWon : Int) (_bet : Int) : Option StandResult :=
  if whoWon ≠ 0 then
    some { ret := whoWon, deck := deck, dHand := dHand, whoWon := whoWon }
  else
    let pSum := sumHand pHand
    match standLoop deck dHand whoWon with
    | none => none
    | some (deck1, dHand1, whoWon1) =>
      let dSum := sumHand dHand1
      let ret : Int :=
        if whoWon1 ≠ 0 then whoWon1
        else if pSum > dSum then 1
        else if pSum = dSum then
          (if pSum = 21 ∧ dSum = 21 ∧ cardCount pHand > cardCount dHand1 then 3 else 2)
        else if pSum < dSum then 3
        else -1
      some { ret := ret, deck := deck1, dHand := dHand1, whoWon := whoWon1 }

/-- The function `doubleDown`; `player.bet * 2`, in the guard and in the assignment, is
the value the `int` product holds. -/
def doubleDown (s : RoundState) : Option RoundState :=
  if s.player.totalTokens ≥ wrapInt (s.player.bet * 2) then
    match playerHit s.deck s.pHand s.whoWon with
    | none => none
    | some (deck1, pHand1, whoWon1) =>
      match stand deck1 pHand1 s.dHand whoWon1 s.player.bet with
      | none => none
      | some r =>
        let bet1 := if r.ret = 1 ∨ r.ret = 3 then wrapInt (s.player.bet * 2) else s.player.bet
        some { s with deck := r.deck, pHand := pHand1, dHand := r.dHand, whoWon := r.ret,
                      player := { s.player with bet := bet1 } }
  else some s

/-- The function `canPurchaseInsurance`; `none` when the dealer's hand is empty
(`front()` of an empty queue). -/
def canPurchaseInsurance (dHand : List card) (player : Player) : Option Bool :=
  match dHand with
  | [] => none
  | aCard :: _ =>
    some (decide (aCard.faceValue = 1 ∧
      player.totalTokens - player.bet ≥ Int.tdiv player.bet 2))

/-- The bet after `case 1` (Yes) of `insuranceOffer`; `player.bet * 3` is the value the
`int` product holds, which `/ 2` then divides. -/
def insuredBet (pHand dHand : List card) (whoWon : Int) (bet : Int) : Int :=
  if whoWon = 0 ∧ sumHand dHand = 21 then 0
  else if whoWon = 0 ∧ sumHand dHand = 21 ∧ sumHand pHand = 21 then bet
  else if whoWon = 3 then Int.tdiv (wrapInt (bet * 3)) 2
  else bet - Int.tdiv bet 2

/-- The function `insuranceOffer`, reading its answers from the input. -/
def insuranceOffer (s : RoundState) : List Int → Option (RoundState × List Int)
  | [] => none
  | choice :: rest =>
    if choice > 2 ∨ choice < 0 then insuranceOffer s rest
    else if choice = 1 then
      some ({ s with player :=
                { s.player with bet := insuredBet s.pHand s.dHand s.whoWon s.player.bet } }, rest)
    else if choice = 2 then some (s, rest)
    else if choice = 0 ∧ s.player.totalTokens ≠ 0 then insuranceOffer s rest
    else some (s, rest)

/-- The function `processChoice`; `inputs` is what is left to read after `choice`. -/
def processChoice (choice : Int) (s : RoundState) (inputs : List Int) :
    Option (RoundState × List Int) :=
  if choice = 1 then
    match playerHit s.deck s.pHand s.whoWon with
    | none => none
    | some (deck1, pHand1, whoWon1) =>
      some ({ s with deck := deck1, pHand := pHand1, whoWon := whoWon1,
                     canDoubleDown := false }, inputs)
  else if choice = 2 then
    if s.canDoubleDown then
      match doubleDown s with
      | none => none
      | some s1 => some ({ s1 with initialPhase := false }, inputs)
    else some (s, inputs)
  else if choice = 3 then
    match canPurchaseInsurance s.dHand s.player with
    | none => none
    | some offered =>
      match (if offered then insuranceOffer s inputs else some (s, inputs)) with
      | none => none
      | some (s1, inputs1) =>
        match stand s1.deck s1.pHand s1.dHand s1.whoWon s1.player.bet with
        | none => none
        | some r =>
          some ({ s1 with deck := r.deck, dHand := r.dHand, whoWon := r.ret,
                          initialPhase := false }, inputs1)
  else some (s, inputs)

/-- The `do ... while (choice != 3 && whoWon == 0)` loop of `roundMenu`, one input per
iteration.  An input outside 1..3 makes `getValidChoice` fail and `continue` jump to the
loop condition.  Only choice 3 reads further input (the insurance answer) and it ends the
loop, so the recursive calls are on the tail of the input (`processChoice_inputs`). -/
def roundMenuLoop (s : RoundState) : List Int → Option (RoundState × List Int)
  | [] =>
    let e := checkEarlyWin s.pHand s.dHand s.whoWon
    if e.1 then
      match stand s.deck s.pHand s.dHand e.2 s.player.bet with
      | none => none
      | some r => some ({ s with deck := r.deck, dHand := r.dHand, whoWon := r.ret }, [])
    else none
  | choice :: rest =>
    let e := checkEarlyWin s.pHand s.dHand s.whoWon
    if e.1 then
      match stand s.deck s.pHand s.dHand e.2 s.player.bet with
      | none => none
      | some r =>
        some ({ s with deck := r.deck, dHand := r.dHand, whoWon := r.ret }, choice :: rest)
    else if choice < 1 ∨ choice > 3 then
      if choice ≠ 3 ∧ s.whoWon = 0 then roundMenuLoop s rest else some (s, rest)
    else
      match processChoice choice s rest with
      | none => none
      | some (s1, rest1) =>
        if choice ≠ 3 ∧ s1.whoWon = 0 then roundMenuLoop s1 rest else some (s1, rest1)

/-- The function `roundMenu`: the loop entered with both flags `true`. -/
def roundMenu (deck pHand dHand : List card) (whoWon : Int) (player : Player)
    (inputs : List Int) : Option (RoundState × List Int) :=
  roundMenuLoop
    { deck := deck, pHand := pHand, dHand := dHand, whoWon := whoWon, player := player,
      initialPhase := true, canDoubleDown := true } inputs

/-- One iteration of the dealing loop of `playRound`: a card to the player, then a card
to the dealer. -/
def dealPair (deck pHand dHand : List card) : Option (List card × List card × List card) :=
  match deck with
  | c1 :: c2 :: deck1 => some (deck1, pHand ++ [c1], dHand ++ [c2])
  | _ => none

/-- The settlement at the end of `playRound`: the final signed bet; `player.bet * 3` is
the value the `int` product holds, which `/ 2` then divides. -/
def settleBet (whoWon : Int) (pHand : List card) (bet : Int) : Int :=
  if whoWon = 1 then
    (if sumHand pHand = 21 ∧ cardCount pHand = 2 then Int.tdiv (wrapInt (bet * 3)) 2
     else bet)
  else if whoWon = 2 then 0
  else if whoWon = 3 then bet * -1
  else bet

/-- The function `playRound`: the variables at its end and the unread input.  On an
empty deck it does nothing. -/
def playRound (deck : List card) (player : Player) (inputs : List Int) :
    Option (RoundState × List Int) :=
  match deck with
  | [] =>
    some ({ deck := [], pHand := [], dHand := [], whoWon := 0, player := player,
            initialPhase := true, canDoubleDown := true }, inputs)
  | _ :: _ =>
    match dealPair deck [] [] with
    | none => none
    | some (deck1, pHand1, dHand1) =>
      match dealPair deck1 pHand1 dHand1 with
      | none => none
      | some (deck2, pHand2, dHand2) =>
        match roundMenu deck2 pHand2 dHand2 0 player inputs with
        | none => none
        | some (s, rest) =>
          some ({ s with player :=
                    { s.player with bet := settleBet s.whoWon s.pHand s.player.bet } }, rest)

/-- The variables at the head of the loop of `roundMenu` once the inputs given have all
been read, when the loop is then still running (`none` when the round has ended before,
or has failed).  It follows `roundMenuLoop` iteration by iteration and serves to speak of
the moment a choice is made. -/
def loopHead (s : RoundState) : List Int → Option RoundState
  | [] => some s
  | choice :: rest =>
    if (checkEarlyWin s.pHand s.dHand s.whoWon).1 then none
    else if choice < 1 ∨ choice > 3 then
      if choice ≠ 3 ∧ s.whoWon = 0 then loopHead s rest else none
    else
      match processChoice choice s rest with
      | none => none
      | some (s1, _) =>
        if choice ≠ 3 ∧ s1.whoWon = 0 then loopHead s1 rest else none

/-- The variables of `playRound` after the initial deal, as `roundMenu` first sees them. -/
def dealt (deck : List card) (player : Player) : Option RoundState :=
  match dealPair deck [] [] with
  | none => none
  | some (deck1, pHand1, dHand1) =>
    match dealPair deck1 pHand1 dHand1 with
    | none => none
    | some (deck2, pHand2, dHand2) =>
      some { deck := deck2, pHand := pHand2, dHand := dHand2, whoWon := 0, player := player,
             initialPhase := true, canDoubleDown := true }

/-! ## Session loop (`main`, `betMenu`) -/

/-- The function `betMenu`: the entries are read until one is a multiple of 10, at least
10 and at most `tokenCount`; the result is that bet and the unread input.  (The outer
`do ... while (bet == 0)` repeats the prompt only for a bet of 0, which the inner loop
never lets through.) -/
def betMenu (tokenCount : Int) : List Int → Option (Int × List Int)
  | [] => none
  | bet :: rest =>
    if Int.tmod bet 10 ≠ 0 ∨ bet < 10 ∨ bet > tokenCount then betMenu tokenCount rest
    else if bet = 0 then betMenu tokenCount rest
    else some (bet, rest)

/-- The first two statements of `case 1` in `main`: `betMenu(player.totalTokens,
player.bet); generateDeck(deck);`.  The result is the deck that `playRound` is then
called with, the player with the bet entered, and the unread input. -/
def roundStart (deck : List card) (player : Player) (inputs : List Int) (randoms : List Nat) :
    Option (List card × Player × List Int) :=
  match betMenu player.totalTokens inputs with
  | none => none
  | some (bet, rest) =>
    match generateDeck deck randoms with
    | none => none
    | some (deck1, _) => some (deck1, { player with bet := bet }, rest)

/-- The body of `case 1` in `main`: `betMenu`, `generateDeck(deck)`, `playRound(deck,
player)`, `player.totalTokens += player.bet` (the value the `int` sum holds).  The result
is the variable `deck` and the player afterwards, and the unread input. -/
def mainRound (deck : List card) (player : Player) (inputs : List Int) (randoms : List Nat) :
    Option (List card × Player × List Int) :=
  match roundStart deck player inputs randoms with
  | none => none
  | some (deck1, player1, rest) =>
    match playRound deck1 player1 rest with
    | none => none
    | some (s, rest1) =>
      some (s.deck,
        { s.player with totalTokens := wrapInt (s.player.totalTokens + s.player.bet) }, rest1)

/-- The menu prompt of `main`:
`while (!(cin >> choice) || choice > 2 || choice < 0)` reads until an entry is in 0..2. -/
def readMainChoice : List Int → Option (Int × List Int)
  | [] => none
  | choice :: rest =>
    if choice > 2 ∨ choice < 0 then readMainChoice rest else some (choice, rest)

/-- The `do ... while (choice != 2 && !(player.totalTokens < 10))` loop of `main`.  Every
iteration reads at least one entry, so `fuel` above the length of the input is never used
up.  `randoms` holds one random source for each call of `generateDeck` (each call seeds
an engine of its own). -/
def mainLoop : Nat → List card → Player → List Int → List (List Nat) →
    Option (List card × Player × List Int)
  | 0, _, _, _, _ => none
  | fuel + 1, deck, player, inputs, randoms =>
    match readMainChoice inputs with
    | none => none
    | some (choice, rest) =>
      let after : Option (List card × Player × List Int × List (List Nat)) :=
        if choice = 1 then
          match randoms with
          | [] => none
          | source :: randoms1 =>
            match mainRound deck player rest source with
            | none => none
            | some (deck1, player1, rest1) => some (deck1, player1, rest1, randoms1)
        else some (deck, player, rest, randoms)
      match after with
      | none => none
      | some (deck1, player1, rest1, randoms1) =>
        if choice ≠ 2 ∧ ¬ (player1.totalTokens < 10) then
          mainLoop fuel deck1 player1 rest1 randoms1
        else some (deck1, player1, rest1)

/-- The function `main`: the loop entered with an empty `deck` and a player of 500
tokens.  The result is the variable `deck` and the player at the end, and the unread
input. -/
def main (inputs : List Int) (randoms : List (List Nat)) :
    Option (List card × Player × List Int) :=
  mainLoop (inputs.length + 1) [] { totalTokens := 500, bet := 0 } inputs randoms

/-! ## Theorems -/

/-- A result within the range of a 32-bit `int` is what the `int` holds. -/
theorem wrapInt_eq (x : Int) (h1 : -2147483648 ≤ x) (h2 : x ≤ 2147483647) :
    wrapInt x = x := by
  unfold wrapInt
  omega

/-- The result of `wrapInt` is in the range of a 32-bit `int`. -/
theorem wrapInt_range (x : Int) : -2147483648 ≤ wrapInt x ∧ wrapInt x ≤ 2147483647 := by
  unfold wrapInt
  omega

theorem sumHandLoop_eq (hand : List card) (handSum : Int) (aceCount : Nat) :
    sumHandLoop hand handSum aceCount
      = (handSum + (hand.map cardPoints).sum, aceCount + aceNumber hand) := by
  induction hand generalizing handSum aceCount with
  | nil => simp [sumHandLoop, aceNumber]
  | cons c t ih =>
    unfold sumHandLoop
    by_cases h10 : c.faceValue > 10
    · have h1 : ¬ c.faceValue = 1 := by omega
      simp [h10, h1, ih, cardPoints, aceNumber, List.filter_cons]
      omega
    · by_cases h1 : c.faceValue = 1
      · simp [h1, ih, cardPoints, aceNumber, List.filter_cons]
        omega
      · simp [h10, h1, ih, cardPoints, aceNumber, List.filter_cons]
        omega

theorem adjustAces_eq_demoteAces (n : Nat) (t : Int) : adjustAces n t = demoteAces n t := by
  induction n generalizing t with
  | zero => rfl
  | succ n ih => simp [adjustAces, demoteAces, ih]

theorem sumHand_eq_handTotalSpec (hand : List card) : sumHand hand = handTotalSpec hand := by
  simp [sumHand, handTotalSpec, sumHandLoop_eq, adjustAces_eq_demoteAces]


theorem handTotalSpec_perm {h1 h2 : List card} (hp : h1.Perm h2) :
    handTotalSpec h1 = handTotalSpec h2 := by
  unfold handTotalSpec aceNumber
  rw [(hp.map cardPoints).sum_eq, (hp.filter _).length_eq]

/-- C1: for every hand (in particular every hand with face values in 1..13), `sumHand`
returns the total obtained by counting each card above 10 as 10, each ace as 11 and every
other card at its face value, and then demoting one ace (minus 10) as long as the total
exceeds 21 and an ace is still counted as 11. -/
theorem sumHand_meets_spec (hand : List card) :
    sumHand hand = demoteAces (aceNumber hand) ((hand.map cardPoints).sum) :=
  sumHand_eq_handTotalSpec hand

/-- C2: whatever the suits, `sumHand` of Ace, King is 21 (in either order), of Ace, Ace
is 12, and of Ace, Ace, Ace, Ace, King is 14. -/
theorem sumHand_examples (s1 s2 s3 s4 s5 : Int) :
    sumHand [⟨1, s1⟩, ⟨13, s2⟩] = 21 ∧ sumHand [⟨13, s1⟩, ⟨1, s2⟩] = 21 ∧
    sumHand [⟨1, s1⟩, ⟨1, s2⟩] = 12 ∧
    sumHand [⟨1, s1⟩, ⟨1, s2⟩, ⟨1, s3⟩, ⟨1, s4⟩, ⟨13, s5⟩] = 14 := by
  refine ⟨?_, ?_, ?_, ?_⟩ <;> simp [sumHand, sumHandLoop, adjustAces]

/-- C3: two hands that are permutations of each other have the same `sumHand`. -/
theorem sumHand_perm (h1 h2 : List card) (hp : h1.Perm h2) : sumHand h1 = sumHand h2 := by
  rw [sumHand_eq_handTotalSpec, sumHand_eq_handTotalSpec]
  exact handTotalSpec_perm hp

/-- Witness of C3: Ace, King, 5 against 5, Ace, King. -/
theorem sumHand_perm_witness :
    ([⟨1, 0⟩, ⟨13, 1⟩, ⟨5, 2⟩] : List card).Perm [⟨5, 2⟩, ⟨1, 0⟩, ⟨13, 1⟩] ∧
    sumHand [⟨1, 0⟩, ⟨13, 1⟩, ⟨5, 2⟩] = sumHand [⟨5, 2⟩, ⟨1, 0⟩, ⟨13, 1⟩] :=
  ⟨by decide, sumHand_perm _ _ (by decide)⟩

/-! ### Deck generation -/

theorem pickUnused_unused (used : List Bool) (randoms : List Nat) (cv : Nat) (rest : List Nat)
    (h : pickUnused used randoms = some (cv, rest)) : used[cv]? = some false := by
  induction randoms with
  | nil => simp [pickUnused] at h
  | cons r rs ih =>
    unfold pickUnused at h
    cases hu : used[r]? with
    | none => simp [hu] at h
    | some b =>
      cases b with
      | true => simp [hu] at h; exact ih h
      | false =>
        simp [hu] at h
        rw [← h.1]; exact hu

theorem generateDeckLoop_picks (n : Nat) (used : List Bool) (deck : List card)
    (randoms : List Nat) (deck1 : List card) (rest : List Nat)
    (h : generateDeckLoop n used deck randoms = some (deck1, rest)) :
    ∃ picks : List Nat, deck1 = deck ++ picks.map cardOfIndex ∧ picks.length = n ∧
      picks.Nodup ∧ ∀ p ∈ picks, used[p]? = some false := by
  induction n generalizing used deck randoms with
  | zero =>
    simp [generateDeckLoop] at h
    exact ⟨[], by simp [h.1], rfl, List.nodup_nil, by simp⟩
  | succ n ih =>
    unfold generateDeckLoop at h
    cases hp : pickUnused used randoms with
    | none => simp [hp] at h
    | some pr =>
      obtain ⟨cv, rest1⟩ := pr
      simp only [hp] at h
      obtain ⟨picks, hd, hl, hn, hu⟩ := ih _ _ _ h
      have hcv := pickUnused_unused used randoms cv rest1 hp
      have hkey : ∀ p ∈ picks, p ≠ cv ∧ used[p]? = some false := by
        intro p hpm
        have h1 := hu p hpm
        by_cases hpc : cv = p
        · subst hpc
          rw [List.getElem?_set] at h1
          simp at h1
        · rw [List.getElem?_set] at h1
          simp [hpc] at h1
          exact ⟨fun e => hpc e.symm, h1⟩
      refine ⟨cv :: picks, ?_, by simp [hl], ?_, ?_⟩
      · simp [hd]
      · exact List.nodup_cons.mpr ⟨fun hm => (hkey cv hm).1 rfl, hn⟩
      · intro p hpm
        rcases List.mem_cons.mp hpm with e | hm
        · rw [e]; exact hcv
        · exact (hkey p hm).2

theorem generateDeck_perm (randoms : List Nat) (deck : List card) (rest : List Nat)
    (h : generateDeck [] randoms = some (deck, rest)) :
    deck.Perm ((List.range 52).map cardOfIndex) := by
  obtain ⟨picks, hd, hl, hn, hu⟩ := generateDeckLoop_picks _ _ _ _ _ _ h
  have hsub : picks ⊆ List.range 52 := by
    intro p hpm
    have h1 := hu p hpm
    rw [List.mem_range]
    by_contra hge
    rw [List.getElem?_eq_none (by simpa using hge)] at h1
    cases h1
  have hperm : picks.Perm (List.range 52) :=
    (List.subperm_of_subset hn hsub).perm_of_length_le (by simp [hl])
  rw [hd, List.nil_append]
  exact hperm.map cardOfIndex

theorem fullDeck_range : ∀ c ∈ (List.range 52).map cardOfIndex,
    1 ≤ c.faceValue ∧ c.faceValue ≤ 13 ∧ 0 ≤ c.suit ∧ c.suit ≤ 3 := by
  decide

theorem fullDeck_count (f s : Int) (hf1 : 1 ≤ f) (hf2 : f ≤ 13) (hs1 : 0 ≤ s) (hs2 : s ≤ 3) :
    ((List.range 52).map cardOfIndex).count ⟨f, s⟩ = 1 := by
  interval_cases f <;> interval_cases s <;> decide

/-- C4: whenever `generateDeck` completes from an empty deck (on any random source; a
number outside 0..51 makes the model fail), the deck has exactly 52 cards, every card has
face value in 1..13 and suit in 0..3, and each (face value, suit) pair of that range
occurs exactly once. -/
theorem generateDeck_full (randoms : List Nat) (deck : List card) (rest : List Nat)
    (_hr : ∀ r ∈ randoms, r < 52)
    (h : generateDeck [] randoms = some (deck, rest)) :
    deck.length = 52 ∧
    (∀ c ∈ deck, 1 ≤ c.faceValue ∧ c.faceValue ≤ 13 ∧ 0 ≤ c.suit ∧ c.suit ≤ 3) ∧
    (∀ f s : Int, 1 ≤ f → f ≤ 13 → 0 ≤ s → s ≤ 3 → deck.count ⟨f, s⟩ = 1) := by
  have hp := generateDeck_perm randoms deck rest h
  refine ⟨by simpa using hp.length_eq, ?_, ?_⟩
  · intro c hc
    exact fullDeck_range c (hp.subset hc)
  · intro f s hf1 hf2 hs1 hs2
    rw [hp.count_eq]
    exact fullDeck_count f s hf1 hf2 hs1 hs2

/-- Witness of C4: the random source 51, 51, 50, 50, ..., 0, 0 (every number drawn
twice, so that the retry loop runs) gives the deck in descending order. -/
theorem generateDeck_full_witness :
    (∀ r ∈ (List.range 52).reverse.flatMap (fun i => [i, i]), r < 52) ∧
    generateDeck [] ((List.range 52).reverse.flatMap (fun i => [i, i]))
      = some ((List.range 52).reverse.map cardOfIndex, [0]) ∧
    ((List.range 52).reverse.map cardOfIndex).length = 52 ∧
    (∀ c ∈ (List.range 52).reverse.map cardOfIndex,
      1 ≤ c.faceValue ∧ c.faceValue ≤ 13 ∧ 0 ≤ c.suit ∧ c.suit ≤ 3) ∧
    (∀ f s : Int, 1 ≤ f → f ≤ 13 → 0 ≤ s → s ≤ 3 →
      ((List.range 52).reverse.map cardOfIndex).count ⟨f, s⟩ = 1) :=
  ⟨by decide, by decide,
    generateDeck_full ((List.range 52).reverse.flatMap (fun i => [i, i])) _ [0]
      (by decide) (by decide)⟩

/-! ### The dealer's policy in `stand` -/

theorem cardCountLoop_eq (hand : List card) (k : Int) :
    cardCountLoop hand k = k + hand.length := by
  induction hand generalizing k with
  | nil => simp [cardCountLoop]
  | cons c t ih =>
    simp [cardCountLoop, ih]
    omega

theorem cardCount_eq_length (hand : List card) : cardCount hand = hand.length := by
  simp [cardCount, cardCountLoop_eq]

/-- The loop equation of the dealer's loop, with the deck that `dealerHit` returns. -/
theorem standLoop_unfold (deck dHand : List card) (whoWon : Int) :
    standLoop deck dHand whoWon =
      if sumHand dHand < 17 then
        match dealerHit deck dHand whoWon with
        | none => none
        | some (deck1, dHand1, whoWon1) => standLoop deck1 dHand1 whoWon1
      else some (deck, dHand, whoWon) := by
  cases deck with
  | nil => simp [standLoop, dealerHit]
  | cons c rest => simp [standLoop, dealerHit]

theorem standLoop_some (deck dHand : List card) (w : Int) (deck1 dHand1 : List card) (w1 : Int)
    (h : standLoop deck dHand w = some (deck1, dHand1, w1)) :
    ∃ n, n ≤ deck.length ∧ dHand1 = dHand ++ deck.take n ∧ deck1 = deck.drop n ∧
      17 ≤ sumHand dHand1 ∧ (∀ m, m < n → sumHand (dHand ++ deck.take m) < 17) ∧
      w1 = (if n = 0 then w else if sumHand dHand1 > 21 then 1
            else if sumHand dHand1 = 21 then 0 else w) := by
  induction deck generalizing dHand w with
  | nil =>
    unfold standLoop at h
    by_cases hlt : sumHand dHand < 17
    · simp [hlt] at h
    · simp [hlt] at h
      obtain ⟨e1, e2, e3⟩ := h
      subst e1; subst e2; subst e3
      exact ⟨0, by simp, by simp, by simp, by omega, by simp, by simp⟩
  | cons c rest ih =>
    unfold standLoop at h
    by_cases hlt : sumHand dHand < 17
    · simp only [hlt, if_true, dealerHit] at h
      obtain ⟨n, hn, hd, hk, h17, hmin, hw⟩ := ih _ _ h
      refine ⟨n + 1, by simp [hn], by simp [hd], by simp [hk], h17, ?_, ?_⟩
      · intro m hm
        cases m with
        | zero => simpa using hlt
        | succ k =>
          have := hmin k (by omega)
          simpa using this
      · by_cases hn0 : n = 0
        · subst hn0
          simp only [List.take_zero, List.append_nil] at hd
          subst hd
          simp only [if_true] at hw
          rw [hw]
          simp only [Nat.add_one_ne_zero, if_false]
          by_cases h21 : sumHand (dHand ++ [c]) = 21
          · simp [h21]
          · by_cases hgt : sumHand (dHand ++ [c]) > 21
            · simp [h21, hgt]
            · simp [h21, hgt]
        · have h0 := hmin 0 (by omega)
          simp only [List.take_zero, List.append_nil] at h0
          have e1 : ¬ sumHand (dHand ++ [c]) > 21 := by omega
          have e2 : ¬ sumHand (dHand ++ [c]) = 21 := by omega
          simp only [hn0, if_false] at hw
          rw [hw]
          simp [e1, e2]
    · simp [hlt] at h
      obtain ⟨e1, e2, e3⟩ := h
      subst e1; subst e2; subst e3
      exact ⟨0, by simp, by simp, by simp, by omega, by simp, by simp⟩

theorem standLoop_completes (deck dHand : List card) (w : Int) (k : Nat)
    (hk : k ≤ deck.length) (h17 : 17 ≤ sumHand (dHand ++ deck.take k)) :
    ∃ r, standLoop deck dHand w = some r := by
  induction deck generalizing dHand w k with
  | nil =>
    simp at h17
    exact ⟨([], dHand, w), by simp [standLoop, not_lt.mpr h17]⟩
  | cons c rest ih =>
    unfold standLoop
    by_cases hlt : sumHand dHand < 17
    · cases k with
      | zero => simp at h17; omega
      | succ k1 =>
        simp only [hlt, if_true, dealerHit]
        exact ih _ _ k1 (by simpa using hk) (by simpa using h17)
    · exact ⟨(c :: rest, dHand, w), by simp [hlt]⟩

/-- What `stand` does when entered with `whoWon = 0`: the dealer's draws and the value
returned. -/
theorem stand_zero (deck pHand dHand : List card) (bet : Int) (r : StandResult)
    (h : stand deck pHand dHand 0 bet = some r) :
    ∃ n, n ≤ deck.length ∧ r.dHand = dHand ++ deck.take n ∧ r.deck = deck.drop n ∧
      17 ≤ sumHand r.dHand ∧ (∀ m, m < n → sumHand (dHand ++ deck.take m) < 17) ∧
      r.whoWon = (if n = 0 then 0 else if sumHand r.dHand > 21 then 1 else 0) ∧
      r.ret = (if r.whoWon ≠ 0 then r.whoWon
        else if sumHand pHand > sumHand r.dHand then 1
        else if sumHand pHand = sumHand r.dHand then
          (if sumHand pHand = 21 ∧ sumHand r.dHand = 21 ∧ r.dHand.length < pHand.length
            then 3 else 2)
        else 3) := by
  unfold stand at h
  simp only [ne_eq, not_true_eq_false, if_false] at h
  cases hl : standLoop deck dHand 0 with
  | none => simp [hl] at h
  | some t =>
    obtain ⟨deck1, dHand1, w1⟩ := t
    simp only [hl, Option.some.injEq] at h
    obtain ⟨n, hn, hd, hk, h17, hmin, hw⟩ := standLoop_some _ _ _ _ _ _ hl
    subst h
    refine ⟨n, hn, hd, hk, h17, hmin, ?_, ?_⟩
    · simp only [hw]
      by_cases hn0 : n = 0
      · simp [hn0]
      · by_cases hgt : sumHand dHand1 > 21
        · simp [hn0, hgt]
        · by_cases h21 : sumHand dHand1 = 21
          · simp [hn0, h21]
          · simp [hn0, hgt, h21]
    · simp only [cardCount_eq_length, gt_iff_lt, Nat.cast_lt, ne_eq]
      by_cases hw0 : w1 = 0
      · simp only [hw0, not_true_eq_false, if_false]
        by_cases h1 : sumHand dHand1 < sumHand pHand
        · simp [h1]
        · by_cases h2 : sumHand pHand = sumHand dHand1
          · simp [h1, h2]
          · have h3 : sumHand pHand < sumHand dHand1 := by omega
            simp [h1, h2, h3]
      · simp [hw0]

theorem stand_completes (deck pHand dHand : List card) (whoWon bet : Int) (k : Nat)
    (hk : k ≤ deck.length) (h17 : 17 ≤ sumHand (dHand ++ deck.take k)) :
    ∃ r, stand deck pHand dHand whoWon bet = some r := by
  unfold stand
  by_cases hw : whoWon ≠ 0
  · exact ⟨{ ret := whoWon, deck := deck, dHand := dHand, whoWon := whoWon },
      by rw [if_pos hw]⟩
  · obtain ⟨t, ht⟩ := standLoop_completes deck dHand whoWon k hk h17
    obtain ⟨deck1, dHand1, w1⟩ := t
    rw [if_neg hw, ht]
    exact ⟨_, rfl⟩

/-- The value `stand` returns from `whoWon = 0` when the dealer's hand does not exceed 21
on entry: decided by the final totals alone. -/
theorem stand_zero_ret (deck pHand dHand : List card) (bet : Int) (r : StandResult)
    (h : stand deck pHand dHand 0 bet = some r) (hd : sumHand dHand ≤ 21) :
    r.ret = (if sumHand r.dHand > 21 then 1
        else if sumHand pHand > sumHand r.dHand then 1
        else if sumHand pHand = sumHand r.dHand then
          (if sumHand pHand = 21 ∧ sumHand r.dHand = 21 ∧ r.dHand.length < pHand.length
            then 3 else 2)
        else 3) := by
  obtain ⟨n, _, hdh, _, _, _, hw, hret⟩ := stand_zero _ _ _ _ _ h
  rw [hret, hw]
  by_cases hn0 : n = 0
  · subst hn0
    simp only [List.take_zero, List.append_nil] at hdh
    have hle : ¬ sumHand r.dHand > 21 := by rw [hdh]; omega
    simp [hle]
  · by_cases hgt : sumHand r.dHand > 21
    · simp [hn0, hgt]
    · simp [hn0, hgt]

/-- C5 as the claim words it fails: a dealer hand that already exceeds 21 when `stand` is
entered (three 10-valued cards, total 30) is not drawn to, the bust flag is never set, and
against a player's 20 `stand` returns 3 (Dealer Win) although the dealer's final total
exceeds 21. -/
theorem stand_dealer_over_on_entry :
    stand [⟨5, 0⟩] [⟨10, 0⟩, ⟨10, 1⟩] [⟨10, 2⟩, ⟨10, 3⟩, ⟨11, 3⟩] 0 100
      = some { ret := 3, deck := [⟨5, 0⟩], dHand := [⟨10, 2⟩, ⟨10, 3⟩, ⟨11, 3⟩], whoWon := 0 } ∧
    sumHand [⟨10, 0⟩, ⟨10, 1⟩] ≤ 21 ∧ sumHand [⟨10, 2⟩, ⟨10, 3⟩, ⟨11, 3⟩] > 21 := by
  decide

/-- C5 (amended): when `stand` is entered with `whoWon = 0`, a player hand of at most 21, a
dealer hand of at most 21 and a deck that can bring the dealer to 17, it returns, and the
value returned is decided by the final totals: 1 if the dealer's final total exceeds 21 or
is below the player's; 3 if it is at most 21 and above the player's, or if both are 21 and
the player holds more cards; 2 in every other case of equal totals. -/
theorem stand_outcome (deck pHand dHand : List card) (bet : Int)
    (hex : ∃ k, k ≤ deck.length ∧ 17 ≤ sumHand (dHand ++ deck.take k))
    (hp : sumHand pHand ≤ 21) (hd : sumHand dHand ≤ 21) :
    ∃ r, stand deck pHand dHand 0 bet = some r ∧
      ((sumHand r.dHand > 21 ∨ sumHand r.dHand < sumHand pHand) → r.ret = 1) ∧
      (((sumHand r.dHand ≤ 21 ∧ sumHand pHand < sumHand r.dHand) ∨
        (sumHand pHand = 21 ∧ sumHand r.dHand = 21 ∧ r.dHand.length < pHand.length))
          → r.ret = 3) ∧
      ((sumHand pHand = sumHand r.dHand ∧
        ¬ (sumHand pHand = 21 ∧ sumHand r.dHand = 21 ∧ r.dHand.length < pHand.length))
          → r.ret = 2) := by
  obtain ⟨k, hk, h17⟩ := hex
  obtain ⟨r, hr⟩ := stand_completes deck pHand dHand 0 bet k hk h17
  have hret := stand_zero_ret _ _ _ _ _ hr hd
  refine ⟨r, hr, ?_, ?_, ?_⟩
  · rintro (h1 | h1)
    · rw [hret]; simp [h1]
    · rw [hret]
      by_cases hgt : sumHand r.dHand > 21
      · simp [hgt]
      · simp [hgt, h1]
  · rintro (⟨h1, h2⟩ | ⟨h1, h2, h3⟩)
    · have e1 : ¬ sumHand r.dHand > 21 := by omega
      have e2 : ¬ sumHand pHand > sumHand r.dHand := by omega
      have e3 : ¬ sumHand pHand = sumHand r.dHand := by omega
      rw [hret]; simp [e1, e2, e3]
    · rw [hret]; simp [h1, h2, h3]
  · rintro ⟨h1, h2⟩
    have e1 : ¬ sumHand r.dHand > 21 := by omega
    have e2 : ¬ sumHand pHand > sumHand r.dHand := by omega
    rw [hret, if_neg e1, if_neg e2, if_pos h1, if_neg h2]

/-- Witness of C5 (amended): player 10, 9 against dealer 9, 7 with the deck 5, King. -/
theorem stand_outcome_witness :
    ∃ r, stand [⟨5, 0⟩, ⟨13, 0⟩] [⟨10, 0⟩, ⟨9, 1⟩] [⟨9, 2⟩, ⟨7, 3⟩] 0 100 = some r ∧
      ((sumHand r.dHand > 21 ∨ sumHand r.dHand < sumHand [⟨10, 0⟩, ⟨9, 1⟩]) → r.ret = 1) ∧
      (((sumHand r.dHand ≤ 21 ∧ sumHand [⟨10, 0⟩, ⟨9, 1⟩] < sumHand r.dHand) ∨
        (sumHand [⟨10, 0⟩, ⟨9, 1⟩] = 21 ∧ sumHand r.dHand = 21 ∧
          r.dHand.length < ([⟨10, 0⟩, ⟨9, 1⟩] : List card).length))
          → r.ret = 3) ∧
      ((sumHand [⟨10, 0⟩, ⟨9, 1⟩] = sumHand r.dHand ∧
        ¬ (sumHand [⟨10, 0⟩, ⟨9, 1⟩] = 21 ∧ sumHand r.dHand = 21 ∧
          r.dHand.length < ([⟨10, 0⟩, ⟨9, 1⟩] : List card).length))
          → r.ret = 2) :=
  stand_outcome [⟨5, 0⟩, ⟨13, 0⟩] [⟨10, 0⟩, ⟨9, 1⟩] [⟨9, 2⟩, ⟨7, 3⟩] 100
    ⟨1, by decide, by decide⟩ (by decide) (by decide)

/-- C6: entered with `whoWon = 0` and a deck that can bring the dealer to 17, `stand`
returns after the dealer has taken, from the front of the deck and in order, exactly the
smallest number `n` of cards that brings the dealer's total to at least 17; the rest of
the deck is left, and with 17 or more on entry nothing is drawn. -/
theorem stand_dealer_draws (deck pHand dHand : List card) (bet : Int)
    (hex : ∃ k, k ≤ deck.length ∧ 17 ≤ sumHand (dHand ++ deck.take k)) :
    ∃ n r, stand deck pHand dHand 0 bet = some r ∧ n ≤ deck.length ∧
      17 ≤ sumHand (dHand ++ deck.take n) ∧
      (∀ m, m < n → sumHand (dHand ++ deck.take m) < 17) ∧
      r.dHand = dHand ++ deck.take n ∧ r.deck = deck.drop n ∧ 17 ≤ sumHand r.dHand ∧
      (17 ≤ sumHand dHand → n = 0 ∧ r.deck = deck ∧ r.dHand = dHand) := by
  obtain ⟨k, hk, h17⟩ := hex
  obtain ⟨r, hr⟩ := stand_completes deck pHand dHand 0 bet k hk h17
  obtain ⟨n, hn, hdh, hdk, hfin, hmin, _, _⟩ := stand_zero _ _ _ _ _ hr
  refine ⟨n, r, hr, hn, by rw [← hdh]; exact hfin, hmin, hdh, hdk, hfin, ?_⟩
  intro h0
  have hn0 : n = 0 := by
    by_contra hne
    have := hmin 0 (by omega)
    simp at this
    omega
  subst hn0
  exact ⟨rfl, by simpa using hdk, by simpa using hdh⟩

/-- Witness of C6: the dealer holds 2, 3 and the deck is 4, 5, 6, King: three cards are
taken (totals 9, 14, 20) and the King is left. -/
theorem stand_dealer_draws_witness :
    ∃ n r, stand [⟨4, 0⟩, ⟨5, 0⟩, ⟨6, 0⟩, ⟨13, 0⟩] [⟨10, 0⟩, ⟨9, 1⟩] [⟨2, 2⟩, ⟨3, 3⟩] 0 100
        = some r ∧
      n ≤ ([⟨4, 0⟩, ⟨5, 0⟩, ⟨6, 0⟩, ⟨13, 0⟩] : List card).length ∧
      17 ≤ sumHand ([⟨2, 2⟩, ⟨3, 3⟩] ++ ([⟨4, 0⟩, ⟨5, 0⟩, ⟨6, 0⟩, ⟨13, 0⟩] : List card).take n) ∧
      (∀ m, m < n →
        sumHand ([⟨2, 2⟩, ⟨3, 3⟩] ++ ([⟨4, 0⟩, ⟨5, 0⟩, ⟨6, 0⟩, ⟨13, 0⟩] : List card).take m) < 17) ∧
      r.dHand = [⟨2, 2⟩, ⟨3, 3⟩] ++ ([⟨4, 0⟩, ⟨5, 0⟩, ⟨6, 0⟩, ⟨13, 0⟩] : List card).take n ∧
      r.deck = ([⟨4, 0⟩, ⟨5, 0⟩, ⟨6, 0⟩, ⟨13, 0⟩] : List card).drop n ∧ 17 ≤ sumHand r.dHand ∧
      (17 ≤ sumHand [⟨2, 2⟩, ⟨3, 3⟩] →
        n = 0 ∧ r.deck = [⟨4, 0⟩, ⟨5, 0⟩, ⟨6, 0⟩, ⟨13, 0⟩] ∧ r.dHand = [⟨2, 2⟩, ⟨3, 3⟩]) :=
  stand_dealer_draws [⟨4, 0⟩, ⟨5, 0⟩, ⟨6, 0⟩, ⟨13, 0⟩] [⟨10, 0⟩, ⟨9, 1⟩] [⟨2, 2⟩, ⟨3, 3⟩] 100
    ⟨3, by decide, by decide⟩

/-! ### The round: `playRound`, `roundMenu` and `processChoice` -/

theorem stand_nonzero (deck pHand dHand : List card) (w bet : Int) (hw : w ≠ 0) :
    stand deck pHand dHand w bet
      = some { ret := w, deck := deck, dHand := dHand, whoWon := w } := by
  unfold stand
  rw [if_pos hw]

theorem stand_ret_ne_zero (deck pHand dHand : List card) (w bet : Int) (r : StandResult)
    (h : stand deck pHand dHand w bet = some r) : r.ret ≠ 0 := by
  by_cases hw : w ≠ 0
  · rw [stand_nonzero _ _ _ _ _ hw] at h
    simp only [Option.some.injEq] at h
    rw [← h]; exact hw
  · have hw0 : w = 0 := by simpa using hw
    subst hw0
    obtain ⟨n, _, _, _, _, _, hwf, hret⟩ := stand_zero _ _ _ _ _ h
    rw [hret]
    by_cases h0 : r.whoWon ≠ 0
    · rw [if_pos h0]; exact h0
    · rw [if_neg h0]
      split_ifs <;> decide

/-- `playRound` on a deck of at least four cards: the deal, the menu, the settlement. -/
theorem playRound_four (c1 c2 c3 c4 : card) (rest : List card) (player : Player)
    (inputs : List Int) :
    playRound (c1 :: c2 :: c3 :: c4 :: rest) player inputs =
      match roundMenuLoop
          { deck := rest, pHand := [c1, c3], dHand := [c2, c4], whoWon := 0, player := player,
            initialPhase := true, canDoubleDown := true } inputs with
      | none => none
      | some (s, unread) =>
        some ({ s with player :=
                  { s.player with bet := settleBet s.whoWon s.pHand s.player.bet } }, unread) := by
  simp [playRound, dealPair, roundMenu]

/-- The iteration of the menu loop in which the player's hand totals 21: `stand` is
called with the flag `checkEarlyWin` has set and no input is read. -/
theorem roundMenuLoop_early (s : RoundState) (inputs : List Int)
    (h21 : sumHand s.pHand = 21) :
    roundMenuLoop s inputs =
      match stand s.deck s.pHand s.dHand (if sumHand s.dHand = 21 then 2 else 0)
          s.player.bet with
      | none => none
      | some r => some ({ s with deck := r.deck, dHand := r.dHand, whoWon := r.ret }, inputs) := by
  cases inputs with
  | nil =>
    by_cases hd : sumHand s.dHand = 21
    · simp [roundMenuLoop, checkEarlyWin, h21, hd]
    · simp [roundMenuLoop, checkEarlyWin, h21, hd]
  | cons c rest =>
    by_cases hd : sumHand s.dHand = 21
    · simp [roundMenuLoop, checkEarlyWin, h21, hd]
    · simp [roundMenuLoop, checkEarlyWin, h21, hd]

/-- C7, the code at the failing input: the player is dealt 10 of hearts, Ace of diamonds
(21), the dealer 9 of clubs, 7 of spades (16), and a 5 follows in the deck.  The dealer
draws the 5 and reaches a three-card 21; `playRound` ends with `whoWon = 2` (Push) and the
bet 0, not with Player Win and `(100 * 3) / 2 = 150`. -/
theorem playRound_natural_pushed :
    playRound [⟨10, 0⟩, ⟨9, 2⟩, ⟨1, 1⟩, ⟨7, 3⟩, ⟨5, 0⟩] { totalTokens := 500, bet := 100 } []
      = some ({ deck := [], pHand := [⟨10, 0⟩, ⟨1, 1⟩],
                dHand := [⟨9, 2⟩, ⟨7, 3⟩, ⟨5, 0⟩], whoWon := 2,
                player := { totalTokens := 500, bet := 0 },
                initialPhase := true, canDoubleDown := true }, []) ∧
    sumHand [⟨10, 0⟩, ⟨1, 1⟩] = 21 ∧ sumHand [⟨9, 2⟩, ⟨7, 3⟩] ≠ 21 ∧
    Int.tdiv (100 * 3) 2 = 150 := by
  decide

/-- C8: when the two cards dealt to the player and the two dealt to the dealer both total
21, `playRound` ends as a Push (`whoWon = 2`) with the final bet 0; no input is read and
no card beyond the four dealt leaves the deck. -/
theorem playRound_both_natural (c1 c2 c3 c4 : card) (rest : List card) (player : Player)
    (inputs : List Int) (hp : sumHand [c1, c3] = 21) (hd : sumHand [c2, c4] = 21) :
    playRound (c1 :: c2 :: c3 :: c4 :: rest) player inputs
      = some ({ deck := rest, pHand := [c1, c3], dHand := [c2, c4], whoWon := 2,
                player := { totalTokens := player.totalTokens, bet := 0 },
                initialPhase := true, canDoubleDown := true }, inputs) := by
  rw [playRound_four, roundMenuLoop_early _ _ hp]
  simp only [hd, if_true]
  rw [stand_nonzero _ _ _ _ _ (by decide)]
  simp [settleBet]

/-- Witness of C8: player 10, Ace and dealer King, Ace, with the input 1, 3 left unread. -/
theorem playRound_both_natural_witness :
    sumHand [⟨10, 0⟩, ⟨1, 1⟩] = 21 ∧ sumHand [⟨13, 2⟩, ⟨1, 3⟩] = 21 ∧
    playRound [⟨10, 0⟩, ⟨13, 2⟩, ⟨1, 1⟩, ⟨1, 3⟩, ⟨5, 0⟩, ⟨6, 0⟩]
        { totalTokens := 500, bet := 100 } [1, 3]
      = some ({ deck := [⟨5, 0⟩, ⟨6, 0⟩], pHand := [⟨10, 0⟩, ⟨1, 1⟩],
                dHand := [⟨13, 2⟩, ⟨1, 3⟩], whoWon := 2,
                player := { totalTokens := 500, bet := 0 },
                initialPhase := true, canDoubleDown := true }, [1, 3]) :=
  ⟨by decide, by decide,
    playRound_both_natural ⟨10, 0⟩ ⟨13, 2⟩ ⟨1, 1⟩ ⟨1, 3⟩ [⟨5, 0⟩, ⟨6, 0⟩]
      { totalTokens := 500, bet := 100 } [1, 3] (by decide) (by decide)⟩

theorem roundMenuLoop_nil (s : RoundState) (hne : sumHand s.pHand ≠ 21) :
    roundMenuLoop s [] = none := by
  simp [roundMenuLoop, checkEarlyWin, hne]

/-- The iteration of the menu loop that reads the input `c`. -/
theorem roundMenuLoop_cons (s : RoundState) (c : Int) (rest : List Int)
    (hne : sumHand s.pHand ≠ 21) :
    roundMenuLoop s (c :: rest) =
      if c < 1 ∨ c > 3 then
        (if c ≠ 3 ∧ s.whoWon = 0 then roundMenuLoop s rest else some (s, rest))
      else
        match processChoice c s rest with
        | none => none
        | some (s1, rest1) =>
          if c ≠ 3 ∧ s1.whoWon = 0 then roundMenuLoop s1 rest else some (s1, rest1) := by
  simp [roundMenuLoop, checkEarlyWin, hne]

/-- Choice 1 (Hit) on a non-empty deck. -/
theorem processChoice_one (s : RoundState) (inputs : List Int) (c : card) (deck1 : List card)
    (hd : s.deck = c :: deck1) :
    processChoice 1 s inputs =
      some ({ s with deck := deck1, pHand := s.pHand ++ [c],
                     whoWon := (if sumHand (s.pHand ++ [c]) = 21 then 0
                                else if sumHand (s.pHand ++ [c]) > 21 then 3 else s.whoWon),
                     canDoubleDown := false }, inputs) := by
  simp [processChoice, playerHit, hd]

theorem processChoice_one_nil (s : RoundState) (inputs : List Int) (hd : s.deck = []) :
    processChoice 1 s inputs = none := by
  simp [processChoice, playerHit, hd]

/-- Choice 2 (Double Down) once it is no longer available. -/
theorem processChoice_two_refused (s : RoundState) (inputs : List Int)
    (h : s.canDoubleDown = false) : processChoice 2 s inputs = some (s, inputs) := by
  simp [processChoice, h]

/-- Choice 2 (Double Down) with a balance below twice the bet. -/
theorem processChoice_two_short (s : RoundState) (inputs : List Int)
    (h : s.canDoubleDown = true) (hf : ¬ s.player.totalTokens ≥ wrapInt (s.player.bet * 2)) :
    processChoice 2 s inputs = some ({ s with initialPhase := false }, inputs) := by
  simp [processChoice, h, doubleDown, hf]

/-- Choice 2 (Double Down) with the balance for it. -/
theorem processChoice_two_funded (s : RoundState) (inputs : List Int)
    (h : s.canDoubleDown = true) (hf : s.player.totalTokens ≥ wrapInt (s.player.bet * 2))
    (c : card) (deck1 : List card) (hd : s.deck = c :: deck1) :
    processChoice 2 s inputs =
      match stand deck1 (s.pHand ++ [c]) s.dHand
          (if sumHand (s.pHand ++ [c]) = 21 then 0
           else if sumHand (s.pHand ++ [c]) > 21 then 3 else s.whoWon) s.player.bet with
      | none => none
      | some r =>
        some ({ s with deck := r.deck, pHand := s.pHand ++ [c], dHand := r.dHand,
                       whoWon := r.ret,
                       player := { s.player with
                         bet := if r.ret = 1 ∨ r.ret = 3 then wrapInt (s.player.bet * 2)
                                else s.player.bet },
                       initialPhase := false }, inputs) := by
  simp only [processChoice, h, doubleDown, hf, playerHit, hd, if_true]
  cases stand deck1 (s.pHand ++ [c]) s.dHand
      (if sumHand (s.pHand ++ [c]) = 21 then 0
       else if sumHand (s.pHand ++ [c]) > 21 then 3 else s.whoWon) s.player.bet with
  | none => simp
  | some r => simp

theorem processChoice_two_funded_nil (s : RoundState) (inputs : List Int)
    (h : s.canDoubleDown = true) (hf : s.player.totalTokens ≥ wrapInt (s.player.bet * 2))
    (hd : s.deck = []) : processChoice 2 s inputs = none := by
  simp [processChoice, h, doubleDown, hf, playerHit, hd]

/-- The answers of `insuranceOffer` change at most the bet, to `insuredBet`. -/
theorem insuranceOffer_some (s : RoundState) (inputs : List Int) (s1 : RoundState)
    (unread : List Int) (h : insuranceOffer s inputs = some (s1, unread)) :
    s1 = s ∨ s1 = { s with player :=
        { s.player with bet := insuredBet s.pHand s.dHand s.whoWon s.player.bet } } := by
  induction inputs with
  | nil => simp [insuranceOffer] at h
  | cons c rest ih =>
    unfold insuranceOffer at h
    by_cases h1 : c > 2 ∨ c < 0
    · rw [if_pos h1] at h; exact ih h
    · rw [if_neg h1] at h
      by_cases h2 : c = 1
      · rw [if_pos h2] at h
        simp only [Option.some.injEq, Prod.mk.injEq] at h
        exact Or.inr h.1.symm
      · rw [if_neg h2] at h
        by_cases h3 : c = 2
        · rw [if_pos h3] at h
          simp only [Option.some.injEq, Prod.mk.injEq] at h
          exact Or.inl h.1.symm
        · rw [if_neg h3] at h
          by_cases h4 : c = 0 ∧ s.player.totalTokens ≠ 0
          · rw [if_pos h4] at h; exact ih h
          · rw [if_neg h4] at h
            simp only [Option.some.injEq, Prod.mk.injEq] at h
            exact Or.inl h.1.symm

/-- Choice 3 (Stand): the bet is kept or replaced by `insuredBet`, then `stand` runs. -/
theorem processChoice_three (s : RoundState) (inputs : List Int) (s1 : RoundState)
    (unread : List Int) (h : processChoice 3 s inputs = some (s1, unread)) :
    ∃ bet1 r, (bet1 = s.player.bet ∨ bet1 = insuredBet s.pHand s.dHand s.whoWon s.player.bet) ∧
      stand s.deck s.pHand s.dHand s.whoWon bet1 = some r ∧
      s1 = { s with deck := r.deck, dHand := r.dHand, whoWon := r.ret,
                    player := { s.player with bet := bet1 }, initialPhase := false } := by
  simp only [processChoice, show ¬ (3 : Int) = 1 by decide, show ¬ (3 : Int) = 2 by decide,
    if_false, if_true] at h
  cases hc : canPurchaseInsurance s.dHand s.player with
  | none => simp [hc] at h
  | some offered =>
    simp only [hc] at h
    cases ho : (if offered = true then insuranceOffer s inputs else some (s, inputs)) with
    | none => simp [ho] at h
    | some t =>
      obtain ⟨s2, inputs2⟩ := t
      simp only [ho] at h
      have hs2 : s2 = s ∨ s2 = { s with player :=
          { s.player with bet := insuredBet s.pHand s.dHand s.whoWon s.player.bet } } := by
        by_cases hoff : offered = true
        · rw [if_pos hoff] at ho
          exact insuranceOffer_some _ _ _ _ ho
        · rw [if_neg hoff] at ho
          simp only [Option.some.injEq, Prod.mk.injEq] at ho
          exact Or.inl ho.1.symm
      cases hst : stand s2.deck s2.pHand s2.dHand s2.whoWon s2.player.bet with
      | none => simp [hst] at h
      | some r =>
        simp only [hst, Option.some.injEq, Prod.mk.injEq] at h
        rcases hs2 with e | e
        · subst e
          exact ⟨s2.player.bet, r, Or.inl rfl, hst, h.1.symm⟩
        · subst e
          exact ⟨_, r, Or.inr rfl, hst, h.1.symm⟩

theorem insuredBet_zero (pHand dHand : List card) (b : Int) :
    insuredBet pHand dHand 0 b = 0 ∨ insuredBet pHand dHand 0 b = b - Int.tdiv b 2 := by
  unfold insuredBet
  by_cases h : sumHand dHand = 21
  · simp [h]
  · simp [h]

/-- The bet with which the menu loop ends, from a loop head with `whoWon = 0` and at least
two cards in the player's hand: the bet `b` of the loop head, its double (Double Down),
`b - b / 2` or 0 (insurance); and `b` itself when the player ends on a two-card 21. -/
theorem roundMenuLoop_bet (b : Int) (inputs : List Int) :
    ∀ (s s1 : RoundState) (unread : List Int), s.whoWon = 0 → s.player.bet = b →
      2 ≤ s.pHand.length → roundMenuLoop s inputs = some (s1, unread) →
      (s1.player.bet = b ∨ s1.player.bet = wrapInt (b * 2) ∨
        s1.player.bet = b - Int.tdiv b 2 ∨ s1.player.bet = 0) ∧
      (sumHand s1.pHand = 21 ∧ s1.pHand.length = 2 → s1.player.bet = b) := by
  induction inputs with
  | nil =>
    intro s s1 unread hw hb hlen h
    by_cases h21 : sumHand s.pHand = 21
    · rw [roundMenuLoop_early _ _ h21] at h
      cases hst : stand s.deck s.pHand s.dHand (if sumHand s.dHand = 21 then 2 else 0)
          s.player.bet with
      | none => simp [hst] at h
      | some r =>
        simp only [hst, Option.some.injEq, Prod.mk.injEq] at h
        rw [← h.1]
        exact ⟨Or.inl hb, fun _ => hb⟩
    · rw [roundMenuLoop_nil _ h21] at h
      cases h
  | cons c rest ih =>
    intro s s1 unread hw hb hlen h
    by_cases h21 : sumHand s.pHand = 21
    · rw [roundMenuLoop_early _ _ h21] at h
      cases hst : stand s.deck s.pHand s.dHand (if sumHand s.dHand = 21 then 2 else 0)
          s.player.bet with
      | none => simp [hst] at h
      | some r =>
        simp only [hst, Option.some.injEq, Prod.mk.injEq] at h
        rw [← h.1]
        exact ⟨Or.inl hb, fun _ => hb⟩
    · rw [roundMenuLoop_cons _ _ _ h21] at h
      by_cases hinv : c < 1 ∨ c > 3
      · have hc3 : c ≠ 3 := by omega
        rw [if_pos hinv, if_pos ⟨hc3, hw⟩] at h
        exact ih s s1 unread hw hb hlen h
      · rw [if_neg hinv] at h
        have hc : c = 1 ∨ c = 2 ∨ c = 3 := by omega
        rcases hc with hc | hc | hc
        · -- Hit
          subst hc
          cases hd : s.deck with
          | nil => rw [processChoice_one_nil _ _ hd] at h; cases h
          | cons card deck1 =>
            rw [processChoice_one _ _ _ _ hd] at h
            simp only [ne_eq, show ¬ (1 : Int) = 3 by decide, not_false_eq_true,
              true_and] at h
            by_cases e21 : sumHand (s.pHand ++ [card]) = 21
            · simp only [e21, if_true] at h
              exact ih _ s1 unread (by rfl) (by exact hb) (by simp; omega) h
            · by_cases egt : sumHand (s.pHand ++ [card]) > 21
              · simp only [e21, egt, if_true, if_false, show ¬ (3 : Int) = 0 by decide,
                  Option.some.injEq, Prod.mk.injEq] at h
                rw [← h.1]
                refine ⟨Or.inl hb, fun hx => ?_⟩
                simp at hx
                omega
              · simp only [e21, egt, if_false, hw, if_true] at h
                exact ih _ s1 unread (by rfl) (by exact hb) (by simp; omega) h
        · -- Double Down
          subst hc
          simp only [ne_eq, show ¬ (2 : Int) = 3 by decide, not_false_eq_true,
            true_and] at h
          by_cases hcdd : s.canDoubleDown = true
          · by_cases hf : s.player.totalTokens ≥ wrapInt (s.player.bet * 2)
            · cases hd : s.deck with
              | nil => rw [processChoice_two_funded_nil _ _ hcdd hf hd] at h; cases h
              | cons card deck1 =>
                rw [processChoice_two_funded _ _ hcdd hf _ _ hd] at h
                cases hst : stand deck1 (s.pHand ++ [card]) s.dHand
                    (if sumHand (s.pHand ++ [card]) = 21 then 0
                     else if sumHand (s.pHand ++ [card]) > 21 then 3 else s.whoWon)
                    s.player.bet with
                | none => simp [hst] at h
                | some r =>
                  have hne := stand_ret_ne_zero _ _ _ _ _ _ hst
                  simp only [hst, hne, if_false, Option.some.injEq, Prod.mk.injEq] at h
                  rw [← h.1]
                  refine ⟨?_, fun hx => ?_⟩
                  · simp only [hb]
                    split_ifs
                    · exact Or.inr (Or.inl rfl)
                    · exact Or.inl rfl
                  · simp at hx
                    omega
            · rw [processChoice_two_short _ _ hcdd hf] at h
              simp only [hw, if_true] at h
              exact ih _ s1 unread (by rfl) (by exact hb) (by exact hlen) h
          · have hcdd2 : s.canDoubleDown = false := by simpa using hcdd
            rw [processChoice_two_refused _ _ hcdd2] at h
            simp only [hw, if_true] at h
            exact ih _ s1 unread hw hb hlen h
        · -- Stand
          subst hc
          cases hpc : processChoice 3 s rest with
          | none => simp [hpc] at h
          | some t =>
            obtain ⟨s2, rest2⟩ := t
            simp only [hpc, ne_eq, not_true_eq_false, false_and, if_false,
              Option.some.injEq, Prod.mk.injEq] at h
            obtain ⟨bet1, r, hbet, _, hs2⟩ := processChoice_three _ _ _ _ hpc
            rw [← h.1, hs2]
            refine ⟨?_, fun hx => ?_⟩
            · rcases hbet with e | e
              · exact Or.inl (by simp [e, hb])
              · rw [hw, hb] at e
                rcases insuredBet_zero s.pHand s.dHand b with e0 | e0
                · exact Or.inr (Or.inr (Or.inr (by simp [e, e0])))
                · exact Or.inr (Or.inr (Or.inl (by simp [e, e0])))
            · simp at hx
              exact absurd hx.1 h21

/-- The two ways `playRound` returns: at once on an empty deck, or after the deal of four
cards, the menu loop and the settlement. -/
theorem playRound_some (deck : List card) (player : Player) (inputs : List Int)
    (r : RoundState) (unread : List Int) (h : playRound deck player inputs = some (r, unread)) :
    (deck = [] ∧ unread = inputs ∧
      r = { deck := [], pHand := [], dHand := [], whoWon := 0, player := player,
            initialPhase := true, canDoubleDown := true }) ∨
    (∃ c1 c2 c3 c4 rest s, deck = c1 :: c2 :: c3 :: c4 :: rest ∧
      roundMenuLoop
        { deck := rest, pHand := [c1, c3], dHand := [c2, c4], whoWon := 0, player := player,
          initialPhase := true, canDoubleDown := true } inputs = some (s, unread) ∧
      r = { s with player :=
              { s.player with bet := settleBet s.whoWon s.pHand s.player.bet } }) := by
  match deck, h with
  | [], h =>
    simp only [playRound, Option.some.injEq, Prod.mk.injEq] at h
    exact Or.inl ⟨rfl, h.2.symm, h.1.symm⟩
  | [_], h => simp [playRound, dealPair] at h
  | [_, _], h => simp [playRound, dealPair] at h
  | [_, _, _], h => simp [playRound, dealPair] at h
  | c1 :: c2 :: c3 :: c4 :: rest, h =>
    rw [playRound_four] at h
    cases hl : roundMenuLoop
        { deck := rest, pHand := [c1, c3], dHand := [c2, c4], whoWon := 0, player := player,
          initialPhase := true, canDoubleDown := true } inputs with
    | none => simp [hl] at h
    | some t =>
      obtain ⟨s, u⟩ := t
      simp only [hl, Option.some.injEq, Prod.mk.injEq] at h
      refine Or.inr ⟨c1, c2, c3, c4, rest, s, rfl, ?_, h.1.symm⟩
      rw [← h.2]
      exact hl

theorem tdiv_three_halves (b : Int) (hb : 2 ≤ b) :
    Int.tdiv (b * 3) 2 ≠ b ∧ Int.tdiv (b * 3) 2 ≠ b * 2 ∧ Int.tdiv (b * 3) 2 ≠ b - Int.tdiv b 2 ∧
    Int.tdiv (b * 3) 2 ≠ 0 ∧ Int.tdiv (b * 3) 2 ≠ -b ∧ Int.tdiv (b * 3) 2 ≠ -(b * 2) ∧
    Int.tdiv (b * 3) 2 ≠ -(b - Int.tdiv b 2) := by
  rw [Int.tdiv_eq_ediv (by omega) (by omega), Int.tdiv_eq_ediv (by omega) (by omega)]
  refine ⟨?_, ?_, ?_, ?_, ?_, ?_, ?_⟩ <;> omega

/-- The settlement of `playRound`, case by case. -/
theorem settleBet_cases (w : Int) (pHand : List card) (bet : Int) :
    (w = 1 → sumHand pHand = 21 ∧ pHand.length = 2 →
      settleBet w pHand bet = Int.tdiv (wrapInt (bet * 3)) 2) ∧
    (w = 1 → ¬ (sumHand pHand = 21 ∧ pHand.length = 2) → settleBet w pHand bet = bet) ∧
    (w = 2 → settleBet w pHand bet = 0) ∧
    (w = 3 → settleBet w pHand bet = -bet) ∧
    (w ≠ 1 → w ≠ 2 → w ≠ 3 → settleBet w pHand bet = bet) := by
  have hlen : (cardCount pHand = 2) ↔ pHand.length = 2 := by
    rw [cardCount_eq_length]
    exact ⟨fun e => by exact_mod_cast e, fun e => by exact_mod_cast e⟩
  unfold settleBet
  refine ⟨?_, ?_, ?_, ?_, ?_⟩
  · intro h1 hn
    rw [if_pos h1, if_pos ⟨hn.1, hlen.mpr hn.2⟩]
  · intro h1 hn
    rw [if_pos h1, if_neg (fun hx => hn ⟨hx.1, hlen.mp hx.2⟩)]
  · intro h2
    rw [if_neg (by omega), if_pos h2]
  · intro h3
    rw [if_neg (by omega), if_neg (by omega), if_pos h3]
    omega
  · intro h1 h2 h3
    rw [if_neg h1, if_neg h2, if_neg h3]

/-- C9, amended: in a round of `playRound` with an initial bet `b` whose triple is within
the range of `int` (`b` from -715827882 to 715827882), a Player Win on a final hand of
exactly two cards totalling 21 leaves the bet `(b * 3) / 2`; every other Player Win leaves
`b`, `2 * b`, `b - b / 2` or 0, a Push leaves 0, a Dealer Win leaves the negation of one of
these; so for `b ≥ 2` no other ending leaves `(b * 3) / 2`. -/
theorem playRound_payout (deck : List card) (player : Player) (inputs : List Int)
    (r : RoundState) (unread : List Int) (h : playRound deck player inputs = some (r, unread))
    (hlo : -715827882 ≤ player.bet) (hhi : player.bet ≤ 715827882) :
    (r.whoWon = 1 ∧ sumHand r.pHand = 21 ∧ r.pHand.length = 2 →
      r.player.bet = Int.tdiv (player.bet * 3) 2) ∧
    (r.whoWon = 1 ∧ ¬ (sumHand r.pHand = 21 ∧ r.pHand.length = 2) →
      (r.player.bet = player.bet ∨ r.player.bet = player.bet * 2 ∨
        r.player.bet = player.bet - Int.tdiv player.bet 2 ∨ r.player.bet = 0)) ∧
    (r.whoWon = 2 → r.player.bet = 0) ∧
    (r.whoWon = 3 →
      (r.player.bet = -player.bet ∨ r.player.bet = -(player.bet * 2) ∨
        r.player.bet = -(player.bet - Int.tdiv player.bet 2) ∨ r.player.bet = 0)) ∧
    (2 ≤ player.bet → ¬ (r.whoWon = 1 ∧ sumHand r.pHand = 21 ∧ r.pHand.length = 2) →
      r.player.bet ≠ Int.tdiv (player.bet * 3) 2) := by
  rcases playRound_some _ _ _ _ _ h with ⟨_, _, hr⟩ | ⟨c1, c2, c3, c4, rest, s, _, hl, hr⟩
  · subst hr
    refine ⟨?_, ?_, ?_, ?_, ?_⟩
    · intro hx; simp at hx
    · intro hx; simp at hx
    · intro hx; simp at hx
    · intro hx; simp at hx
    · intro hb _
      exact fun e => (tdiv_three_halves player.bet hb).1 e.symm
  · obtain ⟨hset, hnat⟩ := roundMenuLoop_bet player.bet inputs _ s unread rfl rfl
      (by simp) hl
    rw [wrapInt_eq (player.bet * 2) (by omega) (by omega)] at hset
    obtain ⟨k1, k2, k3, k4, k5⟩ := settleBet_cases s.whoWon s.pHand s.player.bet
    have hw : r.whoWon = s.whoWon := by rw [hr]
    have hp : r.pHand = s.pHand := by rw [hr]
    have hbet : r.player.bet = settleBet s.whoWon s.pHand s.player.bet := by rw [hr]
    rw [hw, hp, hbet]
    refine ⟨?_, ?_, ?_, ?_, ?_⟩
    · intro hx
      rw [k1 hx.1 hx.2, hnat hx.2, wrapInt_eq (player.bet * 3) (by omega) (by omega)]
    · intro hx
      rw [k2 hx.1 hx.2]
      exact hset
    · intro hx
      exact k3 hx
    · intro hx
      rw [k4 hx]
      rcases hset with e | e | e | e
      · exact Or.inl (by rw [e])
      · exact Or.inr (Or.inl (by rw [e]))
      · exact Or.inr (Or.inr (Or.inl (by rw [e])))
      · exact Or.inr (Or.inr (Or.inr (by rw [e]; rfl)))
    · intro hb hx
      obtain ⟨t1, t2, t3, t4, t5, t6, t7⟩ := tdiv_three_halves player.bet hb
      by_cases h1 : s.whoWon = 1
      · rw [k2 h1 (fun hn => hx ⟨h1, hn⟩)]
        rcases hset with e | e | e | e
        · rw [e]; exact fun e2 => t1 e2.symm
        · rw [e]; exact fun e2 => t2 e2.symm
        · rw [e]; exact fun e2 => t3 e2.symm
        · rw [e]; exact fun e2 => t4 e2.symm
      · by_cases h2 : s.whoWon = 2
        · rw [k3 h2]; exact fun e2 => t4 e2.symm
        · by_cases h3 : s.whoWon = 3
          · rw [k4 h3]
            rcases hset with e | e | e | e
            · rw [e]; exact fun e2 => t5 e2.symm
            · rw [e]; exact fun e2 => t6 e2.symm
            · rw [e]; exact fun e2 => t7 e2.symm
            · rw [e, neg_zero]; exact fun e2 => t4 e2.symm
          · rw [k5 h1 h2 h3]
            rcases hset with e | e | e | e
            · rw [e]; exact fun e2 => t1 e2.symm
            · rw [e]; exact fun e2 => t2 e2.symm
            · rw [e]; exact fun e2 => t3 e2.symm
            · rw [e]; exact fun e2 => t4 e2.symm

/-- Witness of C9: the player is dealt 10, Ace, the dealer 9, 7 and draws a 6 (22): Player
Win on a two-card 21, and the bet 100 becomes 150. -/
theorem playRound_payout_witness :
    playRound [⟨10, 0⟩, ⟨9, 2⟩, ⟨1, 1⟩, ⟨7, 3⟩, ⟨6, 0⟩] { totalTokens := 500, bet := 100 } []
      = some ({ deck := [], pHand := [⟨10, 0⟩, ⟨1, 1⟩],
                dHand := [⟨9, 2⟩, ⟨7, 3⟩, ⟨6, 0⟩], whoWon := 1,
                player := { totalTokens := 500, bet := 150 },
                initialPhase := true, canDoubleDown := true }, []) ∧
    (150 : Int) = Int.tdiv (100 * 3) 2 :=
  ⟨by decide,
    (playRound_payout [⟨10, 0⟩, ⟨9, 2⟩, ⟨1, 1⟩, ⟨7, 3⟩, ⟨6, 0⟩]
      { totalTokens := 500, bet := 100 } []
      { deck := [], pHand := [⟨10, 0⟩, ⟨1, 1⟩],
        dHand := [⟨9, 2⟩, ⟨7, 3⟩, ⟨6, 0⟩], whoWon := 1,
        player := { totalTokens := 500, bet := 150 },
        initialPhase := true, canDoubleDown := true } [] (by decide) (by decide)
      (by decide)).1
      ⟨by decide, by decide, by decide⟩⟩

/-- The counterexample to C9 as stated: with a bet of 1000000000 (validated against a
balance of 1000000000) the player is dealt 10, Ace against 9, 7 and the dealer draws a 6:
Player Win on a two-card 21, but `bet * 3` does not fit an `int` and the final bet is
-647483648, not `(1000000000 * 3) / 2 = 1500000000`. -/
theorem playRound_payout_overflow :
    playRound [⟨10, 0⟩, ⟨9, 2⟩, ⟨1, 1⟩, ⟨7, 3⟩, ⟨6, 0⟩]
        { totalTokens := 1000000000, bet := 1000000000 } []
      = some ({ deck := [], pHand := [⟨10, 0⟩, ⟨1, 1⟩],
                dHand := [⟨9, 2⟩, ⟨7, 3⟩, ⟨6, 0⟩], whoWon := 1,
                player := { totalTokens := 1000000000, bet := -647483648 },
                initialPhase := true, canDoubleDown := true }, []) ∧
    Int.tdiv (1000000000 * 3) 2 = 1500000000 ∧
    betMenu 1000000000 [1000000000] = some (1000000000, []) := by
  decide

/-- A choice other than 3 reads no input: `processChoice` hands the input on untouched. -/
theorem processChoice_inputs (c : Int) (s : RoundState) (inputs : List Int) (hc : c ≠ 3) :
    processChoice c s inputs =
      match processChoice c s [] with
      | none => none
      | some (s1, _) => some (s1, inputs) := by
  unfold processChoice
  by_cases h1 : c = 1
  · simp only [h1, if_true]
    cases playerHit s.deck s.pHand s.whoWon with
    | none => rfl
    | some t => rfl
  · by_cases h2 : c = 2
    · simp only [h1, h2, if_true, if_false]
      by_cases hd : s.canDoubleDown = true
      · simp only [hd, if_true]
        cases doubleDown s with
        | none => rfl
        | some t => rfl
      · simp only [hd, if_false]
        rfl
    · simp only [h1, h2, hc, if_false]

/-- An iteration of the menu loop that reads a choice other than 3 and leaves
`whoWon = 0` leaves the dealer's hand and the player's tokens and bet as they were. -/
theorem processChoice_continue (c : Int) (s : RoundState) (inputs : List Int)
    (s1 : RoundState) (unread : List Int) (h : processChoice c s inputs = some (s1, unread))
    (hc : c ≠ 3) (hw : s1.whoWon = 0) :
    s1.dHand = s.dHand ∧ s1.player = s.player ∧ s.pHand.length ≤ s1.pHand.length := by
  by_cases h1 : c = 1
  · subst h1
    cases hd : s.deck with
    | nil => rw [processChoice_one_nil _ _ hd] at h; cases h
    | cons card deck1 =>
      rw [processChoice_one _ _ _ _ hd] at h
      simp only [Option.some.injEq, Prod.mk.injEq] at h
      rw [← h.1]
      simp
  · by_cases h2 : c = 2
    · subst h2
      by_cases hcdd : s.canDoubleDown = true
      · by_cases hf : s.player.totalTokens ≥ wrapInt (s.player.bet * 2)
        · cases hd : s.deck with
          | nil => rw [processChoice_two_funded_nil _ _ hcdd hf hd] at h; cases h
          | cons card deck1 =>
            rw [processChoice_two_funded _ _ hcdd hf _ _ hd] at h
            cases hst : stand deck1 (s.pHand ++ [card]) s.dHand
                (if sumHand (s.pHand ++ [card]) = 21 then 0
                 else if sumHand (s.pHand ++ [card]) > 21 then 3 else s.whoWon)
                s.player.bet with
            | none => simp [hst] at h
            | some r =>
              have hne := stand_ret_ne_zero _ _ _ _ _ _ hst
              simp only [hst, Option.some.injEq, Prod.mk.injEq] at h
              rw [← h.1] at hw
              exact absurd hw hne
        · rw [processChoice_two_short _ _ hcdd hf] at h
          simp only [Option.some.injEq, Prod.mk.injEq] at h
          rw [← h.1]
          simp
      · have hcdd2 : s.canDoubleDown = false := by simpa using hcdd
        rw [processChoice_two_refused _ _ hcdd2] at h
        simp only [Option.some.injEq, Prod.mk.injEq] at h
        rw [← h.1]
        simp
    · simp only [processChoice, h1, h2, hc, if_false, Option.some.injEq, Prod.mk.injEq] at h
      rw [← h.1]
      simp

/-- At every head of the menu loop reached from a state with `whoWon = 0`, the flag is
still 0 and the dealer's hand, the tokens and the bet are those of the start. -/
theorem loopHead_inv (before : List Int) :
    ∀ (s sh : RoundState), s.whoWon = 0 → loopHead s before = some sh →
      sh.whoWon = 0 ∧ sh.dHand = s.dHand ∧ sh.player = s.player ∧
      s.pHand.length ≤ sh.pHand.length := by
  induction before with
  | nil =>
    intro s sh hw h
    simp only [loopHead, Option.some.injEq] at h
    subst h
    exact ⟨hw, rfl, rfl, le_refl _⟩
  | cons c rest ih =>
    intro s sh hw h
    unfold loopHead at h
    by_cases he : (checkEarlyWin s.pHand s.dHand s.whoWon).1 = true
    · rw [if_pos he] at h; cases h
    · rw [if_neg he] at h
      by_cases hinv : c < 1 ∨ c > 3
      · rw [if_pos hinv] at h
        by_cases hcont : c ≠ 3 ∧ s.whoWon = 0
        · rw [if_pos hcont] at h
          exact ih s sh hw h
        · rw [if_neg hcont] at h; cases h
      · rw [if_neg hinv] at h
        cases hpc : processChoice c s rest with
        | none => simp [hpc] at h
        | some t =>
          obtain ⟨s1, rest1⟩ := t
          simp only [hpc] at h
          by_cases hcont : c ≠ 3 ∧ s1.whoWon = 0
          · rw [if_pos hcont] at h
            obtain ⟨k1, k2, k3⟩ := processChoice_continue _ _ _ _ _ hpc hcont.1 hcont.2
            obtain ⟨j1, j2, j3, j4⟩ := ih s1 sh hcont.2 h
            exact ⟨j1, by rw [j2, k1], by rw [j3, k2], le_trans k3 j4⟩
          · rw [if_neg hcont] at h; cases h

/-- The menu loop, once it has read the inputs `before` and is at the loop head `sh`,
goes on from `sh` with the inputs that follow. -/
theorem roundMenuLoop_append (before : List Int) (after : List Int) :
    ∀ (s sh : RoundState), loopHead s before = some sh →
      roundMenuLoop s (before ++ after) = roundMenuLoop sh after := by
  induction before with
  | nil =>
    intro s sh h
    simp only [loopHead, Option.some.injEq] at h
    subst h
    rfl
  | cons c rest ih =>
    intro s sh h
    unfold loopHead at h
    by_cases he : (checkEarlyWin s.pHand s.dHand s.whoWon).1 = true
    · rw [if_pos he] at h; cases h
    · rw [if_neg he] at h
      have hne : sumHand s.pHand ≠ 21 := by
        intro h21
        apply he
        simp only [checkEarlyWin, h21, if_true]
        split_ifs <;> rfl
      rw [List.cons_append, roundMenuLoop_cons _ _ _ hne]
      by_cases hinv : c < 1 ∨ c > 3
      · rw [if_pos hinv] at h
        rw [if_pos hinv]
        by_cases hcont : c ≠ 3 ∧ s.whoWon = 0
        · rw [if_pos hcont] at h
          rw [if_pos hcont]
          exact ih s sh h
        · rw [if_neg hcont] at h; cases h
      · rw [if_neg hinv] at h
        rw [if_neg hinv]
        by_cases hc3 : c = 3
        · subst hc3
          cases hpc : processChoice 3 s rest with
          | none => simp [hpc] at h
          | some t => simp [hpc] at h
        · rw [processChoice_inputs c s rest hc3] at h
          rw [processChoice_inputs c s (rest ++ after) hc3]
          cases hpc : processChoice c s [] with
          | none => simp [hpc] at h
          | some t =>
            obtain ⟨s1, rest1⟩ := t
            simp only [hpc] at h
            simp only []
            by_cases hcont : c ≠ 3 ∧ s1.whoWon = 0
            · rw [if_pos hcont] at h
              rw [if_pos hcont]
              exact ih s1 sh h
            · rw [if_neg hcont] at h; cases h

theorem dealt_some (deck : List card) (player : Player) (s0 : RoundState)
    (h : dealt deck player = some s0) :
    ∃ c1 c2 c3 c4 rest, deck = c1 :: c2 :: c3 :: c4 :: rest ∧
      s0 = { deck := rest, pHand := [c1, c3], dHand := [c2, c4], whoWon := 0, player := player,
             initialPhase := true, canDoubleDown := true } := by
  match deck, h with
  | [], h => simp [dealt, dealPair] at h
  | [_], h => simp [dealt, dealPair] at h
  | [_, _], h => simp [dealt, dealPair] at h
  | [_, _, _], h => simp [dealt, dealPair] at h
  | c1 :: c2 :: c3 :: c4 :: rest, h =>
    simp only [dealt, dealPair, List.nil_append, List.singleton_append, Option.some.injEq] at h
    exact ⟨c1, c2, c3, c4, rest, rfl, h.symm⟩

/-- C10: in a round of `playRound`, let the menu loop stand at a loop head (after the
inputs `before`) where the player's total is not 21, and let the next input be 1 (Hit)
with a front card that brings the player's total above 21.  Then the round ends at once:
`whoWon = 3` (Dealer Win), the dealer's hand is the two dealt cards, the inputs after the
1 are unread, and the final bet is the negated initial bet. -/
theorem playRound_hit_bust (deck : List card) (player : Player) (before inputs : List Int)
    (s0 sh : RoundState) (c : card) (deck1 : List card)
    (hdealt : dealt deck player = some s0) (hhead : loopHead s0 before = some sh)
    (hne : sumHand sh.pHand ≠ 21) (hdeck : sh.deck = c :: deck1)
    (hbust : sumHand (sh.pHand ++ [c]) > 21) :
    playRound deck player (before ++ 1 :: inputs)
      = some ({ deck := deck1, pHand := sh.pHand ++ [c], dHand := s0.dHand, whoWon := 3,
                player := { totalTokens := player.totalTokens, bet := -player.bet },
                initialPhase := sh.initialPhase, canDoubleDown := false }, inputs) ∧
    (∃ c1 c2 c3 c4 rest, deck = c1 :: c2 :: c3 :: c4 :: rest ∧ s0.dHand = [c2, c4]) := by
  obtain ⟨c1, c2, c3, c4, rest, hd, hs0⟩ := dealt_some _ _ _ hdealt
  have hw0 : s0.whoWon = 0 := by rw [hs0]
  have hp0 : s0.player = player := by rw [hs0]
  obtain ⟨_, i2, i3, _⟩ := loopHead_inv before s0 sh hw0 hhead
  refine ⟨?_, c1, c2, c3, c4, rest, hd, by rw [hs0]⟩
  have e21 : ¬ sumHand (sh.pHand ++ [c]) = 21 := by omega
  rw [hd, playRound_four, ← hs0, roundMenuLoop_append before (1 :: inputs) s0 sh hhead,
    roundMenuLoop_cons _ _ _ hne, if_neg (by decide), processChoice_one _ _ _ _ hdeck]
  simp only [e21, hbust, if_true, if_false, show ¬ (3 : Int) = 0 by decide, and_false]
  simp only [settleBet, show ¬ (3 : Int) = 1 by decide, show ¬ (3 : Int) = 2 by decide,
    if_false, if_true, i2, i3, hp0]
  simp

/-- Witness of C10: the player holds 10, 5, hits a 3 (18), hits again and draws a King
(28): Dealer Win, the dealer still holds 9, 7, the input 3 is left unread and the bet 100
ends as -100. -/
theorem playRound_hit_bust_witness :
    playRound [⟨10, 0⟩, ⟨9, 2⟩, ⟨5, 1⟩, ⟨7, 3⟩, ⟨3, 0⟩, ⟨13, 0⟩, ⟨2, 0⟩]
        { totalTokens := 500, bet := 100 } ([1] ++ 1 :: [3])
      = some ({ deck := [⟨2, 0⟩], pHand := [⟨10, 0⟩, ⟨5, 1⟩, ⟨3, 0⟩] ++ [⟨13, 0⟩],
                dHand := [⟨9, 2⟩, ⟨7, 3⟩], whoWon := 3,
                player := { totalTokens := 500, bet := -100 },
                initialPhase := true, canDoubleDown := false }, [3]) :=
  (playRound_hit_bust [⟨10, 0⟩, ⟨9, 2⟩, ⟨5, 1⟩, ⟨7, 3⟩, ⟨3, 0⟩, ⟨13, 0⟩, ⟨2, 0⟩]
    { totalTokens := 500, bet := 100 } [1] [3]
    { deck := [⟨3, 0⟩, ⟨13, 0⟩, ⟨2, 0⟩], pHand := [⟨10, 0⟩, ⟨5, 1⟩], dHand := [⟨9, 2⟩, ⟨7, 3⟩],
      whoWon := 0, player := { totalTokens := 500, bet := 100 },
      initialPhase := true, canDoubleDown := true }
    { deck := [⟨13, 0⟩, ⟨2, 0⟩], pHand := [⟨10, 0⟩, ⟨5, 1⟩, ⟨3, 0⟩], dHand := [⟨9, 2⟩, ⟨7, 3⟩],
      whoWon := 0, player := { totalTokens := 500, bet := 100 },
      initialPhase := true, canDoubleDown := false }
    ⟨13, 0⟩ [⟨2, 0⟩] (by decide) (by decide) (by decide) (by decide) (by decide)).1

/-! ### Single choices: a Hit to 21, Double Down without the balance, insurance -/

/-- C11, the code at the failing input: the player holds 7, 7 against the dealer's Ace,
King (a two-card 21) and hits a third 7.  The next `checkEarlyWin` sees 21 on both sides
and sets `whoWon = 2`, so `stand` returns at once and the round ends as Push with the
bet 0.  The comparison of `stand` itself, entered with `whoWon = 0` on these final hands,
returns 3 (Dealer Win: both 21, the player holds more cards), and that is how the same
round ends when the third 7 is drawn by Double Down instead of Hit: Dealer Win with the
final bet -200. -/
theorem playRound_hit_to_21_pushed :
    playRound [⟨7, 0⟩, ⟨1, 3⟩, ⟨7, 1⟩, ⟨13, 2⟩, ⟨7, 2⟩, ⟨5, 0⟩]
        { totalTokens := 500, bet := 100 } [1]
      = some ({ deck := [⟨5, 0⟩], pHand := [⟨7, 0⟩, ⟨7, 1⟩, ⟨7, 2⟩],
                dHand := [⟨1, 3⟩, ⟨13, 2⟩], whoWon := 2,
                player := { totalTokens := 500, bet := 0 },
                initialPhase := true, canDoubleDown := false }, []) ∧
    stand [⟨5, 0⟩] [⟨7, 0⟩, ⟨7, 1⟩, ⟨7, 2⟩] [⟨1, 3⟩, ⟨13, 2⟩] 0 100
      = some { ret := 3, deck := [⟨5, 0⟩], dHand := [⟨1, 3⟩, ⟨13, 2⟩], whoWon := 0 } ∧
    playRound [⟨7, 0⟩, ⟨1, 3⟩, ⟨7, 1⟩, ⟨13, 2⟩, ⟨7, 2⟩, ⟨5, 0⟩]
        { totalTokens := 500, bet := 100 } [2]
      = some ({ deck := [⟨5, 0⟩], pHand := [⟨7, 0⟩, ⟨7, 1⟩, ⟨7, 2⟩],
                dHand := [⟨1, 3⟩, ⟨13, 2⟩], whoWon := 3,
                player := { totalTokens := 500, bet := -200 },
                initialPhase := false, canDoubleDown := true }, []) := by
  decide

/-- C14, the code at the failing input: with 150 tokens and a bet of 100, choice 2 leaves
the deck, the hands, the bet, the tokens, `whoWon` and `canDoubleDown` as they were, but
sets `initialPhase` to `false`: the dealer's second card is no longer hidden. -/
theorem processChoice_double_down_short_reveals :
    processChoice 2
        { deck := [⟨7, 2⟩, ⟨5, 0⟩], pHand := [⟨7, 0⟩, ⟨7, 1⟩], dHand := [⟨9, 3⟩, ⟨13, 2⟩],
          whoWon := 0, player := { totalTokens := 150, bet := 100 },
          initialPhase := true, canDoubleDown := true } [3]
      = some ({ deck := [⟨7, 2⟩, ⟨5, 0⟩], pHand := [⟨7, 0⟩, ⟨7, 1⟩],
                dHand := [⟨9, 3⟩, ⟨13, 2⟩], whoWon := 0,
                player := { totalTokens := 150, bet := 100 },
                initialPhase := false, canDoubleDown := true }, [3]) := by
  decide

/-- C15: on a non-empty dealer hand `canPurchaseInsurance` returns `true` exactly when the
first card is an Ace and `totalTokens - bet ≥ bet / 2` (truncating division).  The source
assigns to neither of its reference parameters, so its value is all it yields. -/
theorem canPurchaseInsurance_iff (c : card) (rest : List card) (player : Player) :
    ∃ b, canPurchaseInsurance (c :: rest) player = some b ∧
      (b = true ↔ (c.faceValue = 1 ∧
        player.totalTokens - player.bet ≥ Int.tdiv player.bet 2)) := by
  exact ⟨_, rfl, by simp⟩

theorem insuranceOffer_skip (s : RoundState) (skipped tail : List Int)
    (hskip : ∀ x ∈ skipped, x > 2 ∨ x < 0 ∨ (x = 0 ∧ s.player.totalTokens ≠ 0)) :
    insuranceOffer s (skipped ++ tail) = insuranceOffer s tail := by
  induction skipped with
  | nil => rfl
  | cons x xs ih =>
    have hx := hskip x (List.mem_cons_self _ _)
    have ih1 := ih (fun y hy => hskip y (List.mem_cons_of_mem _ hy))
    rw [List.cons_append, insuranceOffer]
    by_cases h1 : x > 2 ∨ x < 0
    · rw [if_pos h1]; exact ih1
    · have h0 : x = 0 ∧ s.player.totalTokens ≠ 0 := by
        rcases hx with h | h | h
        · exact absurd (Or.inl h) h1
        · exact absurd (Or.inr h) h1
        · exact h
      rw [if_neg h1, if_neg (by omega), if_neg (by omega), if_pos h0]
      exact ih1

/-- C16, amended: for a bet whose triple is within the range of `int` (from -715827882 to
715827882) when `whoWon = 3`, and for every bet otherwise: after any entries that make
`insuranceOffer` ask again, the answer 1 (Yes) sets the bet to 0 when `whoWon = 0` and the
dealer's hand totals 21, otherwise to `(bet * 3) / 2` when `whoWon = 3`, otherwise to
`bet - bet / 2`; the answer 2 (No) leaves the bet.  The deck, the hands, the tokens,
`whoWon` and the menu flags are unchanged. -/
theorem insuranceOffer_answers (s : RoundState) (skipped rest : List Int)
    (hskip : ∀ x ∈ skipped, x > 2 ∨ x < 0 ∨ (x = 0 ∧ s.player.totalTokens ≠ 0))
    (hfit : s.whoWon = 3 → -715827882 ≤ s.player.bet ∧ s.player.bet ≤ 715827882) :
    insuranceOffer s (skipped ++ 1 :: rest)
      = some ({ deck := s.deck, pHand := s.pHand, dHand := s.dHand, whoWon := s.whoWon,
                player :=
                  { totalTokens := s.player.totalTokens,
                    bet := if s.whoWon = 0 ∧ sumHand s.dHand = 21 then 0
                           else if s.whoWon = 3 then Int.tdiv (s.player.bet * 3) 2
                           else s.player.bet - Int.tdiv s.player.bet 2 },
                initialPhase := s.initialPhase, canDoubleDown := s.canDoubleDown }, rest) ∧
    insuranceOffer s (skipped ++ 2 :: rest) = some (s, rest) := by
  rw [insuranceOffer_skip s skipped _ hskip, insuranceOffer_skip s skipped _ hskip]
  refine ⟨?_, by simp [insuranceOffer]⟩
  simp only [insuranceOffer, insuredBet]
  by_cases h1 : s.whoWon = 0 ∧ sumHand s.dHand = 21
  · simp [h1]
  · have h2 : ¬ (s.whoWon = 0 ∧ sumHand s.dHand = 21 ∧ sumHand s.pHand = 21) :=
      fun h => h1 ⟨h.1, h.2.1⟩
    by_cases h3 : s.whoWon = 3
    · obtain ⟨hlo, hhi⟩ := hfit h3
      rw [wrapInt_eq (s.player.bet * 3) (by omega) (by omega)]
      simp [h1, h2, h3]
    · simp [h1, h2, h3]

/-- Witness of C16: the entries 5 and 0 are asked again, then 1 is taken as Yes; the
dealer holds Ace, 7 (18), so the bet 100 becomes 50. -/
theorem insuranceOffer_answers_witness :
    insuranceOffer
        { deck := [⟨6, 0⟩], pHand := [⟨10, 0⟩, ⟨5, 1⟩], dHand := [⟨1, 2⟩, ⟨7, 3⟩], whoWon := 0,
          player := { totalTokens := 500, bet := 100 },
          initialPhase := true, canDoubleDown := true } ([5, 0] ++ 1 :: [3])
      = some ({ deck := [⟨6, 0⟩], pHand := [⟨10, 0⟩, ⟨5, 1⟩], dHand := [⟨1, 2⟩, ⟨7, 3⟩],
                whoWon := 0, player := { totalTokens := 500, bet := 50 },
                initialPhase := true, canDoubleDown := true }, [3]) :=
  (insuranceOffer_answers
    { deck := [⟨6, 0⟩], pHand := [⟨10, 0⟩, ⟨5, 1⟩], dHand := [⟨1, 2⟩, ⟨7, 3⟩], whoWon := 0,
      player := { totalTokens := 500, bet := 100 },
      initialPhase := true, canDoubleDown := true } [5, 0] [3] (by decide) (by decide)).1

/-- The counterexample to C16 as stated: with the flag 3 and a bet of 1000000000 the
answer 1 sets the bet to -647483648, because `bet * 3` does not fit an `int`; it is not
`(1000000000 * 3) / 2 = 1500000000`. -/
theorem insuranceOffer_overflow :
    insuranceOffer
        { deck := [⟨6, 0⟩], pHand := [⟨10, 0⟩, ⟨5, 1⟩, ⟨9, 0⟩], dHand := [⟨1, 2⟩, ⟨7, 3⟩],
          whoWon := 3, player := { totalTokens := 2000000000, bet := 1000000000 },
          initialPhase := true, canDoubleDown := false } [1]
      = some ({ deck := [⟨6, 0⟩], pHand := [⟨10, 0⟩, ⟨5, 1⟩, ⟨9, 0⟩],
                dHand := [⟨1, 2⟩, ⟨7, 3⟩], whoWon := 3,
                player := { totalTokens := 2000000000, bet := -647483648 },
                initialPhase := true, canDoubleDown := false }, []) ∧
    Int.tdiv (1000000000 * 3) 2 = 1500000000 := by
  decide

/-! ### The initial deal and the session loop -/

/-- C20: on a deck `c1, c2, c3, c4, ...` the dealing loop of `playRound` gives the player
`c1`, the dealer `c2`, the player `c3`, the dealer `c4`; `roundMenu` is entered with the
player's hand `[c1, c3]`, the dealer's hand `[c2, c4]` (up-card `c2`) and the cards after
`c4` as the deck, in order. -/
theorem playRound_initial_deal (c1 c2 c3 c4 : card) (rest : List card) (player : Player)
    (inputs : List Int) :
    dealPair (c1 :: c2 :: c3 :: c4 :: rest) [] [] = some (c3 :: c4 :: rest, [c1], [c2]) ∧
    dealPair (c3 :: c4 :: rest) [c1] [c2] = some (rest, [c1, c3], [c2, c4]) ∧
    playRound (c1 :: c2 :: c3 :: c4 :: rest) player inputs =
      (match roundMenu rest [c1, c3] [c2, c4] 0 player inputs with
       | none => none
       | some (s, unread) =>
         some ({ s with player :=
                   { s.player with bet := settleBet s.whoWon s.pHand s.player.bet } },
               unread)) := by
  refine ⟨rfl, rfl, ?_⟩
  rw [playRound_four]
  rfl

/-- C19, the code at the failing input: a session in which the player bets 100 and stands,
twice, the random source giving 0, 1, ..., 51 each time.  The first round leaves 46 cards
in `deck` (7 of hearts in front); `generateDeck` then pushes 52 more behind them, so the
second `playRound` is called with 98 cards, the 7 of hearts twice among them, and is dealt
from the leftovers. -/
theorem main_second_round_deck :
    mainRound [] { totalTokens := 500, bet := 0 } [100, 3, 1, 100, 3, 2] (List.range 52)
      = some (((List.range 52).map cardOfIndex).drop 6, { totalTokens := 400, bet := -100 },
              [1, 100, 3, 2]) ∧
    roundStart (((List.range 52).map cardOfIndex).drop 6) { totalTokens := 400, bet := -100 }
        [100, 3, 2] (List.range 52)
      = some (((List.range 52).map cardOfIndex).drop 6 ++ (List.range 52).map cardOfIndex,
              { totalTokens := 400, bet := 100 }, [3, 2]) ∧
    (((List.range 52).map cardOfIndex).drop 6 ++ (List.range 52).map cardOfIndex).length = 98 ∧
    (((List.range 52).map cardOfIndex).drop 6 ++ (List.range 52).map cardOfIndex).count ⟨7, 0⟩
      = 2 ∧
    (((List.range 52).map cardOfIndex).drop 6 ++ (List.range 52).map cardOfIndex).head?
      = some ⟨7, 0⟩ ∧
    (main [1, 100, 3, 1, 100, 3, 2] [List.range 52, List.range 52]).map
        (fun r => (r.1.length, r.2.1))
      = some (94, { totalTokens := 300, bet := -100 }) := by
  decide

/-! ### Invariants of the menu loop -/

/-- Induction over the menu loop.  `P` is an invariant of the loop heads (where
`whoWon = 0`), kept by the two iterations after which the loop goes on with a changed
state (a Hit that does not bust, a Double Down the balance does not cover); `Q` holds
for the state each of the four ways of leaving the loop produces. -/
theorem roundMenuLoop_ind (P Q : RoundState → Prop)
    (hearly : ∀ s r, s.whoWon = 0 → P s → sumHand s.pHand = 21 →
      stand s.deck s.pHand s.dHand (if sumHand s.dHand = 21 then 2 else 0) s.player.bet
        = some r →
      Q { s with deck := r.deck, dHand := r.dHand, whoWon := r.ret })
    (hhit : ∀ s c deck1, s.whoWon = 0 → P s → sumHand s.pHand ≠ 21 → s.deck = c :: deck1 →
      sumHand (s.pHand ++ [c]) ≤ 21 →
      P { s with deck := deck1, pHand := s.pHand ++ [c], whoWon := 0,
                 canDoubleDown := false })
    (hbust : ∀ s c deck1, s.whoWon = 0 → P s → sumHand s.pHand ≠ 21 → s.deck = c :: deck1 →
      sumHand (s.pHand ++ [c]) > 21 →
      Q { s with deck := deck1, pHand := s.pHand ++ [c], whoWon := 3,
                 canDoubleDown := false })
    (hshort : ∀ s, s.whoWon = 0 → P s → sumHand s.pHand ≠ 21 → s.canDoubleDown = true →
      ¬ s.player.totalTokens ≥ wrapInt (s.player.bet * 2) → P { s with initialPhase := false })
    (hdouble : ∀ s c deck1 r, s.whoWon = 0 → P s → sumHand s.pHand ≠ 21 →
      s.canDoubleDown = true → s.player.totalTokens ≥ wrapInt (s.player.bet * 2) →
      s.deck = c :: deck1 →
      stand deck1 (s.pHand ++ [c]) s.dHand
        (if sumHand (s.pHand ++ [c]) = 21 then 0
         else if sumHand (s.pHand ++ [c]) > 21 then 3 else 0) s.player.bet = some r →
      Q { s with deck := r.deck, pHand := s.pHand ++ [c], dHand := r.dHand, whoWon := r.ret,
                 player := { s.player with
                   bet := if r.ret = 1 ∨ r.ret = 3 then wrapInt (s.player.bet * 2)
                          else s.player.bet },
                 initialPhase := false })
    (hstand : ∀ s bet1 r, s.whoWon = 0 → P s → sumHand s.pHand ≠ 21 →
      (bet1 = s.player.bet ∨ bet1 = insuredBet s.pHand s.dHand 0 s.player.bet) →
      stand s.deck s.pHand s.dHand 0 bet1 = some r →
      Q { s with deck := r.deck, dHand := r.dHand, whoWon := r.ret,
                 player := { s.player with bet := bet1 }, initialPhase := false })
    (inputs : List Int) :
    ∀ (s s1 : RoundState) (unread : List Int), s.whoWon = 0 → P s →
      roundMenuLoop s inputs = some (s1, unread) → Q s1 := by
  have early : ∀ (inp : List Int) (s s1 : RoundState) (unread : List Int), s.whoWon = 0 →
      P s → sumHand s.pHand = 21 → roundMenuLoop s inp = some (s1, unread) → Q s1 := by
    intro inp s s1 unread hw hP h21 h
    rw [roundMenuLoop_early _ _ h21] at h
    cases hst : stand s.deck s.pHand s.dHand (if sumHand s.dHand = 21 then 2 else 0)
        s.player.bet with
    | none => simp [hst] at h
    | some r =>
      simp only [hst, Option.some.injEq, Prod.mk.injEq] at h
      rw [← h.1]
      exact hearly s r hw hP h21 hst
  induction inputs with
  | nil =>
    intro s s1 unread hw hP h
    by_cases h21 : sumHand s.pHand = 21
    · exact early [] s s1 unread hw hP h21 h
    · rw [roundMenuLoop_nil _ h21] at h
      cases h
  | cons c rest ih =>
    intro s s1 unread hw hP h
    by_cases h21 : sumHand s.pHand = 21
    · exact early _ s s1 unread hw hP h21 h
    · rw [roundMenuLoop_cons _ _ _ h21] at h
      by_cases hinv : c < 1 ∨ c > 3
      · have hc3 : c ≠ 3 := by omega
        rw [if_pos hinv, if_pos ⟨hc3, hw⟩] at h
        exact ih s s1 unread hw hP h
      · rw [if_neg hinv] at h
        have hc : c = 1 ∨ c = 2 ∨ c = 3 := by omega
        rcases hc with hc | hc | hc
        · subst hc
          cases hd : s.deck with
          | nil => rw [processChoice_one_nil _ _ hd] at h; cases h
          | cons card deck1 =>
            rw [processChoice_one _ _ _ _ hd] at h
            simp only [ne_eq, show ¬ (1 : Int) = 3 by decide, not_false_eq_true,
              true_and] at h
            by_cases e21 : sumHand (s.pHand ++ [card]) = 21
            · simp only [e21, if_true] at h
              exact ih _ s1 unread (by rfl)
                (by exact hhit s card deck1 hw hP h21 hd (by omega)) h
            · by_cases egt : sumHand (s.pHand ++ [card]) > 21
              · simp only [e21, egt, if_true, if_false, show ¬ (3 : Int) = 0 by decide,
                  Option.some.injEq, Prod.mk.injEq] at h
                rw [← h.1]
                exact hbust s card deck1 hw hP h21 hd egt
              · simp only [e21, egt, if_false, hw, if_true] at h
                exact ih _ s1 unread (by rfl)
                  (by exact hhit s card deck1 hw hP h21 hd (by omega)) h
        · subst hc
          simp only [ne_eq, show ¬ (2 : Int) = 3 by decide, not_false_eq_true,
            true_and] at h
          by_cases hcdd : s.canDoubleDown = true
          · by_cases hf : s.player.totalTokens ≥ wrapInt (s.player.bet * 2)
            · cases hd : s.deck with
              | nil => rw [processChoice_two_funded_nil _ _ hcdd hf hd] at h; cases h
              | cons card deck1 =>
                rw [processChoice_two_funded _ _ hcdd hf _ _ hd, hw] at h
                cases hst : stand deck1 (s.pHand ++ [card]) s.dHand
                    (if sumHand (s.pHand ++ [card]) = 21 then 0
                     else if sumHand (s.pHand ++ [card]) > 21 then 3 else 0)
                    s.player.bet with
                | none => simp [hst] at h
                | some r =>
                  have hne := stand_ret_ne_zero _ _ _ _ _ _ hst
                  simp only [hst, hne, if_false, Option.some.injEq, Prod.mk.injEq] at h
                  rw [← h.1]
                  exact hdouble s card deck1 r hw hP h21 hcdd hf hd hst
            · rw [processChoice_two_short _ _ hcdd hf] at h
              simp only [hw, if_true] at h
              have hP1 := hshort s hw hP h21 hcdd hf
              rw [hw] at hP1
              exact ih _ s1 unread (by rfl) (by exact hP1) h
          · have hcdd2 : s.canDoubleDown = false := by simpa using hcdd
            rw [processChoice_two_refused _ _ hcdd2] at h
            simp only [hw, if_true] at h
            exact ih _ s1 unread hw hP h
        · subst hc
          cases hpc : processChoice 3 s rest with
          | none => simp [hpc] at h
          | some t =>
            obtain ⟨s2, rest2⟩ := t
            simp only [hpc, ne_eq, not_true_eq_false, false_and, if_false,
              Option.some.injEq, Prod.mk.injEq] at h
            obtain ⟨bet1, r, hbet, hst, hs2⟩ := processChoice_three _ _ _ _ hpc
            rw [hw] at hbet hst
            rw [← h.1, hs2]
            exact hstand s bet1 r hw hP h21 hbet hst

theorem stand_zero_flag (deck pHand dHand : List card) (bet : Int) (r : StandResult)
    (h : stand deck pHand dHand 0 bet = some r) (h21 : sumHand r.dHand ≤ 21) :
    r.ret = (if sumHand pHand > sumHand r.dHand then 1
        else if sumHand pHand = sumHand r.dHand then
          (if sumHand pHand = 21 ∧ sumHand r.dHand = 21 ∧ r.dHand.length < pHand.length
            then 3 else 2)
        else 3) := by
  obtain ⟨n, _, _, _, _, _, hw, hret⟩ := stand_zero _ _ _ _ _ h
  have hgt : ¬ sumHand r.dHand > 21 := by omega
  rw [hret, hw]
  by_cases hn0 : n = 0
  · simp [hn0]
  · simp [hn0, hgt]

/-- A final two-card 21 of the player against a three-card 21 of the dealer is never
settled as a Dealer Win by the menu loop. -/
theorem roundMenuLoop_two_three (inputs : List Int) (s s1 : RoundState) (unread : List Int)
    (hw : s.whoWon = 0) (hlen : 2 ≤ s.pHand.length)
    (h : roundMenuLoop s inputs = some (s1, unread)) :
    sumHand s1.pHand = 21 → s1.pHand.length = 2 → sumHand s1.dHand = 21 →
      s1.dHand.length = 3 → s1.whoWon ≠ 3 := by
  refine roundMenuLoop_ind (fun t => 2 ≤ t.pHand.length)
    (fun t => sumHand t.pHand = 21 → t.pHand.length = 2 → sumHand t.dHand = 21 →
      t.dHand.length = 3 → t.whoWon ≠ 3) ?_ ?_ ?_ ?_ ?_ ?_ inputs s s1 unread hw hlen h
  · intro t r _ _ hp hst h1 h2 h3 h4
    simp only at h1 h2 h3 h4 ⊢
    by_cases hd : sumHand t.dHand = 21
    · rw [if_pos hd, stand_nonzero _ _ _ _ _ (by decide)] at hst
      simp only [Option.some.injEq] at hst
      rw [← hst]
      show (2 : Int) ≠ 3
      decide
    · rw [if_neg hd] at hst
      rw [stand_zero_flag _ _ _ _ _ hst (by omega), h1, h3]
      have hl : ¬ r.dHand.length < t.pHand.length := by omega
      simp [hl]
  · intro t c deck1 _ hP _ _ _
    simp only [List.length_append, List.length_singleton]
    omega
  · intro t c deck1 _ hP _ _ _ _ h2
    simp only [List.length_append, List.length_singleton] at h2
    omega
  · intro t _ hP _ _ _
    exact hP
  · intro t c deck1 r _ hP _ _ _ _ _ _ h2
    simp only [List.length_append, List.length_singleton] at h2
    omega
  · intro t bet1 r _ _ hne _ _ h1
    exact absurd h1 hne

/-- C12 as the claim words it fails: the player is dealt King, Ace (21), the dealer 6, 5
and draws a King (a three-card 21); `playRound` ends with `whoWon = 2` (Push), not 3. -/
theorem playRound_two_three_pushed :
    playRound [⟨13, 3⟩, ⟨6, 0⟩, ⟨1, 2⟩, ⟨5, 1⟩, ⟨13, 0⟩] { totalTokens := 500, bet := 100 } []
      = some ({ deck := [], pHand := [⟨13, 3⟩, ⟨1, 2⟩],
                dHand := [⟨6, 0⟩, ⟨5, 1⟩, ⟨13, 0⟩], whoWon := 2,
                player := { totalTokens := 500, bet := 0 },
                initialPhase := true, canDoubleDown := true }, []) ∧
    sumHand [⟨13, 3⟩, ⟨1, 2⟩] = 21 ∧ sumHand [⟨6, 0⟩, ⟨5, 1⟩, ⟨13, 0⟩] = 21 := by
  decide

/-- C12 (amended): a round of `playRound` that ends with the player and the dealer both
totalling 21, the player holding 2 cards and the dealer 3, does not end as a Dealer Win
(`whoWon ≠ 3`). -/
theorem playRound_two_three_not_dealer (deck : List card) (player : Player)
    (inputs : List Int) (r : RoundState) (unread : List Int)
    (h : playRound deck player inputs = some (r, unread))
    (hp : sumHand r.pHand = 21) (hpl : r.pHand.length = 2)
    (hd : sumHand r.dHand = 21) (hdl : r.dHand.length = 3) : r.whoWon ≠ 3 := by
  rcases playRound_some _ _ _ _ _ h with ⟨_, _, hr⟩ | ⟨c1, c2, c3, c4, rest, s, _, hl, hr⟩
  · rw [hr] at hpl
    simp at hpl
  · rw [hr] at hp hpl hd hdl ⊢
    exact roundMenuLoop_two_three inputs _ s unread rfl (by simp) hl hp hpl hd hdl

/-- Witness of C12 (amended): player Queen, Ace against dealer 4, 7 and a drawn 10. -/
theorem playRound_two_three_not_dealer_witness :
    playRound [⟨12, 3⟩, ⟨4, 0⟩, ⟨1, 2⟩, ⟨7, 1⟩, ⟨10, 0⟩] { totalTokens := 500, bet := 100 } [3]
      = some ({ deck := [], pHand := [⟨12, 3⟩, ⟨1, 2⟩],
                dHand := [⟨4, 0⟩, ⟨7, 1⟩, ⟨10, 0⟩], whoWon := 2,
                player := { totalTokens := 500, bet := 0 },
                initialPhase := true, canDoubleDown := true }, [3]) ∧
    (2 : Int) ≠ 3 :=
  ⟨by decide,
    playRound_two_three_not_dealer [⟨12, 3⟩, ⟨4, 0⟩, ⟨1, 2⟩, ⟨7, 1⟩, ⟨10, 0⟩]
      { totalTokens := 500, bet := 100 } [3]
      { deck := [], pHand := [⟨12, 3⟩, ⟨1, 2⟩],
        dHand := [⟨4, 0⟩, ⟨7, 1⟩, ⟨10, 0⟩], whoWon := 2,
        player := { totalTokens := 500, bet := 0 },
        initialPhase := true, canDoubleDown := true } [3]
      (by decide) (by decide) (by decide) (by decide) (by decide)⟩

/-- The tokens and the bet with which the menu loop ends: the tokens are untouched, and
the bet is the initial bet `b`, `b - b / 2`, 0, or the `int` value of `b * 2` with tokens
of at least that value. -/
theorem roundMenuLoop_stake (inputs : List Int) (s s1 : RoundState) (unread : List Int)
    (hw : s.whoWon = 0) (h : roundMenuLoop s inputs = some (s1, unread)) :
    s1.player.totalTokens = s.player.totalTokens ∧
    (s1.player.bet = s.player.bet ∨ s1.player.bet = s.player.bet - Int.tdiv s.player.bet 2 ∨
      s1.player.bet = 0 ∨
      (s1.player.bet = wrapInt (s.player.bet * 2) ∧
        s.player.totalTokens ≥ wrapInt (s.player.bet * 2))) := by
  refine roundMenuLoop_ind (fun t => t.player = s.player)
    (fun t => t.player.totalTokens = s.player.totalTokens ∧
      (t.player.bet = s.player.bet ∨ t.player.bet = s.player.bet - Int.tdiv s.player.bet 2 ∨
        t.player.bet = 0 ∨
        (t.player.bet = wrapInt (s.player.bet * 2) ∧
          s.player.totalTokens ≥ wrapInt (s.player.bet * 2))))
    ?_ ?_ ?_ ?_ ?_ ?_ inputs s s1 unread hw rfl h
  · intro t r _ hP _ _
    simp only [hP]
    exact ⟨trivial, Or.inl trivial⟩
  · intro t c deck1 _ hP _ _ _
    exact hP
  · intro t c deck1 _ hP _ _ _
    simp only [hP]
    exact ⟨trivial, Or.inl trivial⟩
  · intro t _ hP _ _ _
    exact hP
  · intro t c deck1 r _ hP _ _ hf _ _
    simp only [hP] at hf ⊢
    refine ⟨trivial, ?_⟩
    by_cases hr : r.ret = 1 ∨ r.ret = 3
    · rw [if_pos hr]; exact Or.inr (Or.inr (Or.inr ⟨rfl, hf⟩))
    · rw [if_neg hr]; exact Or.inl rfl
  · intro t bet1 r _ hP _ hbet _
    simp only [hP] at hbet ⊢
    refine ⟨trivial, ?_⟩
    rcases hbet with e | e
    · exact Or.inl e
    · rcases insuredBet_zero t.pHand t.dHand s.player.bet with e0 | e0
      · exact Or.inr (Or.inr (Or.inl (by rw [e, e0])))
      · exact Or.inr (Or.inl (by rw [e, e0]))

/-- C17, amended: a round of `playRound` started with tokens of at most 1073741823 and a
validated bet (a multiple of 10 with `10 ≤ bet ≤ totalTokens`) of at most 715827882
leaves a final signed bet that `main` can add to the tokens without making them negative:
the sum is within the range of `int`, so it is the value `totalTokens += bet` stores, and
it is at least 0; the round itself leaves the tokens untouched. -/
theorem playRound_balance (deck : List card) (player : Player) (inputs : List Int)
    (r : RoundState) (unread : List Int)
    (h : playRound deck player inputs = some (r, unread))
    (hb10 : 10 ≤ player.bet) (hbal : player.bet ≤ player.totalTokens)
    (_hmul : Int.tmod player.bet 10 = 0)
    (htok : player.totalTokens ≤ 1073741823) (hbet3 : player.bet ≤ 715827882) :
    0 ≤ player.totalTokens + r.player.bet ∧
    wrapInt (player.totalTokens + r.player.bet) = player.totalTokens + r.player.bet ∧
    r.player.totalTokens = player.totalTokens := by
  have key : 0 ≤ player.totalTokens + r.player.bet ∧
      player.totalTokens + r.player.bet ≤ 2147483647 ∧
      r.player.totalTokens = player.totalTokens := by
    rcases playRound_some _ _ _ _ _ h with ⟨_, _, hr⟩ | ⟨c1, c2, c3, c4, rest, s, _, hl, hr⟩
    · rw [hr]
      exact ⟨by simp only; omega, by simp only; omega, rfl⟩
    · obtain ⟨ht, hset⟩ := roundMenuLoop_stake inputs _ s unread rfl hl
      obtain ⟨_, hnat⟩ := roundMenuLoop_bet player.bet inputs _ s unread rfl rfl
        (by simp) hl
      simp only at ht hset
      rw [wrapInt_eq (player.bet * 2) (by omega) (by omega)] at hset
      obtain ⟨k1, k2, k3, k4, k5⟩ := settleBet_cases s.whoWon s.pHand s.player.bet
      have hhalf : Int.tdiv player.bet 2 = player.bet / 2 :=
        Int.tdiv_eq_ediv (by omega) (by omega)
      rw [hhalf] at hset
      have hlo : 0 ≤ s.player.bet := by
        rcases hset with e | e | e | e <;> omega
      have hhi : s.player.bet ≤ player.totalTokens := by
        rcases hset with e | e | e | e <;> omega
      have hbet : r.player.bet = settleBet s.whoWon s.pHand s.player.bet := by rw [hr]
      have htok1 : r.player.totalTokens = s.player.totalTokens := by rw [hr]
      refine ⟨?_, ?_, by rw [htok1, ht]⟩
      · rw [hbet]
        by_cases h1 : s.whoWon = 1
        · by_cases hn : sumHand s.pHand = 21 ∧ s.pHand.length = 2
          · rw [k1 h1 hn, hnat hn, wrapInt_eq (player.bet * 3) (by omega) (by omega),
              Int.tdiv_eq_ediv (by omega) (by omega)]
            omega
          · rw [k2 h1 hn]; omega
        · by_cases h2 : s.whoWon = 2
          · rw [k3 h2]; omega
          · by_cases h3 : s.whoWon = 3
            · rw [k4 h3]; omega
            · rw [k5 h1 h2 h3]; omega
      · rw [hbet]
        by_cases h1 : s.whoWon = 1
        · by_cases hn : sumHand s.pHand = 21 ∧ s.pHand.length = 2
          · rw [k1 h1 hn, hnat hn, wrapInt_eq (player.bet * 3) (by omega) (by omega),
              Int.tdiv_eq_ediv (by omega) (by omega)]
            omega
          · rw [k2 h1 hn]; omega
        · by_cases h2 : s.whoWon = 2
          · rw [k3 h2]; omega
          · by_cases h3 : s.whoWon = 3
            · rw [k4 h3]; omega
            · rw [k5 h1 h2 h3]; omega
  exact ⟨key.1, wrapInt_eq _ (by omega) key.2.1, key.2.2⟩

/-- Witness of C17: with 200 tokens and a bet of 100 the player doubles down on 5, 6,
draws a 2 and loses to the dealer's 10, 9: the final bet is -200 and 200 - 200 = 0. -/
theorem playRound_balance_witness :
    playRound [⟨5, 0⟩, ⟨10, 1⟩, ⟨6, 2⟩, ⟨9, 3⟩, ⟨2, 0⟩] { totalTokens := 200, bet := 100 } [2]
      = some ({ deck := [], pHand := [⟨5, 0⟩, ⟨6, 2⟩, ⟨2, 0⟩],
                dHand := [⟨10, 1⟩, ⟨9, 3⟩], whoWon := 3,
                player := { totalTokens := 200, bet := -200 },
                initialPhase := false, canDoubleDown := true }, []) ∧
    (0 : Int) ≤ 200 + -200 ∧ wrapInt (200 + -200) = 200 + -200 ∧ (200 : Int) = 200 :=
  ⟨by decide,
    playRound_balance [⟨5, 0⟩, ⟨10, 1⟩, ⟨6, 2⟩, ⟨9, 3⟩, ⟨2, 0⟩]
      { totalTokens := 200, bet := 100 } [2]
      { deck := [], pHand := [⟨5, 0⟩, ⟨6, 2⟩, ⟨2, 0⟩],
        dHand := [⟨10, 1⟩, ⟨9, 3⟩], whoWon := 3,
        player := { totalTokens := 200, bet := -200 },
        initialPhase := false, canDoubleDown := true } []
      (by decide) (by decide) (by decide) (by decide) (by decide) (by decide)⟩

/-- The counterexample to C17 as stated: with 2000000000 tokens and the validated bet
1100000000 the player doubles down on 5, 6, draws a 10 (21) and wins against the dealer's
10, 9.  `bet * 2` does not fit an `int`: the guard of `doubleDown` compares the tokens
with -2094967296 and passes, the bet becomes -2094967296, and the tokens plus the final
bet are negative. -/
theorem playRound_balance_overflow :
    betMenu 2000000000 [1100000000] = some (1100000000, []) ∧
    playRound [⟨5, 0⟩, ⟨10, 1⟩, ⟨6, 2⟩, ⟨9, 3⟩, ⟨10, 0⟩]
        { totalTokens := 2000000000, bet := 1100000000 } [2]
      = some ({ deck := [], pHand := [⟨5, 0⟩, ⟨6, 2⟩, ⟨10, 0⟩],
                dHand := [⟨10, 1⟩, ⟨9, 3⟩], whoWon := 1,
                player := { totalTokens := 2000000000, bet := -2094967296 },
                initialPhase := false, canDoubleDown := true }, []) ∧
    (2000000000 : Int) + -2094967296 < 0 := by
  decide

/-! ### Double Down -/

theorem stand_zero_range (deck pHand dHand : List card) (bet : Int) (r : StandResult)
    (h : stand deck pHand dHand 0 bet = some r) : r.ret = 1 ∨ r.ret = 2 ∨ r.ret = 3 := by
  obtain ⟨n, _, _, _, _, _, hw, hret⟩ := stand_zero _ _ _ _ _ h
  rw [hret, hw]
  split_ifs <;> simp_all

/-- As long as no Hit has been chosen, the loop heads of the menu differ from the first
one at most in `initialPhase`. -/
theorem loopHead_no_hit (before : List Int) :
    ∀ (s sh : RoundState), s.whoWon = 0 → (∀ x ∈ before, x ≠ 1) →
      loopHead s before = some sh → sh = s ∨ sh = { s with initialPhase := false } := by
  induction before with
  | nil =>
    intro s sh _ _ h
    simp only [loopHead, Option.some.injEq] at h
    exact Or.inl h.symm
  | cons c rest ih =>
    intro s sh hw hno h
    have hc1 : c ≠ 1 := hno c (List.mem_cons_self _ _)
    have hrest : ∀ x ∈ rest, x ≠ 1 := fun x hx => hno x (List.mem_cons_of_mem _ hx)
    unfold loopHead at h
    by_cases he : (checkEarlyWin s.pHand s.dHand s.whoWon).1 = true
    · rw [if_pos he] at h; cases h
    · rw [if_neg he] at h
      by_cases hinv : c < 1 ∨ c > 3
      · rw [if_pos hinv] at h
        by_cases hcont : c ≠ 3 ∧ s.whoWon = 0
        · rw [if_pos hcont] at h
          exact ih s sh hw hrest h
        · rw [if_neg hcont] at h; cases h
      · rw [if_neg hinv] at h
        have hc : c = 2 ∨ c = 3 := by omega
        rcases hc with hc | hc
        · subst hc
          by_cases hcdd : s.canDoubleDown = true
          · by_cases hf : s.player.totalTokens ≥ wrapInt (s.player.bet * 2)
            · cases hpc : processChoice 2 s rest with
              | none => simp [hpc] at h
              | some t =>
                obtain ⟨s1, rest1⟩ := t
                simp only [hpc] at h
                by_cases hcont : (2 : Int) ≠ 3 ∧ s1.whoWon = 0
                · exfalso
                  cases hdk : s.deck with
                  | nil => rw [processChoice_two_funded_nil _ _ hcdd hf hdk] at hpc; cases hpc
                  | cons card deck1 =>
                    rw [processChoice_two_funded _ _ hcdd hf _ _ hdk] at hpc
                    cases hst : stand deck1 (s.pHand ++ [card]) s.dHand
                        (if sumHand (s.pHand ++ [card]) = 21 then 0
                         else if sumHand (s.pHand ++ [card]) > 21 then 3 else s.whoWon)
                        s.player.bet with
                    | none => simp [hst] at hpc
                    | some r =>
                      have hne := stand_ret_ne_zero _ _ _ _ _ _ hst
                      simp only [hst, Option.some.injEq, Prod.mk.injEq] at hpc
                      have := hcont.2
                      rw [← hpc.1] at this
                      exact hne this
                · rw [if_neg hcont] at h; cases h
            · rw [processChoice_two_short _ _ hcdd hf] at h
              simp only [ne_eq, show ¬ (2 : Int) = 3 by decide, not_false_eq_true, true_and,
                hw, if_true] at h
              rcases ih _ sh (by rfl) hrest h with e | e
              · exact Or.inr (by rw [e, hw])
              · exact Or.inr (by rw [e, hw])
          · have hcdd2 : s.canDoubleDown = false := by simpa using hcdd
            rw [processChoice_two_refused _ _ hcdd2] at h
            simp only [ne_eq, show ¬ (2 : Int) = 3 by decide, not_false_eq_true, true_and,
              hw, if_true] at h
            exact ih s sh hw hrest h
        · subst hc
          cases hpc : processChoice 3 s rest with
          | none => simp [hpc] at h
          | some t => simp [hpc] at h

/-- C13: in a round of `playRound` on the deck `c1, c2, c3, c4, c5, ...`, let Double Down
(choice 2) be entered at a loop head reached without any Hit, the player's two cards not
totalling 21 and the tokens covering twice the bet (the tokens being an `int`, at most
2147483647, and the bet not below -1073741824, so that twice the bet is an `int` too).
Then exactly `c5` goes to the player's hand, `stand` settles the round on the cards after it, the inputs after the 2
are unread, and the final bet is twice the bet on Player Win, minus twice the bet on
Dealer Win and 0 on Push.  When `c5` busts the player the outcome is Dealer Win and the
dealer draws nothing. -/
theorem playRound_double_down (c1 c2 c3 c4 c5 : card) (rest : List card) (player : Player)
    (before inputs : List Int) (sh : RoundState) (r : StandResult)
    (hhead : loopHead
      { deck := c5 :: rest, pHand := [c1, c3], dHand := [c2, c4], whoWon := 0,
        player := player, initialPhase := true, canDoubleDown := true } before = some sh)
    (hnohit : ∀ x ∈ before, x ≠ 1)
    (hne : sumHand [c1, c3] ≠ 21)
    (hf : player.totalTokens ≥ player.bet * 2)
    (hint : player.totalTokens ≤ 2147483647) (hlow : -1073741824 ≤ player.bet)
    (hst : stand rest [c1, c3, c5] [c2, c4]
      (if sumHand [c1, c3, c5] = 21 then 0 else if sumHand [c1, c3, c5] > 21 then 3 else 0)
      player.bet = some r) :
    playRound (c1 :: c2 :: c3 :: c4 :: c5 :: rest) player (before ++ 2 :: inputs)
      = some ({ deck := r.deck, pHand := [c1, c3, c5], dHand := r.dHand, whoWon := r.ret,
                player :=
                  { totalTokens := player.totalTokens,
                    bet := if r.ret = 1 then player.bet * 2
                           else if r.ret = 3 then -(player.bet * 2) else 0 },
                initialPhase := false, canDoubleDown := true }, inputs) ∧
    (r.ret = 1 ∨ r.ret = 2 ∨ r.ret = 3) ∧
    (sumHand [c1, c3, c5] > 21 → r.ret = 3 ∧ r.dHand = [c2, c4] ∧ r.deck = rest) := by
  have hrange : r.ret = 1 ∨ r.ret = 2 ∨ r.ret = 3 := by
    by_cases e21 : sumHand [c1, c3, c5] = 21
    · rw [if_pos e21] at hst
      exact stand_zero_range _ _ _ _ _ hst
    · by_cases egt : sumHand [c1, c3, c5] > 21
      · rw [if_neg e21, if_pos egt, stand_nonzero _ _ _ _ _ (by decide)] at hst
        simp only [Option.some.injEq] at hst
        rw [← hst]
        exact Or.inr (Or.inr rfl)
      · rw [if_neg e21, if_neg egt] at hst
        exact stand_zero_range _ _ _ _ _ hst
  refine ⟨?_, hrange, ?_⟩
  · have hsh := loopHead_no_hit before _ sh rfl hnohit hhead
    have hw2 : wrapInt (player.bet * 2) = player.bet * 2 :=
      wrapInt_eq _ (by omega) (by omega)
    have hf2 : player.totalTokens ≥ wrapInt (player.bet * 2) := by rw [hw2]; exact hf
    rw [playRound_four, roundMenuLoop_append before (2 :: inputs) _ sh hhead]
    have hne0 := stand_ret_ne_zero _ _ _ _ _ _ hst
    have hcount : ¬ cardCount [c1, c3, c5] = 2 := by
      rw [cardCount_eq_length]; simp
    rcases hsh with e | e
    · subst e
      rw [roundMenuLoop_cons _ _ _ hne, if_neg (by decide),
        processChoice_two_funded
          { deck := c5 :: rest, pHand := [c1, c3], dHand := [c2, c4], whoWon := 0,
            player := player, initialPhase := true, canDoubleDown := true }
          inputs rfl hf2 c5 rest rfl]
      simp only [List.cons_append, List.nil_append, hst, hne0, and_false, if_false, hw2]
      rcases hrange with h1 | h1 | h1
      · simp [settleBet, h1, hcount]
      · simp [settleBet, h1]
      · simp [settleBet, h1]
    · subst e
      rw [roundMenuLoop_cons _ _ _ hne, if_neg (by decide),
        processChoice_two_funded
          { deck := c5 :: rest, pHand := [c1, c3], dHand := [c2, c4], whoWon := 0,
            player := player, initialPhase := false, canDoubleDown := true }
          inputs rfl hf2 c5 rest rfl]
      simp only [List.cons_append, List.nil_append, hst, hne0, and_false, if_false, hw2]
      rcases hrange with h1 | h1 | h1
      · simp [settleBet, h1, hcount]
      · simp [settleBet, h1]
      · simp [settleBet, h1]
  · intro egt
    have e21 : ¬ sumHand [c1, c3, c5] = 21 := by omega
    rw [if_neg e21, if_pos egt, stand_nonzero _ _ _ _ _ (by decide)] at hst
    simp only [Option.some.injEq] at hst
    rw [← hst]
    exact ⟨rfl, rfl, rfl⟩

/-- Witness of C13: after the invalid entry 7 the player doubles down on 5, 6, draws a
10 (21); the dealer holds 10, 6 and draws a 9 (25): Player Win, and the bet 100 ends as
200; the input 3 is left unread. -/
theorem playRound_double_down_witness :
    playRound [⟨5, 0⟩, ⟨10, 1⟩, ⟨6, 2⟩, ⟨6, 3⟩, ⟨10, 0⟩, ⟨9, 0⟩, ⟨2, 0⟩]
        { totalTokens := 500, bet := 100 } ([7] ++ 2 :: [3])
      = some ({ deck := [⟨2, 0⟩], pHand := [⟨5, 0⟩, ⟨6, 2⟩, ⟨10, 0⟩],
                dHand := [⟨10, 1⟩, ⟨6, 3⟩, ⟨9, 0⟩], whoWon := 1,
                player := { totalTokens := 500, bet := 200 },
                initialPhase := false, canDoubleDown := true }, [3]) :=
  (playRound_double_down ⟨5, 0⟩ ⟨10, 1⟩ ⟨6, 2⟩ ⟨6, 3⟩ ⟨10, 0⟩ [⟨9, 0⟩, ⟨2, 0⟩]
    { totalTokens := 500, bet := 100 } [7] [3]
    { deck := [⟨10, 0⟩, ⟨9, 0⟩, ⟨2, 0⟩], pHand := [⟨5, 0⟩, ⟨6, 2⟩], dHand := [⟨10, 1⟩, ⟨6, 3⟩],
      whoWon := 0, player := { totalTokens := 500, bet := 100 },
      initialPhase := true, canDoubleDown := true }
    { ret := 1, deck := [⟨2, 0⟩], dHand := [⟨10, 1⟩, ⟨6, 3⟩, ⟨9, 0⟩], whoWon := 1 }
    (by decide) (by decide) (by decide) (by decide) (by decide) (by decide) (by decide)).1

/-! ### The deck does not run out -/

theorem demoteAces_ge (n : Nat) (t : Int) : t - 10 * n ≤ demoteAces n t := by
  induction n generalizing t with
  | zero => simp [demoteAces]
  | succ n ih =>
    unfold demoteAces
    by_cases h : 21 < t
    · rw [if_pos h]
      have := ih (t - 10)
      push_cast
      omega
    · rw [if_neg h]
      push_cast
      omega

/-- With the aces counted as 1, every card of face value 1 or more is worth at least 1. -/
theorem hardTotal_ge_length (hand : List card) (hface : ∀ c ∈ hand, 1 ≤ c.faceValue) :
    (hand.length : Int) + 10 * aceNumber hand ≤ (hand.map cardPoints).sum := by
  induction hand with
  | nil => simp [aceNumber]
  | cons c t ih =>
    have hc := hface c (List.mem_cons_self _ _)
    have iht := ih (fun x hx => hface x (List.mem_cons_of_mem _ hx))
    unfold aceNumber at iht ⊢
    by_cases h10 : c.faceValue > 10
    · have h1 : ¬ c.faceValue = 1 := by omega
      simp only [List.map_cons, List.sum_cons, cardPoints, h10, if_true, List.length_cons,
        List.filter_cons, h1, decide_False, Bool.false_eq_true, if_false]
      push_cast
      omega
    · by_cases h1 : c.faceValue = 1
      · simp only [List.map_cons, List.sum_cons, cardPoints, h10, if_false, h1, if_true,
          List.length_cons, List.filter_cons, decide_True]
        push_cast
        omega
      · simp only [List.map_cons, List.sum_cons, cardPoints, h10, if_false, h1,
          List.length_cons, List.filter_cons, decide_False, Bool.false_eq_true]
        push_cast
        omega

/-- A hand of cards of face value 1 or more totals at least its number of cards. -/
theorem sumHand_ge_length (hand : List card) (hface : ∀ c ∈ hand, 1 ≤ c.faceValue) :
    (hand.length : Int) ≤ sumHand hand := by
  rw [sumHand_eq_handTotalSpec]
  unfold handTotalSpec
  have h1 := demoteAces_ge (aceNumber hand) ((hand.map cardPoints).sum)
  have h2 := hardTotal_ge_length hand hface
  omega

/-- The dealer's loop finds every card it asks for when the dealer's hand and the deck
hold 17 cards or more between them. -/
theorem stand_completes_of_length (deck pHand dHand : List card) (whoWon bet : Int)
    (hdeck : ∀ c ∈ deck, 1 ≤ c.faceValue) (hd : ∀ c ∈ dHand, 1 ≤ c.faceValue)
    (hlen : 17 ≤ dHand.length + deck.length) :
    ∃ r, stand deck pHand dHand whoWon bet = some r := by
  apply stand_completes deck pHand dHand whoWon bet deck.length (le_refl _)
  rw [List.take_length]
  have h := sumHand_ge_length (dHand ++ deck) (by
    intro c hc
    rcases List.mem_append.mp hc with h | h
    · exact hd c h
    · exact hdeck c h)
  rw [List.length_append] at h
  push_cast at h
  omega

/-- Induction over the loop heads of the menu: an invariant kept by a Hit that does not
bust and by a Double Down the balance does not cover holds at every loop head. -/
theorem loopHead_ind (P : RoundState → Prop)
    (hhit : ∀ s c deck1, s.whoWon = 0 → P s → sumHand s.pHand ≠ 21 → s.deck = c :: deck1 →
      sumHand (s.pHand ++ [c]) ≤ 21 →
      P { s with deck := deck1, pHand := s.pHand ++ [c], whoWon := 0,
                 canDoubleDown := false })
    (hshort : ∀ s, s.whoWon = 0 → P s → sumHand s.pHand ≠ 21 → s.canDoubleDown = true →
      ¬ s.player.totalTokens ≥ wrapInt (s.player.bet * 2) → P { s with initialPhase := false })
    (before : List Int) :
    ∀ (s sh : RoundState), s.whoWon = 0 → P s → loopHead s before = some sh →
      sh.whoWon = 0 ∧ P sh := by
  induction before with
  | nil =>
    intro s sh hw hP h
    simp only [loopHead, Option.some.injEq] at h
    subst h
    exact ⟨hw, hP⟩
  | cons c rest ih =>
    intro s sh hw hP h
    unfold loopHead at h
    by_cases he : (checkEarlyWin s.pHand s.dHand s.whoWon).1 = true
    · rw [if_pos he] at h; cases h
    · rw [if_neg he] at h
      have h21 : sumHand s.pHand ≠ 21 := by
        intro e
        apply he
        simp only [checkEarlyWin, e, if_true]
        split_ifs <;> rfl
      by_cases hinv : c < 1 ∨ c > 3
      · rw [if_pos hinv] at h
        by_cases hcont : c ≠ 3 ∧ s.whoWon = 0
        · rw [if_pos hcont] at h
          exact ih s sh hw hP h
        · rw [if_neg hcont] at h; cases h
      · rw [if_neg hinv] at h
        have hc : c = 1 ∨ c = 2 ∨ c = 3 := by omega
        rcases hc with hc | hc | hc
        · subst hc
          cases hd : s.deck with
          | nil => rw [processChoice_one_nil _ _ hd] at h; cases h
          | cons card deck1 =>
            rw [processChoice_one _ _ _ _ hd] at h
            simp only [ne_eq, show ¬ (1 : Int) = 3 by decide, not_false_eq_true,
              true_and] at h
            by_cases e21 : sumHand (s.pHand ++ [card]) = 21
            · simp only [e21, if_true] at h
              exact ih _ sh (by rfl) (by exact hhit s card deck1 hw hP h21 hd (by omega)) h
            · by_cases egt : sumHand (s.pHand ++ [card]) > 21
              · simp only [e21, egt, if_true, if_false, show ¬ (3 : Int) = 0 by decide] at h
                cases h
              · simp only [e21, egt, if_false, hw, if_true] at h
                exact ih _ sh (by rfl) (by exact hhit s card deck1 hw hP h21 hd (by omega)) h
        · subst hc
          simp only [ne_eq, show ¬ (2 : Int) = 3 by decide, not_false_eq_true,
            true_and] at h
          by_cases hcdd : s.canDoubleDown = true
          · by_cases hf : s.player.totalTokens ≥ wrapInt (s.player.bet * 2)
            · cases hd : s.deck with
              | nil => rw [processChoice_two_funded_nil _ _ hcdd hf hd] at h; cases h
              | cons card deck1 =>
                rw [processChoice_two_funded _ _ hcdd hf _ _ hd] at h
                cases hst : stand deck1 (s.pHand ++ [card]) s.dHand
                    (if sumHand (s.pHand ++ [card]) = 21 then 0
                     else if sumHand (s.pHand ++ [card]) > 21 then 3 else s.whoWon)
                    s.player.bet with
                | none => simp [hst] at h
                | some r =>
                  have hne := stand_ret_ne_zero _ _ _ _ _ _ hst
                  simp only [hst, hne, if_false] at h
                  cases h
            · rw [processChoice_two_short _ _ hcdd hf] at h
              simp only [hw, if_true] at h
              have hP1 := hshort s hw hP h21 hcdd hf
              rw [hw] at hP1
              exact ih _ sh (by rfl) (by exact hP1) h
          · have hcdd2 : s.canDoubleDown = false := by simpa using hcdd
            rw [processChoice_two_refused _ _ hcdd2] at h
            simp only [hw, if_true] at h
            exact ih _ sh hw hP h
        · subst hc
          cases hpc : processChoice 3 s rest with
          | none => simp [hpc] at h
          | some t => simp [hpc] at h

/-- C18: on a deck of 52 cards with face values in 1..13 the initial deal of `playRound`
finds its four cards, and at every loop head of the menu that the inputs can lead to the
deck still has a front card for a Hit or a Double Down, the dealer's loop of `stand`
finds every card it draws after that Double Down card, and it finds every card it draws
when `stand` is entered from the loop head itself (Stand, or a player total of 21). -/
theorem playRound_deck_suffices (deck : List card) (player : Player)
    (hlen : deck.length = 52)
    (hface : ∀ c ∈ deck, 1 ≤ c.faceValue ∧ c.faceValue ≤ 13) :
    ∃ s0, dealt deck player = some s0 ∧
      ∀ (before : List Int) (sh : RoundState), loopHead s0 before = some sh →
        (∃ c deck1, sh.deck = c :: deck1 ∧
          ∀ w bet, ∃ r, stand deck1 (sh.pHand ++ [c]) sh.dHand w bet = some r) ∧
        (∀ w bet, ∃ r, stand sh.deck sh.pHand sh.dHand w bet = some r) := by
  match deck, hlen, hface with
  | [], hlen, _ => simp at hlen
  | [_], hlen, _ => simp at hlen
  | [_, _], hlen, _ => simp at hlen
  | [_, _, _], hlen, _ => simp at hlen
  | c1 :: c2 :: c3 :: c4 :: rest, hlen, hface =>
    have hrest : rest.length = 48 := by simpa using hlen
    have hf : ∀ c ∈ c1 :: c2 :: c3 :: c4 :: rest, 1 ≤ c.faceValue := fun c hc => (hface c hc).1
    refine ⟨{ deck := rest, pHand := [c1, c3], dHand := [c2, c4], whoWon := 0,
              player := player, initialPhase := true, canDoubleDown := true }, rfl, ?_⟩
    intro before sh hhead
    obtain ⟨_, hinv⟩ := loopHead_ind
      (fun t => t.deck.length + t.pHand.length = 50 ∧ t.pHand.length ≤ 21 ∧
        (∀ c ∈ t.deck, 1 ≤ c.faceValue) ∧ (∀ c ∈ t.pHand, 1 ≤ c.faceValue) ∧
        t.dHand = [c2, c4])
      (by
        intro t c deck1 _ hP _ hd hle
        obtain ⟨p1, _, p3, p4, p5⟩ := hP
        have hfp : ∀ x ∈ t.pHand ++ [c], 1 ≤ x.faceValue := by
          intro x hx
          rcases List.mem_append.mp hx with h | h
          · exact p4 x h
          · rw [List.mem_singleton.mp h]
            exact p3 c (by rw [hd]; exact List.mem_cons_self _ _)
        have hge := sumHand_ge_length _ hfp
        rw [hd] at p1
        simp only [List.length_append, List.length_cons, List.length_nil] at hge p1 ⊢
        refine ⟨by omega, by push_cast at hge; omega, ?_, hfp, p5⟩
        intro x hx
        exact p3 x (by rw [hd]; exact List.mem_cons_of_mem _ hx))
      (by
        intro t _ hP _ _ _
        exact hP)
      before _ sh rfl
      (by
        refine ⟨by simp [hrest], by simp, ?_, ?_, rfl⟩
        · intro c hc
          exact hf c (by simp [hc])
        · intro c hc
          simp only [List.mem_cons, List.mem_singleton, List.not_mem_nil, or_false] at hc
          rcases hc with e | e
          · exact hf c (by simp [e])
          · exact hf c (by simp [e]))
      hhead
    obtain ⟨q1, q2, q3, _, q5⟩ := hinv
    have hd2 : ∀ c ∈ sh.dHand, 1 ≤ c.faceValue := by
      intro c hc
      rw [q5] at hc
      simp only [List.mem_cons, List.mem_singleton, List.not_mem_nil, or_false] at hc
      rcases hc with e | e
      · exact hf c (by simp [e])
      · exact hf c (by simp [e])
    have hdl : sh.dHand.length = 2 := by rw [q5]; rfl
    refine ⟨?_, ?_⟩
    · cases hdk : sh.deck with
      | nil => rw [hdk] at q1; simp at q1; omega
      | cons c deck1 =>
        refine ⟨c, deck1, rfl, ?_⟩
        intro w bet
        rw [hdk] at q1 q3
        simp only [List.length_cons] at q1
        exact stand_completes_of_length deck1 _ sh.dHand w bet
          (fun x hx => q3 x (List.mem_cons_of_mem _ hx)) hd2 (by omega)
    · intro w bet
      exact stand_completes_of_length sh.deck _ sh.dHand w bet q3 hd2 (by omega)

/-- Witness of C18: the 52 cards in the order Ace to King of hearts, diamonds, clubs and
spades. -/
theorem playRound_deck_suffices_witness :
    ∃ s0, dealt ((List.range 52).map cardOfIndex) { totalTokens := 500, bet := 100 } = some s0 ∧
      ∀ (before : List Int) (sh : RoundState), loopHead s0 before = some sh →
        (∃ c deck1, sh.deck = c :: deck1 ∧
          ∀ w bet, ∃ r, stand deck1 (sh.pHand ++ [c]) sh.dHand w bet = some r) ∧
        (∀ w bet, ∃ r, stand sh.deck sh.pHand sh.dHand w bet = some r) :=
  playRound_deck_suffices ((List.range 52).map cardOfIndex) { totalTokens := 500, bet := 100 }
    (by decide) (by decide)

/-! ### A Hit that reaches 21 -/

/-- Two cards never total more than 21: only two aces reach 22, and one is demoted. -/
theorem sumHand_two_le (a b : card) : sumHand [a, b] ≤ 21 := by
  simp only [sumHand, sumHandLoop]
  split_ifs <;> simp [adjustAces] <;> (try split_ifs) <;> omega

/-- What the code does on a Hit that reaches 21.  In a round of `playRound`, let the menu
loop stand at a loop head (after the inputs `before`) where the player's total is not 21, and let the next input be 1 (Hit)
with a front card that brings the player's total to exactly 21.  No further input is read.
If the dealer's two dealt cards total 21 the round ends as Push with the bet 0 and the
dealer draws nothing.  Otherwise `stand` lets the dealer draw to 17 or more and the
outcome is Player Win if the dealer's total exceeds 21 or is below 21, Dealer Win if the
dealer also has 21 with fewer cards than the player, Push otherwise; the final bet is the
bet, its negation or 0 accordingly. -/
theorem playRound_hit_to_21 (deck : List card) (player : Player) (before inputs : List Int)
    (s0 sh : RoundState) (c : card) (deck1 : List card)
    (hdealt : dealt deck player = some s0) (hhead : loopHead s0 before = some sh)
    (hne : sumHand sh.pHand ≠ 21) (hdeck : sh.deck = c :: deck1)
    (h21 : sumHand (sh.pHand ++ [c]) = 21) :
    (sumHand s0.dHand = 21 →
      playRound deck player (before ++ 1 :: inputs)
        = some ({ deck := deck1, pHand := sh.pHand ++ [c], dHand := s0.dHand, whoWon := 2,
                  player := { totalTokens := player.totalTokens, bet := 0 },
                  initialPhase := sh.initialPhase, canDoubleDown := false }, inputs)) ∧
    (sumHand s0.dHand ≠ 21 → ∀ r,
      stand deck1 (sh.pHand ++ [c]) s0.dHand 0 player.bet = some r →
      playRound deck player (before ++ 1 :: inputs)
        = some ({ deck := r.deck, pHand := sh.pHand ++ [c], dHand := r.dHand,
                  whoWon := r.ret,
                  player :=
                    { totalTokens := player.totalTokens,
                      bet := if r.ret = 1 then player.bet
                             else if r.ret = 3 then -player.bet else 0 },
                  initialPhase := sh.initialPhase, canDoubleDown := false }, inputs) ∧
      17 ≤ sumHand r.dHand ∧
      (∃ n, r.dHand = s0.dHand ++ deck1.take n ∧ r.deck = deck1.drop n) ∧
      r.ret = (if sumHand r.dHand > 21 ∨ sumHand r.dHand < 21 then 1
               else if r.dHand.length < (sh.pHand ++ [c]).length then 3 else 2)) := by
  obtain ⟨c1, c2, c3, c4, rest, hd, hs0⟩ := dealt_some _ _ _ hdealt
  have hw0 : s0.whoWon = 0 := by rw [hs0]
  have hp0 : s0.player = player := by rw [hs0]
  have hl0 : s0.pHand.length = 2 := by rw [hs0]; rfl
  obtain ⟨i1, i2, i3, i4⟩ := loopHead_inv before s0 sh hw0 hhead
  have hloop : roundMenuLoop s0 (before ++ 1 :: inputs) =
      roundMenuLoop { sh with deck := deck1, pHand := sh.pHand ++ [c], whoWon := 0,
                              canDoubleDown := false } inputs := by
    rw [roundMenuLoop_append before (1 :: inputs) s0 sh hhead,
      roundMenuLoop_cons _ _ _ hne, if_neg (by decide), processChoice_one _ _ _ _ hdeck]
    simp only [h21, if_true, ne_eq, show ¬ (1 : Int) = 3 by decide, not_false_eq_true,
      and_self]
  have hcount : ¬ cardCount (sh.pHand ++ [c]) = 2 := by
    rw [cardCount_eq_length]
    simp only [List.length_append, List.length_singleton]
    intro e
    have : sh.pHand.length + 1 = 2 := by exact_mod_cast e
    omega
  refine ⟨?_, ?_⟩
  · intro hd21
    rw [hd, playRound_four, ← hs0, hloop, roundMenuLoop_early _ _ (by exact h21)]
    simp only [i2, hd21, if_true]
    rw [stand_nonzero _ _ _ _ _ (by decide)]
    simp [settleBet, i3, hp0]
  · intro hd21 r hst
    have hret := stand_zero_ret _ _ _ _ _ hst (by rw [hs0]; exact sumHand_two_le c2 c4)
    obtain ⟨n, _, hdh, hdk, h17, _, _, _⟩ := stand_zero _ _ _ _ _ hst
    have hform : r.ret = (if sumHand r.dHand > 21 ∨ sumHand r.dHand < 21 then 1
               else if r.dHand.length < (sh.pHand ++ [c]).length then 3 else 2) := by
      rw [hret, h21]
      by_cases hgt : sumHand r.dHand > 21
      · simp [hgt]
      · by_cases hlt : sumHand r.dHand < 21
        · simp [hgt, hlt]
        · have he : sumHand r.dHand = 21 := by omega
          simp [he]
    refine ⟨?_, h17, ⟨n, hdh, hdk⟩, hform⟩
    rw [hd, playRound_four, ← hs0, hloop, roundMenuLoop_early _ _ (by exact h21)]
    simp only [i2, hd21, if_false, i3, hp0, hst]
    have hrange := stand_zero_range _ _ _ _ _ hst
    rcases hrange with h1 | h1 | h1
    · simp [settleBet, h1, hcount, h21]
    · simp [settleBet, h1]
    · simp [settleBet, h1]

/-- An instance of `playRound_hit_to_21`: the player holds 7, 7 against the dealer's 10, 6 and hits a
third 7 (21); the dealer draws a King (26): Player Win with the bet 100, and the input 3
is left unread. -/
theorem playRound_hit_to_21_witness :
    playRound [⟨7, 0⟩, ⟨10, 3⟩, ⟨7, 1⟩, ⟨6, 2⟩, ⟨7, 2⟩, ⟨13, 0⟩, ⟨2, 1⟩]
        { totalTokens := 500, bet := 100 } ([] ++ 1 :: [3])
      = some ({ deck := [⟨2, 1⟩], pHand := [⟨7, 0⟩, ⟨7, 1⟩] ++ [⟨7, 2⟩],
                dHand := [⟨10, 3⟩, ⟨6, 2⟩, ⟨13, 0⟩], whoWon := 1,
                player := { totalTokens := 500, bet := 100 },
                initialPhase := true, canDoubleDown := false }, [3]) :=
  ((playRound_hit_to_21 [⟨7, 0⟩, ⟨10, 3⟩, ⟨7, 1⟩, ⟨6, 2⟩, ⟨7, 2⟩, ⟨13, 0⟩, ⟨2, 1⟩]
    { totalTokens := 500, bet := 100 } [] [3]
    { deck := [⟨7, 2⟩, ⟨13, 0⟩, ⟨2, 1⟩], pHand := [⟨7, 0⟩, ⟨7, 1⟩], dHand := [⟨10, 3⟩, ⟨6, 2⟩],
      whoWon := 0, player := { totalTokens := 500, bet := 100 },
      initialPhase := true, canDoubleDown := true }
    { deck := [⟨7, 2⟩, ⟨13, 0⟩, ⟨2, 1⟩], pHand := [⟨7, 0⟩, ⟨7, 1⟩], dHand := [⟨10, 3⟩, ⟨6, 2⟩],
      whoWon := 0, player := { totalTokens := 500, bet := 100 },
      initialPhase := true, canDoubleDown := true }
    ⟨7, 2⟩ [⟨13, 0⟩, ⟨2, 1⟩] (by decide) (by decide) (by decide) (by decide) (by decide)).2
    (by decide)
    { ret := 1, deck := [⟨2, 1⟩], dHand := [⟨10, 3⟩, ⟨6, 2⟩, ⟨13, 0⟩], whoWon := 1 }
    (by decide)).1

/-! ### Hand totals: the aces-as-1 total and the ways of counting the aces -/

/-- The sum of the card values with every ace as 11 is the aces-as-1 total plus 10 for
each ace. -/
theorem rawTotal_eq (hand : List card) :
    (hand.map cardPoints).sum = hardTotal hand + 10 * aceNumber hand := by
  induction hand with
  | nil => simp [hardTotal, aceNumber]
  | cons c t ih =>
    unfold hardTotal aceNumber at ih ⊢
    by_cases h10 : c.faceValue > 10
    · have h1 : ¬ c.faceValue = 1 := by omega
      simp only [List.map_cons, List.sum_cons, cardPoints, hardPoints, h10, if_true,
        List.filter_cons, h1, decide_False, Bool.false_eq_true, if_false]
      omega
    · by_cases h1 : c.faceValue = 1
      · simp only [List.map_cons, List.sum_cons, cardPoints, hardPoints, h10, if_false, h1,
          if_true, List.filter_cons, decide_True, List.length_cons]
        push_cast
        omega
      · simp only [List.map_cons, List.sum_cons, cardPoints, hardPoints, h10, if_false, h1,
          List.filter_cons, decide_False, Bool.false_eq_true]
        omega

/-- What the demotion loop returns: `j` aces are demoted, and it stops either at 21 or
less or with no ace left; it demotes only what exceeds 21. -/
theorem demoteAces_spec (n : Nat) (t : Int) :
    ∃ j : Nat, j ≤ n ∧ demoteAces n t = t - 10 * j ∧ (demoteAces n t ≤ 21 ∨ j = n) ∧
      (0 < j → 21 < demoteAces n t + 10) := by
  induction n generalizing t with
  | zero => exact ⟨0, le_refl _, by simp [demoteAces], Or.inr rfl, fun h => absurd h (by decide)⟩
  | succ n ih =>
    unfold demoteAces
    by_cases h : 21 < t
    · rw [if_pos h]
      obtain ⟨j, hj, he, hs, hp⟩ := ih (t - 10)
      refine ⟨j + 1, by omega, by rw [he]; push_cast; omega, ?_, ?_⟩
      · rcases hs with hs | hs
        · exact Or.inl hs
        · exact Or.inr (by omega)
      · intro _
        by_cases hj0 : j = 0
        · subst hj0
          rw [he]
          simp only [Nat.cast_zero, mul_zero, sub_zero]
          omega
        · exact hp (by omega)
    · rw [if_neg h]
      exact ⟨0, by omega, by simp, Or.inl (by omega), fun h0 => absurd h0 (by decide)⟩

/-- The value of `sumHand`: the aces-as-1 total plus 10 for each of the `k` aces still
counted as 11. -/
theorem sumHand_spec (hand : List card) :
    ∃ k : Nat, k ≤ aceNumber hand ∧ sumHand hand = hardTotal hand + 10 * k ∧
      (sumHand hand ≤ 21 ∨ k = 0) ∧ (k < aceNumber hand → 21 < sumHand hand + 10) := by
  obtain ⟨j, hj, he, hs, hp⟩ := demoteAces_spec (aceNumber hand) ((hand.map cardPoints).sum)
  rw [rawTotal_eq] at he hs hp
  have hsum : sumHand hand = demoteAces (aceNumber hand) (hardTotal hand + 10 * aceNumber hand) := by
    rw [sumHand_eq_handTotalSpec, handTotalSpec, rawTotal_eq]
  refine ⟨aceNumber hand - j, by omega, ?_, ?_, ?_⟩
  · rw [hsum, he]
    push_cast [Nat.cast_sub hj]
    omega
  · rcases hs with hs | hs
    · exact Or.inl (by rw [hsum]; exact hs)
    · exact Or.inr (by omega)
  · intro hk
    rw [hsum]
    exact hp (by omega)

theorem hardTotal_le_sumHand (hand : List card) : hardTotal hand ≤ sumHand hand := by
  obtain ⟨k, _, he, _, _⟩ := sumHand_spec hand
  omega

theorem hardTotal_append (hand : List card) (c : card) :
    hardTotal (hand ++ [c]) = hardTotal hand + hardPoints c := by
  simp [hardTotal]

theorem hardPoints_pos (c : card) (hc : 1 ≤ c.faceValue) : 1 ≤ hardPoints c := by
  unfold hardPoints
  split_ifs <;> omega

/-- Every way of counting the aces gives the aces-as-1 total plus 10 for each ace it
counts as 11. -/
theorem countedAs_eq (hand : List card) :
    ∀ eleven : List Bool, ∃ k : Nat, k ≤ aceNumber hand ∧
      countedAs hand eleven = hardTotal hand + 10 * k := by
  induction hand with
  | nil => intro _; exact ⟨0, by simp [aceNumber], by simp [countedAs, hardTotal]⟩
  | cons c t ih =>
    intro eleven
    obtain ⟨k, hk, he⟩ := ih eleven.tail
    unfold aceNumber at hk ⊢
    unfold hardTotal at he ⊢
    by_cases h10 : c.faceValue > 10
    · have h1 : ¬ c.faceValue = 1 := by omega
      refine ⟨k, by simp [List.filter_cons, h1]; exact hk, ?_⟩
      simp only [countedAs, h10, if_true, he, List.map_cons, List.sum_cons, hardPoints]
      omega
    · by_cases h1 : c.faceValue = 1
      · by_cases hb : eleven.headD false = true
        · refine ⟨k + 1, by simp [List.filter_cons, h1]; exact hk, ?_⟩
          simp only [countedAs, h10, if_false, h1, if_true, hb, he, List.map_cons,
            List.sum_cons, hardPoints]
          push_cast
          omega
        · refine ⟨k, by simp only [List.filter_cons, h1, decide_True, if_true, List.length_cons]; omega, ?_⟩
          simp only [countedAs, h10, if_false, h1, if_true, hb, he, List.map_cons,
            List.sum_cons, hardPoints, show ¬ (1 : Int) > 10 by decide, Bool.false_eq_true]
          omega
      · refine ⟨k, by simp [List.filter_cons, h1]; exact hk, ?_⟩
        simp only [countedAs, h10, if_false, h1, he, List.map_cons, List.sum_cons, hardPoints]
        omega

/-- Any number of the aces can be counted as 11. -/
theorem countedAs_exists (hand : List card) :
    ∀ k : Nat, k ≤ aceNumber hand →
      ∃ eleven : List Bool, countedAs hand eleven = hardTotal hand + 10 * k := by
  induction hand with
  | nil =>
    intro k hk
    have : k = 0 := by simpa [aceNumber] using hk
    subst this
    exact ⟨[], by simp [countedAs, hardTotal]⟩
  | cons c t ih =>
    intro k hk
    unfold aceNumber at hk
    by_cases h10 : c.faceValue > 10
    · have h1 : ¬ c.faceValue = 1 := by omega
      obtain ⟨el, he⟩ := ih k (by simpa [List.filter_cons, h1, aceNumber] using hk)
      refine ⟨false :: el, ?_⟩
      unfold hardTotal at he ⊢
      simp only [countedAs, h10, if_true, List.tail_cons, he, List.map_cons, List.sum_cons,
        hardPoints]
      omega
    · by_cases h1 : c.faceValue = 1
      · have hk1 : k ≤ aceNumber t + 1 := by
          simpa [List.filter_cons, h1, aceNumber] using hk
        cases k with
        | zero =>
          obtain ⟨el, he⟩ := ih 0 (Nat.zero_le _)
          refine ⟨false :: el, ?_⟩
          unfold hardTotal at he ⊢
          simp only [countedAs, h10, if_false, h1, if_true, List.headD_cons,
            Bool.false_eq_true, List.tail_cons, he, List.map_cons, List.sum_cons, hardPoints]
          omega
        | succ k0 =>
          obtain ⟨el, he⟩ := ih k0 (by omega)
          refine ⟨true :: el, ?_⟩
          unfold hardTotal at he ⊢
          simp only [countedAs, h10, if_false, h1, if_true, List.headD_cons,
            List.tail_cons, he, List.map_cons, List.sum_cons, hardPoints]
          push_cast
          omega
      · obtain ⟨el, he⟩ := ih k (by simpa [List.filter_cons, h1, aceNumber] using hk)
        refine ⟨false :: el, ?_⟩
        unfold hardTotal at he ⊢
        simp only [countedAs, h10, if_false, h1, List.tail_cons, he, List.map_cons,
          List.sum_cons, hardPoints]
        omega

/-- C30: `sumHand` is the best total among the ways of counting each ace as 1 or 11: it
is the total of one such way; if some way gives 21 or less, `sumHand` is at most 21 and
no such way gives more; if every way exceeds 21, `sumHand` is the aces-as-1 total, the
smallest of them.  (This holds for every hand, in particular for face values 1..13.) -/
theorem sumHand_best (hand : List card) :
    (∃ eleven, countedAs hand eleven = sumHand hand) ∧
    (∀ eleven, countedAs hand eleven ≤ 21 →
      sumHand hand ≤ 21 ∧ ∀ other, countedAs hand other ≤ 21 →
        countedAs hand other ≤ sumHand hand) ∧
    ((∀ eleven, 21 < countedAs hand eleven) →
      sumHand hand = countedAs hand [] ∧ sumHand hand = hardTotal hand ∧
      ∀ other, sumHand hand ≤ countedAs hand other) := by
  obtain ⟨k, hk, he, hs, hp⟩ := sumHand_spec hand
  have hzero : countedAs hand [] = hardTotal hand := by
    have h : ∀ h : List card, countedAs h [] = hardTotal h := by
      intro h
      induction h with
      | nil => simp [countedAs, hardTotal]
      | cons c t ih =>
        unfold hardTotal at ih ⊢
        simp only [countedAs, List.headD_nil, Bool.false_eq_true, if_false, List.tail_nil, ih,
          List.map_cons, List.sum_cons, hardPoints]
        by_cases h10 : c.faceValue > 10
        · simp [h10]
        · by_cases h1 : c.faceValue = 1
          · simp [h1]
          · simp [h10, h1]
    exact h hand
  refine ⟨?_, ?_, ?_⟩
  · obtain ⟨el, hel⟩ := countedAs_exists hand k hk
    exact ⟨el, by rw [hel, he]⟩
  · intro eleven hle
    obtain ⟨k1, hk1, he1⟩ := countedAs_eq hand eleven
    have hfit : sumHand hand ≤ 21 := by
      rcases hs with hs | hs
      · exact hs
      · subst hs
        omega
    refine ⟨hfit, ?_⟩
    intro other hother
    obtain ⟨k2, hk2, he2⟩ := countedAs_eq hand other
    by_cases hka : k < aceNumber hand
    · have := hp hka
      omega
    · omega
  · intro hall
    have h0 := hall []
    rw [hzero] at h0
    have hk0 : k = 0 := by
      rcases hs with hs | hs
      · omega
      · exact hs
    subst hk0
    refine ⟨by rw [hzero, he]; simp, by rw [he]; simp, ?_⟩
    intro other
    obtain ⟨k2, _, he2⟩ := countedAs_eq hand other
    omega

/-- C24 as the claim words it fails: Ace, 9 totals 20, and with a 5 appended 15. -/
theorem sumHand_drops :
    sumHand [⟨1, 0⟩, ⟨9, 1⟩] = 20 ∧ sumHand ([⟨1, 0⟩, ⟨9, 1⟩] ++ [⟨5, 2⟩]) = 15 := by
  decide

/-- C24 (amended): appending a card of face value in 1..13 raises the aces-as-1 total of
a hand by at least 1, and `sumHand` of the longer hand is at least `sumHand` of the hand
whenever `sumHand` counts no ace of the hand as 11 (it equals the aces-as-1 total), as
for every hand without an ace. -/
theorem hardTotal_mono (hand : List card) (c : card)
    (hc : 1 ≤ c.faceValue ∧ c.faceValue ≤ 13) :
    hardTotal hand + 1 ≤ hardTotal (hand ++ [c]) ∧
    (sumHand hand = hardTotal hand → sumHand hand ≤ sumHand (hand ++ [c])) ∧
    (aceNumber hand = 0 → sumHand hand ≤ sumHand (hand ++ [c])) := by
  have h1 : hardTotal hand + 1 ≤ hardTotal (hand ++ [c]) := by
    rw [hardTotal_append]
    have := hardPoints_pos c hc.1
    omega
  have h2 := hardTotal_le_sumHand (hand ++ [c])
  refine ⟨h1, fun e => by omega, fun e => ?_⟩
  obtain ⟨k, hk, he, _, _⟩ := sumHand_spec hand
  have hk0 : k = 0 := by omega
  subst hk0
  simp only [Nat.cast_zero, mul_zero, add_zero] at he
  omega

/-- Witness of C24 (amended): 10, 9 (no ace, 19) and a 5 appended (24). -/
theorem hardTotal_mono_witness :
    hardTotal [⟨10, 0⟩, ⟨9, 1⟩] + 1 ≤ hardTotal ([⟨10, 0⟩, ⟨9, 1⟩] ++ [⟨5, 2⟩]) ∧
    (sumHand [⟨10, 0⟩, ⟨9, 1⟩] = hardTotal [⟨10, 0⟩, ⟨9, 1⟩] →
      sumHand [⟨10, 0⟩, ⟨9, 1⟩] ≤ sumHand ([⟨10, 0⟩, ⟨9, 1⟩] ++ [⟨5, 2⟩])) ∧
    (aceNumber [⟨10, 0⟩, ⟨9, 1⟩] = 0 →
      sumHand [⟨10, 0⟩, ⟨9, 1⟩] ≤ sumHand ([⟨10, 0⟩, ⟨9, 1⟩] ++ [⟨5, 2⟩])) :=
  hardTotal_mono [⟨10, 0⟩, ⟨9, 1⟩] ⟨5, 2⟩ (by decide)

/-- C26: on a non-empty deck `playerHit` moves the front card of the deck to the back of
the player's hand; `whoWon` becomes 3 if the new total exceeds 21, 0 if it is 21, and is
left otherwise.  It is handed neither the dealer's hand nor the bet, and choice 1 of
`processChoice`, which calls it, leaves both (and the tokens) as they were. -/
theorem playerHit_moves_front (c : card) (deck1 pHand dHand : List card) (whoWon : Int)
    (player : Player) (initialPhase canDoubleDown : Bool) (inputs : List Int) :
    playerHit (c :: deck1) pHand whoWon
      = some (deck1, pHand ++ [c],
              if sumHand (pHand ++ [c]) > 21 then 3
              else if sumHand (pHand ++ [c]) = 21 then 0 else whoWon) ∧
    processChoice 1
        { deck := c :: deck1, pHand := pHand, dHand := dHand, whoWon := whoWon,
          player := player, initialPhase := initialPhase, canDoubleDown := canDoubleDown }
        inputs
      = some ({ deck := deck1, pHand := pHand ++ [c], dHand := dHand,
                whoWon := if sumHand (pHand ++ [c]) > 21 then 3
                          else if sumHand (pHand ++ [c]) = 21 then 0 else whoWon,
                player := player, initialPhase := initialPhase, canDoubleDown := false },
              inputs) := by
  have hflag : (if sumHand (pHand ++ [c]) = 21 then (0 : Int)
        else if sumHand (pHand ++ [c]) > 21 then 3 else whoWon)
      = (if sumHand (pHand ++ [c]) > 21 then 3
         else if sumHand (pHand ++ [c]) = 21 then 0 else whoWon) := by
    by_cases h21 : sumHand (pHand ++ [c]) = 21
    · simp [h21]
    · simp [h21]
  refine ⟨?_, ?_⟩
  · simp only [playerHit]
    rw [hflag]
  · rw [processChoice_one _ _ c deck1 rfl]
    simp only [hflag]

/-- C27, the code at the failing input: `checkEarlyWin` returns `true` exactly when the
player's hand totals 21, whatever the dealer holds; with the player on 10, 10 (20) and
the dealer on Ace, King (21) it returns `false` and leaves `whoWon` as it was. -/
theorem checkEarlyWin_ignores_dealer :
    (∀ (player dealer : List card) (whoWon : Int),
      (checkEarlyWin player dealer whoWon).1 = true ↔ sumHand player = 21) ∧
    checkEarlyWin [⟨10, 0⟩, ⟨10, 1⟩] [⟨1, 2⟩, ⟨13, 3⟩] 0 = (false, 0) ∧
    sumHand [⟨1, 2⟩, ⟨13, 3⟩] = 21 := by
  refine ⟨?_, by decide, by decide⟩
  intro player dealer whoWon
  unfold checkEarlyWin
  by_cases h : sumHand player = 21
  · simp only [h, if_true, true_and, iff_true]
    split_ifs <;> rfl
  · simp [h]

/-! ### `betMenu` -/

/-- The test of `betMenu` lets through exactly the multiples of 10 from 10 to the
balance. -/
theorem betMenu_test (tokenCount x : Int) :
    ¬ (Int.tmod x 10 ≠ 0 ∨ x < 10 ∨ x > tokenCount) ↔
      ((10 : Int) ∣ x ∧ 10 ≤ x ∧ x ≤ tokenCount) := by
  constructor
  · intro h
    have h1 : Int.tmod x 10 = 0 := by
      by_contra hne
      exact h (Or.inl hne)
    exact ⟨Int.dvd_of_tmod_eq_zero h1, by omega, by omega⟩
  · rintro ⟨hd, h10, hT⟩ hx
    have h1 : Int.tmod x 10 = 0 := Int.tmod_eq_zero_of_dvd hd
    rcases hx with hx | hx | hx
    · exact hx h1
    · omega
    · omega

/-- C22: `betMenu` returns a bet exactly when the entries are some rejected ones (not a
multiple of 10, below 10, or above the balance) followed by that bet, a multiple of 10
from 10 to the balance, and what is left unread comes after it.  The balance is a value
parameter of the source and is not among the results. -/
theorem betMenu_first_valid (tokenCount : Int) (inputs : List Int) (bet : Int)
    (rest : List Int) :
    betMenu tokenCount inputs = some (bet, rest) ↔
      ∃ rejected, inputs = rejected ++ bet :: rest ∧
        (∀ x ∈ rejected, ¬ ((10 : Int) ∣ x) ∨ x < 10 ∨ x > tokenCount) ∧
        ((10 : Int) ∣ bet ∧ 10 ≤ bet ∧ bet ≤ tokenCount) := by
  constructor
  · intro h
    induction inputs with
    | nil => simp [betMenu] at h
    | cons x xs ih =>
      unfold betMenu at h
      by_cases hx : Int.tmod x 10 ≠ 0 ∨ x < 10 ∨ x > tokenCount
      · rw [if_pos hx] at h
        obtain ⟨rej, he, hr, hv⟩ := ih h
        refine ⟨x :: rej, by rw [he]; rfl, ?_, hv⟩
        intro y hy
        rcases List.mem_cons.mp hy with e | hm
        · subst e
          by_contra hc
          have hv2 : (10 : Int) ∣ y ∧ 10 ≤ y ∧ y ≤ tokenCount := by
            refine ⟨?_, ?_, ?_⟩
            · by_contra hd; exact hc (Or.inl hd)
            · by_contra hd; exact hc (Or.inr (Or.inl (by omega)))
            · by_contra hd; exact hc (Or.inr (Or.inr (by omega)))
          exact (betMenu_test tokenCount y).mpr hv2 hx
        · exact hr y hm
      · have hv := (betMenu_test tokenCount x).mp hx
        have h0 : ¬ x = 0 := by omega
        rw [if_neg hx, if_neg h0] at h
        simp only [Option.some.injEq, Prod.mk.injEq] at h
        exact ⟨[], by rw [h.1, h.2]; rfl, by simp, by rw [← h.1]; exact hv⟩
  · rintro ⟨rej, he, hr, hv⟩
    subst he
    induction rej with
    | nil =>
      have hx := (betMenu_test tokenCount bet).mpr hv
      have h0 : ¬ bet = 0 := by omega
      simp only [List.nil_append, betMenu]
      rw [if_neg hx, if_neg h0]
    | cons x xs ih =>
      have hx : Int.tmod x 10 ≠ 0 ∨ x < 10 ∨ x > tokenCount := by
        by_contra hc
        have hv2 := (betMenu_test tokenCount x).mp hc
        rcases hr x (List.mem_cons_self _ _) with h | h | h
        · exact h hv2.1
        · omega
        · omega
      simp only [List.cons_append, betMenu]
      rw [if_pos hx]
      exact ih (fun y hy => hr y (List.mem_cons_of_mem _ hy))

/-! ### The dealer's loop halts -/

/-- C23: with face values in 1..13 and 17 cards or more between the dealer's hand and the
deck, `stand` returns: the dealer takes `n` cards from the front of the deck and stops
with 17 cards or fewer in hand unless nothing was drawn (so after at most 15 draws from
a two-card hand); every draw shortens the deck by one card and raises the dealer's
aces-as-1 total by at least 1. -/
theorem stand_halts (deck pHand dHand : List card) (bet : Int)
    (hdeck : ∀ c ∈ deck, 1 ≤ c.faceValue ∧ c.faceValue ≤ 13)
    (hd : ∀ c ∈ dHand, 1 ≤ c.faceValue ∧ c.faceValue ≤ 13)
    (hlen : 17 ≤ dHand.length + deck.length) :
    ∃ r n, stand deck pHand dHand 0 bet = some r ∧
      r.dHand = dHand ++ deck.take n ∧ r.deck = deck.drop n ∧
      r.dHand.length = dHand.length + n ∧ r.deck.length + n = deck.length ∧
      (n = 0 ∨ r.dHand.length ≤ 17) ∧ (dHand.length = 2 → n ≤ 15) ∧
      hardTotal dHand + n ≤ hardTotal r.dHand := by
  obtain ⟨r, hr⟩ := stand_completes_of_length deck pHand dHand 0 bet
    (fun c hc => (hdeck c hc).1) (fun c hc => (hd c hc).1) hlen
  obtain ⟨n, hn, hdh, hdk, _, hmin, _, _⟩ := stand_zero _ _ _ _ _ hr
  have hl1 : r.dHand.length = dHand.length + n := by
    rw [hdh, List.length_append, List.length_take]
    omega
  have hl2 : r.deck.length + n = deck.length := by
    rw [hdk, List.length_drop]
    omega
  have hstop : n = 0 ∨ r.dHand.length ≤ 17 := by
    by_cases hn0 : n = 0
    · exact Or.inl hn0
    · right
      have hlt := hmin (n - 1) (by omega)
      have hge := sumHand_ge_length (dHand ++ deck.take (n - 1)) (by
        intro c hc
        rcases List.mem_append.mp hc with h | h
        · exact (hd c h).1
        · exact (hdeck c (List.mem_of_mem_take h)).1)
      rw [List.length_append, List.length_take] at hge
      have hmin1 : min (n - 1) deck.length = n - 1 := by omega
      rw [hmin1] at hge
      push_cast at hge
      omega
  have hhard : ∀ (k : Nat) (d : List card), k ≤ deck.length →
      hardTotal d + k ≤ hardTotal (d ++ deck.take k) := by
    intro k
    induction k with
    | zero => intro d _; simp
    | succ k ih =>
      intro d hk
      have hlt : k < deck.length := by omega
      rw [List.take_succ, List.getElem?_eq_getElem hlt]
      simp only [Option.toList_some]
      rw [← List.append_assoc, hardTotal_append]
      have h1 := ih d (by omega)
      have h2 := hardPoints_pos deck[k] (hdeck _ (List.getElem_mem hlt)).1
      push_cast
      omega
  refine ⟨r, n, hr, hdh, hdk, hl1, hl2, hstop, ?_, ?_⟩
  · intro h2
    rcases hstop with h | h
    · omega
    · omega
  · rw [hdh]
    exact hhard n dHand hn

/-- Witness of C23: the dealer holds 2, 3 and the deck is seventeen aces. -/
theorem stand_halts_witness :
    ∃ r n, stand (List.replicate 17 ⟨1, 0⟩) [⟨10, 0⟩, ⟨9, 1⟩] [⟨2, 2⟩, ⟨3, 3⟩] 0 100 = some r ∧
      r.dHand = [⟨2, 2⟩, ⟨3, 3⟩] ++ (List.replicate 17 (⟨1, 0⟩ : card)).take n ∧
      r.deck = (List.replicate 17 (⟨1, 0⟩ : card)).drop n ∧
      r.dHand.length = ([⟨2, 2⟩, ⟨3, 3⟩] : List card).length + n ∧
      r.deck.length + n = (List.replicate 17 (⟨1, 0⟩ : card)).length ∧
      (n = 0 ∨ r.dHand.length ≤ 17) ∧
      (([⟨2, 2⟩, ⟨3, 3⟩] : List card).length = 2 → n ≤ 15) ∧
      hardTotal [⟨2, 2⟩, ⟨3, 3⟩] + n ≤ hardTotal r.dHand :=
  stand_halts (List.replicate 17 ⟨1, 0⟩) [⟨10, 0⟩, ⟨9, 1⟩] [⟨2, 2⟩, ⟨3, 3⟩] 100
    (by decide) (by decide) (by decide)

/-! ### The trace of a round: loop heads and the last iteration -/

theorem not_early (s : RoundState) (hne : sumHand s.pHand ≠ 21) :
    ¬ (checkEarlyWin s.pHand s.dHand s.whoWon).1 = true := by
  simp [checkEarlyWin, hne]

/-- The loop head after an entry outside 1..3. -/
theorem loopHead_cons_invalid (s : RoundState) (c : Int) (rest : List Int)
    (hne : sumHand s.pHand ≠ 21) (hinv : c < 1 ∨ c > 3) (hw : s.whoWon = 0) :
    loopHead s (c :: rest) = loopHead s rest := by
  have hc3 : c ≠ 3 := by omega
  rw [loopHead, if_neg (not_early s hne), if_pos hinv, if_pos ⟨hc3, hw⟩]

/-- The loop head after a choice in 1..3. -/
theorem loopHead_cons_valid (s : RoundState) (c : Int) (rest : List Int)
    (hne : sumHand s.pHand ≠ 21) (hval : ¬ (c < 1 ∨ c > 3)) :
    loopHead s (c :: rest) =
      match processChoice c s rest with
      | none => none
      | some (s1, _) => if c ≠ 3 ∧ s1.whoWon = 0 then loopHead s1 rest else none := by
  rw [loopHead, if_neg (not_early s hne), if_neg hval]

/-- A completed run of the menu loop splits into the inputs that lead to its last loop
head and the last iteration: either the player's hand totals 21 there and `stand` is
called at once, or a choice in 1..3 is read whose `processChoice` ends the loop. -/
theorem roundMenuLoop_exit (inputs : List Int) :
    ∀ (s s1 : RoundState) (unread : List Int), s.whoWon = 0 →
      roundMenuLoop s inputs = some (s1, unread) →
      ∃ before after sh, inputs = before ++ after ∧ loopHead s before = some sh ∧
        sh.whoWon = 0 ∧
        ((sumHand sh.pHand = 21 ∧ after = unread ∧
            ∃ r, stand sh.deck sh.pHand sh.dHand (if sumHand sh.dHand = 21 then 2 else 0)
                  sh.player.bet = some r ∧
              s1 = { sh with deck := r.deck, dHand := r.dHand, whoWon := r.ret }) ∨
         (sumHand sh.pHand ≠ 21 ∧ ∃ c rest, after = c :: rest ∧ 1 ≤ c ∧ c ≤ 3 ∧
            processChoice c sh rest = some (s1, unread) ∧ (c = 3 ∨ s1.whoWon ≠ 0))) := by
  have early : ∀ (inp : List Int) (s s1 : RoundState) (unread : List Int), s.whoWon = 0 →
      sumHand s.pHand = 21 → roundMenuLoop s inp = some (s1, unread) →
      ∃ before after sh, inp = before ++ after ∧ loopHead s before = some sh ∧
        sh.whoWon = 0 ∧
        ((sumHand sh.pHand = 21 ∧ after = unread ∧
            ∃ r, stand sh.deck sh.pHand sh.dHand (if sumHand sh.dHand = 21 then 2 else 0)
                  sh.player.bet = some r ∧
              s1 = { sh with deck := r.deck, dHand := r.dHand, whoWon := r.ret }) ∨
         (sumHand sh.pHand ≠ 21 ∧ ∃ c rest, after = c :: rest ∧ 1 ≤ c ∧ c ≤ 3 ∧
            processChoice c sh rest = some (s1, unread) ∧ (c = 3 ∨ s1.whoWon ≠ 0))) := by
    intro inp s s1 unread hw h21 h
    rw [roundMenuLoop_early _ _ h21] at h
    cases hst : stand s.deck s.pHand s.dHand (if sumHand s.dHand = 21 then 2 else 0)
        s.player.bet with
    | none => simp [hst] at h
    | some r =>
      simp only [hst, Option.some.injEq, Prod.mk.injEq] at h
      exact ⟨[], inp, s, rfl, rfl, hw, Or.inl ⟨h21, h.2, r, hst, h.1.symm⟩⟩
  induction inputs with
  | nil =>
    intro s s1 unread hw h
    by_cases h21 : sumHand s.pHand = 21
    · exact early [] s s1 unread hw h21 h
    · rw [roundMenuLoop_nil _ h21] at h
      cases h
  | cons c rest ih =>
    intro s s1 unread hw h
    by_cases h21 : sumHand s.pHand = 21
    · exact early _ s s1 unread hw h21 h
    · rw [roundMenuLoop_cons _ _ _ h21] at h
      by_cases hinv : c < 1 ∨ c > 3
      · have hc3 : c ≠ 3 := by omega
        rw [if_pos hinv, if_pos ⟨hc3, hw⟩] at h
        obtain ⟨before, after, sh, he, hh, hw1, hx⟩ := ih s s1 unread hw h
        refine ⟨c :: before, after, sh, by rw [he]; rfl, ?_, hw1, hx⟩
        rw [loopHead_cons_invalid _ _ _ h21 hinv hw]
        exact hh
      · rw [if_neg hinv] at h
        cases hpc : processChoice c s rest with
        | none => simp [hpc] at h
        | some t =>
          obtain ⟨s2, rest2⟩ := t
          simp only [hpc] at h
          by_cases hcont : c ≠ 3 ∧ s2.whoWon = 0
          · rw [if_pos hcont] at h
            obtain ⟨before, after, sh, he, hh, hw1, hx⟩ := ih s2 s1 unread hcont.2 h
            refine ⟨c :: before, after, sh, by rw [he]; rfl, ?_, hw1, hx⟩
            rw [loopHead_cons_valid _ _ _ h21 hinv, processChoice_inputs c s before hcont.1]
            rw [processChoice_inputs c s rest hcont.1] at hpc
            cases hp0 : processChoice c s [] with
            | none => simp [hp0] at hpc
            | some t0 =>
              obtain ⟨s3, r3⟩ := t0
              simp only [hp0, Option.some.injEq, Prod.mk.injEq] at hpc
              simp only []
              rw [hpc.1, if_pos hcont]
              exact hh
          · rw [if_neg hcont] at h
            simp only [Option.some.injEq, Prod.mk.injEq] at h
            refine ⟨[], c :: rest, s, rfl, rfl, hw, Or.inr ⟨h21, c, rest, rfl, by omega,
              by omega, ?_, ?_⟩⟩
            · rw [hpc, h.1, h.2]
            · rw [← h.1]
              by_cases hc3 : c = 3
              · exact Or.inl hc3
              · right
                intro hz
                exact hcont ⟨hc3, hz⟩

/-- The entries `insuranceOffer` reads: some that it asks again, then the answer. -/
theorem insuranceOffer_trace (s : RoundState) (inputs : List Int) (s1 : RoundState)
    (unread : List Int) (h : insuranceOffer s inputs = some (s1, unread)) :
    ∃ skipped a, inputs = skipped ++ a :: unread ∧
      (∀ x ∈ skipped, x > 2 ∨ x < 0 ∨ (x = 0 ∧ s.player.totalTokens ≠ 0)) ∧
      ((a = 1 ∧ s1 = { s with player :=
          { s.player with bet := insuredBet s.pHand s.dHand s.whoWon s.player.bet } }) ∨
       (a ≠ 1 ∧ s1 = s)) := by
  induction inputs with
  | nil => simp [insuranceOffer] at h
  | cons c rest ih =>
    rw [insuranceOffer] at h
    have again : insuranceOffer s rest = some (s1, unread) →
        (c > 2 ∨ c < 0 ∨ (c = 0 ∧ s.player.totalTokens ≠ 0)) →
        ∃ skipped a, c :: rest = skipped ++ a :: unread ∧
          (∀ x ∈ skipped, x > 2 ∨ x < 0 ∨ (x = 0 ∧ s.player.totalTokens ≠ 0)) ∧
          ((a = 1 ∧ s1 = { s with player :=
              { s.player with bet := insuredBet s.pHand s.dHand s.whoWon s.player.bet } }) ∨
           (a ≠ 1 ∧ s1 = s)) := by
      intro h2 hc
      obtain ⟨sk, a, he, hs, ha⟩ := ih h2
      refine ⟨c :: sk, a, by rw [he]; rfl, ?_, ha⟩
      intro x hx
      rcases List.mem_cons.mp hx with e | hm
      · rw [e]; exact hc
      · exact hs x hm
    by_cases h1 : c > 2 ∨ c < 0
    · rw [if_pos h1] at h
      exact again h (by omega)
    · rw [if_neg h1] at h
      by_cases h2 : c = 1
      · rw [if_pos h2] at h
        simp only [Option.some.injEq, Prod.mk.injEq] at h
        exact ⟨[], c, by rw [h.2]; rfl, by simp, Or.inl ⟨h2, h.1.symm⟩⟩
      · rw [if_neg h2] at h
        by_cases h3 : c = 2
        · rw [if_pos h3] at h
          simp only [Option.some.injEq, Prod.mk.injEq] at h
          exact ⟨[], c, by rw [h.2]; rfl, by simp, Or.inr ⟨h2, h.1.symm⟩⟩
        · rw [if_neg h3] at h
          by_cases h4 : c = 0 ∧ s.player.totalTokens ≠ 0
          · rw [if_pos h4] at h
            exact again h (Or.inr (Or.inr h4))
          · rw [if_neg h4] at h
            simp only [Option.some.injEq, Prod.mk.injEq] at h
            exact ⟨[], c, by rw [h.2]; rfl, by simp, Or.inr ⟨h2, h.1.symm⟩⟩

/-- Choice 3 with its trace: the bet is left, or insurance was on offer and the answer 1
replaced the bet by `insuredBet`; then `stand` runs. -/
theorem processChoice_three_trace (s : RoundState) (inputs : List Int) (s1 : RoundState)
    (unread : List Int) (h : processChoice 3 s inputs = some (s1, unread)) :
    ∃ bet1 r, stand s.deck s.pHand s.dHand s.whoWon bet1 = some r ∧
      s1 = { s with deck := r.deck, dHand := r.dHand, whoWon := r.ret,
                    player := { s.player with bet := bet1 }, initialPhase := false } ∧
      (bet1 = s.player.bet ∨
        (bet1 = insuredBet s.pHand s.dHand s.whoWon s.player.bet ∧
          canPurchaseInsurance s.dHand s.player = some true ∧
          ∃ skipped, inputs = skipped ++ 1 :: unread ∧
            ∀ x ∈ skipped, x > 2 ∨ x < 0 ∨ (x = 0 ∧ s.player.totalTokens ≠ 0))) := by
  simp only [processChoice, show ¬ (3 : Int) = 1 by decide, show ¬ (3 : Int) = 2 by decide,
    if_false, if_true] at h
  cases hc : canPurchaseInsurance s.dHand s.player with
  | none => simp [hc] at h
  | some offered =>
    simp only [hc] at h
    by_cases hoff : offered = true
    · subst hoff
      simp only [if_true] at h
      cases hio : insuranceOffer s inputs with
      | none => simp [hio] at h
      | some t =>
        obtain ⟨s2, inputs2⟩ := t
        simp only [hio] at h
        cases hst : stand s2.deck s2.pHand s2.dHand s2.whoWon s2.player.bet with
        | none => simp [hst] at h
        | some r =>
          simp only [hst, Option.some.injEq, Prod.mk.injEq] at h
          obtain ⟨sk, a, he, hsk, ha⟩ := insuranceOffer_trace _ _ _ _ hio
          rcases ha with ⟨ha1, hs2⟩ | ⟨_, hs2⟩
          · subst hs2
            refine ⟨_, r, hst, h.1.symm, Or.inr ⟨rfl, rfl, sk, ?_, hsk⟩⟩
            rw [he, ha1, h.2]
          · subst hs2
            exact ⟨s2.player.bet, r, hst, h.1.symm, Or.inl rfl⟩
    · have hoff2 : offered = false := by simpa using hoff
      subst hoff2
      simp only [Bool.false_eq_true, if_false] at h
      cases hst : stand s.deck s.pHand s.dHand s.whoWon s.player.bet with
      | none => simp [hst] at h
      | some r =>
        simp only [hst, Option.some.injEq, Prod.mk.injEq] at h
        exact ⟨s.player.bet, r, hst, h.1.symm, Or.inl rfl⟩

/-! ### Double Down after a Hit -/

theorem loopHead_early (s : RoundState) (c : Int) (rest : List Int)
    (h21 : sumHand s.pHand = 21) : loopHead s (c :: rest) = none := by
  have he : (checkEarlyWin s.pHand s.dHand s.whoWon).1 = true := by
    simp only [checkEarlyWin, h21, if_true]
    split_ifs <;> rfl
  rw [loopHead, if_pos he]

/-- The loop heads reached through more inputs: first those of `before`, then on. -/
theorem loopHead_append (before after : List Int) :
    ∀ (s sh : RoundState), loopHead s before = some sh →
      loopHead s (before ++ after) = loopHead sh after := by
  induction before with
  | nil =>
    intro s sh h
    simp only [loopHead, Option.some.injEq] at h
    subst h
    rfl
  | cons c rest ih =>
    intro s sh h
    by_cases h21 : sumHand s.pHand = 21
    · rw [loopHead_early _ _ _ h21] at h; cases h
    · rw [List.cons_append]
      by_cases hinv : c < 1 ∨ c > 3
      · by_cases hw : s.whoWon = 0
        · rw [loopHead_cons_invalid _ _ _ h21 hinv hw] at h
          rw [loopHead_cons_invalid _ _ _ h21 hinv hw]
          exact ih s sh h
        · rw [loopHead, if_neg (not_early s h21), if_pos hinv,
            if_neg (fun hx => hw hx.2)] at h
          cases h
      · rw [loopHead_cons_valid _ _ _ h21 hinv] at h
        rw [loopHead_cons_valid _ _ _ h21 hinv]
        by_cases hc3 : c = 3
        · subst hc3
          cases hpc : processChoice 3 s rest with
          | none => simp [hpc] at h
          | some t => simp [hpc] at h
        · rw [processChoice_inputs c s rest hc3] at h
          rw [processChoice_inputs c s (rest ++ after) hc3]
          cases hp0 : processChoice c s [] with
          | none => simp [hp0] at h
          | some t =>
            obtain ⟨s1, r1⟩ := t
            simp only [hp0] at h
            simp only []
            by_cases hcont : c ≠ 3 ∧ s1.whoWon = 0
            · rw [if_pos hcont] at h
              rw [if_pos hcont]
              exact ih s1 sh h
            · rw [if_neg hcont] at h; cases h

/-- Once `canDoubleDown` is `false`, or once a 1 has been read, it is `false` at every
later loop head. -/
theorem loopHead_after_hit (before : List Int) :
    ∀ (s sh : RoundState), s.whoWon = 0 → loopHead s before = some sh →
      (s.canDoubleDown = false ∨ 1 ∈ before) → sh.canDoubleDown = false := by
  induction before with
  | nil =>
    intro s sh _ h hor
    simp only [loopHead, Option.some.injEq] at h
    subst h
    rcases hor with h | h
    · exact h
    · simp at h
  | cons c rest ih =>
    intro s sh hw h hor
    by_cases h21 : sumHand s.pHand = 21
    · rw [loopHead_early _ _ _ h21] at h; cases h
    · by_cases hinv : c < 1 ∨ c > 3
      · rw [loopHead_cons_invalid _ _ _ h21 hinv hw] at h
        refine ih s sh hw h ?_
        rcases hor with h1 | h1
        · exact Or.inl h1
        · rcases List.mem_cons.mp h1 with e | hm
          · omega
          · exact Or.inr hm
      · rw [loopHead_cons_valid _ _ _ h21 hinv] at h
        cases hpc : processChoice c s rest with
        | none => simp [hpc] at h
        | some t =>
          obtain ⟨s1, r1⟩ := t
          simp only [hpc] at h
          by_cases hcont : c ≠ 3 ∧ s1.whoWon = 0
          · rw [if_pos hcont] at h
            by_cases hc1 : c = 1
            · subst hc1
              cases hd : s.deck with
              | nil => rw [processChoice_one_nil _ _ hd] at hpc; cases hpc
              | cons card deck1 =>
                rw [processChoice_one _ _ _ _ hd] at hpc
                simp only [Option.some.injEq, Prod.mk.injEq] at hpc
                exact ih s1 sh hcont.2 h (Or.inl (by rw [← hpc.1]))
            · have hc2 : c = 2 := by omega
              subst hc2
              have hrest : s.canDoubleDown = false ∨ 1 ∈ rest := by
                rcases hor with h1 | h1
                · exact Or.inl h1
                · rcases List.mem_cons.mp h1 with e | hm
                  · exact absurd e (by decide)
                  · exact Or.inr hm
              by_cases hcdd : s.canDoubleDown = true
              · by_cases hf : s.player.totalTokens ≥ wrapInt (s.player.bet * 2)
                · exfalso
                  cases hdk : s.deck with
                  | nil => rw [processChoice_two_funded_nil _ _ hcdd hf hdk] at hpc; cases hpc
                  | cons card deck1 =>
                    rw [processChoice_two_funded _ _ hcdd hf _ _ hdk] at hpc
                    cases hst : stand deck1 (s.pHand ++ [card]) s.dHand
                        (if sumHand (s.pHand ++ [card]) = 21 then 0
                         else if sumHand (s.pHand ++ [card]) > 21 then 3 else s.whoWon)
                        s.player.bet with
                    | none => simp [hst] at hpc
                    | some r =>
                      have hne := stand_ret_ne_zero _ _ _ _ _ _ hst
                      simp only [hst, Option.some.injEq, Prod.mk.injEq] at hpc
                      have := hcont.2
                      rw [← hpc.1] at this
                      exact hne this
                · rw [processChoice_two_short _ _ hcdd hf] at hpc
                  simp only [Option.some.injEq, Prod.mk.injEq] at hpc
                  refine ih s1 sh hcont.2 h ?_
                  rcases hrest with h1 | h1
                  · exact Or.inl (by rw [← hpc.1]; exact h1)
                  · exact Or.inr h1
              · have hcdd2 : s.canDoubleDown = false := by simpa using hcdd
                rw [processChoice_two_refused _ _ hcdd2] at hpc
                simp only [Option.some.injEq, Prod.mk.injEq] at hpc
                exact ih s1 sh hcont.2 h (Or.inl (by rw [← hpc.1]; exact hcdd2))
          · rw [if_neg hcont] at h; cases h

/-- C25: at every loop head of a round reached after a Hit (a 1 among the inputs read),
where the player's total is not 21 so that a choice is read, choice 2 is refused whatever
the tokens: `processChoice` returns the state as it was (deck, both hands, bet, `whoWon`
and the flags), the loop is again at a loop head in that state, and the round goes on
with the next input. -/
theorem processChoice_double_down_after_hit (deck : List card) (player : Player)
    (before inputs : List Int) (s0 sh : RoundState)
    (hdealt : dealt deck player = some s0) (hhead : loopHead s0 before = some sh)
    (hhit : 1 ∈ before) (hne : sumHand sh.pHand ≠ 21) :
    processChoice 2 sh inputs = some (sh, inputs) ∧
    loopHead s0 (before ++ [2]) = some sh ∧
    roundMenuLoop s0 (before ++ 2 :: inputs) = roundMenuLoop sh inputs := by
  obtain ⟨c1, c2, c3, c4, rest, _, hs0⟩ := dealt_some _ _ _ hdealt
  have hw0 : s0.whoWon = 0 := by rw [hs0]
  obtain ⟨hw, _, _, _⟩ := loopHead_inv before s0 sh hw0 hhead
  have hcdd := loopHead_after_hit before s0 sh hw0 hhead (Or.inr hhit)
  have hpc : ∀ inp, processChoice 2 sh inp = some (sh, inp) :=
    fun inp => processChoice_two_refused sh inp hcdd
  refine ⟨hpc inputs, ?_, ?_⟩
  · rw [loopHead_append before [2] s0 sh hhead,
      loopHead_cons_valid _ _ _ hne (by decide), hpc []]
    simp only [ne_eq, show ¬ (2 : Int) = 3 by decide, not_false_eq_true, hw, and_self,
      if_true, loopHead]
  · rw [roundMenuLoop_append before (2 :: inputs) s0 sh hhead,
      roundMenuLoop_cons _ _ _ hne, if_neg (by decide), hpc inputs]
    simp only [ne_eq, show ¬ (2 : Int) = 3 by decide, not_false_eq_true, hw, and_self,
      if_true]

/-- Witness of C25: the player holds 5, 4, hits a 3 (12) and then enters 2, with 500
tokens against a bet of 100. -/
theorem processChoice_double_down_after_hit_witness :
    processChoice 2
        { deck := [⟨13, 0⟩, ⟨2, 0⟩], pHand := [⟨5, 0⟩, ⟨4, 1⟩, ⟨3, 0⟩],
          dHand := [⟨9, 2⟩, ⟨7, 3⟩], whoWon := 0,
          player := { totalTokens := 500, bet := 100 },
          initialPhase := true, canDoubleDown := false } [3]
      = some ({ deck := [⟨13, 0⟩, ⟨2, 0⟩], pHand := [⟨5, 0⟩, ⟨4, 1⟩, ⟨3, 0⟩],
                dHand := [⟨9, 2⟩, ⟨7, 3⟩], whoWon := 0,
                player := { totalTokens := 500, bet := 100 },
                initialPhase := true, canDoubleDown := false }, [3]) :=
  (processChoice_double_down_after_hit
    [⟨5, 0⟩, ⟨9, 2⟩, ⟨4, 1⟩, ⟨7, 3⟩, ⟨3, 0⟩, ⟨13, 0⟩, ⟨2, 0⟩]
    { totalTokens := 500, bet := 100 } [1] [3]
    { deck := [⟨3, 0⟩, ⟨13, 0⟩, ⟨2, 0⟩], pHand := [⟨5, 0⟩, ⟨4, 1⟩], dHand := [⟨9, 2⟩, ⟨7, 3⟩],
      whoWon := 0, player := { totalTokens := 500, bet := 100 },
      initialPhase := true, canDoubleDown := true }
    { deck := [⟨13, 0⟩, ⟨2, 0⟩], pHand := [⟨5, 0⟩, ⟨4, 1⟩, ⟨3, 0⟩], dHand := [⟨9, 2⟩, ⟨7, 3⟩],
      whoWon := 0, player := { totalTokens := 500, bet := 100 },
      initialPhase := true, canDoubleDown := false }
    (by decide) (by decide) (by decide) (by decide)).1

/-! ### The outcome with which a round is settled -/

/-- The value `stand` returns is the flag it was entered with, or 1, 2 or 3: the final
`else` of its comparison is never taken. -/
theorem stand_ret_range (deck pHand dHand : List card) (w bet : Int) (r : StandResult)
    (h : stand deck pHand dHand w bet = some r) :
    (w ≠ 0 ∧ r.ret = w) ∨ (w = 0 ∧ (r.ret = 1 ∨ r.ret = 2 ∨ r.ret = 3)) := by
  by_cases hw : w ≠ 0
  · rw [stand_nonzero _ _ _ _ _ hw] at h
    simp only [Option.some.injEq] at h
    exact Or.inl ⟨hw, by rw [← h]⟩
  · have hw0 : w = 0 := by simpa using hw
    subst hw0
    exact Or.inr ⟨rfl, stand_zero_range _ _ _ _ _ h⟩

/-- The menu loop ends with `whoWon` 1, 2 or 3. -/
theorem roundMenuLoop_outcome (inputs : List Int) (s s1 : RoundState) (unread : List Int)
    (hw : s.whoWon = 0) (h : roundMenuLoop s inputs = some (s1, unread)) :
    s1.whoWon = 1 ∨ s1.whoWon = 2 ∨ s1.whoWon = 3 := by
  refine roundMenuLoop_ind (fun _ => True)
    (fun t => t.whoWon = 1 ∨ t.whoWon = 2 ∨ t.whoWon = 3)
    ?_ ?_ ?_ ?_ ?_ ?_ inputs s s1 unread hw trivial h
  · intro t r _ _ _ hst
    show r.ret = 1 ∨ r.ret = 2 ∨ r.ret = 3
    rcases stand_ret_range _ _ _ _ _ _ hst with ⟨hne, he⟩ | ⟨_, hr⟩
    · by_cases hd : sumHand t.dHand = 21
      · rw [if_pos hd] at he
        exact Or.inr (Or.inl he)
      · rw [if_neg hd] at hne
        exact absurd rfl hne
    · exact hr
  · intro _ _ _ _ _ _ _ _
    trivial
  · intro t c deck1 _ _ _ _ _
    exact Or.inr (Or.inr rfl)
  · intro _ _ _ _ _ _
    trivial
  · intro t c deck1 r _ _ _ _ _ _ hst
    show r.ret = 1 ∨ r.ret = 2 ∨ r.ret = 3
    rcases stand_ret_range _ _ _ _ _ _ hst with ⟨hne, he⟩ | ⟨_, hr⟩
    · by_cases e21 : sumHand (t.pHand ++ [c]) = 21
      · rw [if_pos e21] at hne
        exact absurd rfl hne
      · by_cases egt : sumHand (t.pHand ++ [c]) > 21
        · rw [if_neg e21, if_pos egt] at he
          exact Or.inr (Or.inr he)
        · rw [if_neg e21, if_neg egt] at hne
          exact absurd rfl hne
    · exact hr
  · intro t bet1 r _ _ _ _ hst
    exact stand_zero_range _ _ _ _ _ hst

/-- C28: on a deck of at least 52 cards with face values in 1..13, a round of `playRound`
that ends is settled with `whoWon` equal to 1, 2 or 3, never 0 or -1; and whatever
`stand` is entered with, it returns the flag it was entered with or 1, 2 or 3, so the
-1 of its last `else` is never returned. -/
theorem playRound_outcome_range (deck : List card) (player : Player) (inputs : List Int)
    (r : RoundState) (unread : List Int)
    (hlen : 52 ≤ deck.length)
    (_hface : ∀ c ∈ deck, 1 ≤ c.faceValue ∧ c.faceValue ≤ 13)
    (h : playRound deck player inputs = some (r, unread)) :
    (r.whoWon = 1 ∨ r.whoWon = 2 ∨ r.whoWon = 3) ∧ r.whoWon ≠ 0 ∧ r.whoWon ≠ -1 ∧
    (∀ (deck2 pHand dHand : List card) (w bet : Int) (res : StandResult),
      stand deck2 pHand dHand w bet = some res →
        res.ret = w ∨ res.ret = 1 ∨ res.ret = 2 ∨ res.ret = 3) := by
  have hstand : ∀ (deck2 pHand dHand : List card) (w bet : Int) (res : StandResult),
      stand deck2 pHand dHand w bet = some res →
        res.ret = w ∨ res.ret = 1 ∨ res.ret = 2 ∨ res.ret = 3 := by
    intro deck2 pHand dHand w bet res hst
    rcases stand_ret_range _ _ _ _ _ _ hst with ⟨_, he⟩ | ⟨_, hr⟩
    · exact Or.inl he
    · exact Or.inr hr
  rcases playRound_some _ _ _ _ _ h with ⟨hd, _, _⟩ | ⟨c1, c2, c3, c4, rest, s, _, hl, hr⟩
  · rw [hd] at hlen
    simp at hlen
  · have hw : r.whoWon = s.whoWon := by rw [hr]
    have hrange := roundMenuLoop_outcome inputs _ s unread rfl hl
    rw [← hw] at hrange
    refine ⟨hrange, ?_, ?_, hstand⟩
    · rcases hrange with e | e | e <;> rw [e] <;> decide
    · rcases hrange with e | e | e <;> rw [e] <;> decide

/-- Witness of C28: the 52 cards in order, the player hitting once (Ace, 3, 5) and
standing; the dealer draws to 2, 4, 6, 7 and the round is settled with `whoWon = 2`. -/
theorem playRound_outcome_range_witness :
    (playRound ((List.range 52).map cardOfIndex) { totalTokens := 500, bet := 100 }
        [1, 3]).map (fun t => t.1.whoWon) = some 2 ∧
    ((2 : Int) = 1 ∨ (2 : Int) = 2 ∨ (2 : Int) = 3) :=
  ⟨by decide,
    (playRound_outcome_range ((List.range 52).map cardOfIndex)
      { totalTokens := 500, bet := 100 } [1, 3]
      { deck := ((List.range 52).map cardOfIndex).drop 7,
        pHand := [⟨1, 0⟩, ⟨3, 0⟩, ⟨5, 0⟩], dHand := [⟨2, 0⟩, ⟨4, 0⟩, ⟨6, 0⟩, ⟨7, 0⟩],
        whoWon := 2, player := { totalTokens := 500, bet := 0 },
        initialPhase := false, canDoubleDown := false } []
      (by decide) (by decide) (by decide)).1⟩

/-! ### Stand -/

/-- Choice 3 when insurance is not on offer. -/
theorem processChoice_three_no_offer (s : RoundState) (inputs : List Int)
    (hoff : canPurchaseInsurance s.dHand s.player = some false) :
    processChoice 3 s inputs =
      match stand s.deck s.pHand s.dHand s.whoWon s.player.bet with
      | none => none
      | some r =>
        some ({ s with deck := r.deck, dHand := r.dHand, whoWon := r.ret,
                       initialPhase := false }, inputs) := by
  simp only [processChoice, show ¬ (3 : Int) = 1 by decide, show ¬ (3 : Int) = 2 by decide,
    if_false, if_true, hoff, Bool.false_eq_true]

/-- Choice 3 when insurance is on offer and the answer is 2 (No). -/
theorem processChoice_three_declined (s : RoundState) (skipped rest : List Int)
    (hoff : canPurchaseInsurance s.dHand s.player = some true)
    (hskip : ∀ x ∈ skipped, x > 2 ∨ x < 0 ∨ (x = 0 ∧ s.player.totalTokens ≠ 0)) :
    processChoice 3 s (skipped ++ 2 :: rest) =
      match stand s.deck s.pHand s.dHand s.whoWon s.player.bet with
      | none => none
      | some r =>
        some ({ s with deck := r.deck, dHand := r.dHand, whoWon := r.ret,
                       initialPhase := false }, rest) := by
  have hio : insuranceOffer s (skipped ++ 2 :: rest) = some (s, rest) := by
    rw [insuranceOffer_skip s skipped _ hskip]
    simp [insuranceOffer]
  simp only [processChoice, show ¬ (3 : Int) = 1 by decide, show ¬ (3 : Int) = 2 by decide,
    if_false, if_true, hoff, hio]

/-- C21: in a round of `playRound`, at a loop head reached by the inputs `before`:
if the player's total there is not 21 and the player enters 3 (Stand), insurance being
either not on offer or declined with the answer 2, and the dealer's draws in `stand` end
above 21, the round ends as Player Win (`whoWon = 1`) with the final bet equal to the
bet; the same holds when the player's total there is a 21 of three cards or more, on
which `stand` is called without a choice being read. -/
theorem playRound_stand_dealer_bust (deck : List card) (player : Player)
    (before ins rest : List Int) (s0 sh : RoundState) (r : StandResult)
    (hdealt : dealt deck player = some s0) (hhead : loopHead s0 before = some sh)
    (hbust : sumHand r.dHand > 21) :
    (sumHand sh.pHand ≠ 21 →
      ((canPurchaseInsurance sh.dHand sh.player = some false ∧ ins = []) ∨
        (canPurchaseInsurance sh.dHand sh.player = some true ∧
          ∃ skipped, ins = skipped ++ [2] ∧
            ∀ x ∈ skipped, x > 2 ∨ x < 0 ∨ (x = 0 ∧ sh.player.totalTokens ≠ 0))) →
      stand sh.deck sh.pHand sh.dHand 0 player.bet = some r →
      playRound deck player (before ++ 3 :: (ins ++ rest))
        = some ({ deck := r.deck, pHand := sh.pHand, dHand := r.dHand, whoWon := 1,
                  player := { totalTokens := player.totalTokens, bet := player.bet },
                  initialPhase := false, canDoubleDown := sh.canDoubleDown }, rest)) ∧
    (sumHand sh.pHand = 21 → 3 ≤ sh.pHand.length →
      stand sh.deck sh.pHand sh.dHand (if sumHand sh.dHand = 21 then 2 else 0) player.bet
        = some r →
      playRound deck player (before ++ rest)
        = some ({ deck := r.deck, pHand := sh.pHand, dHand := r.dHand, whoWon := 1,
                  player := { totalTokens := player.totalTokens, bet := player.bet },
                  initialPhase := sh.initialPhase, canDoubleDown := sh.canDoubleDown },
                rest)) := by
  obtain ⟨c1, c2, c3, c4, rest0, hd, hs0⟩ := dealt_some _ _ _ hdealt
  have hw0 : s0.whoWon = 0 := by rw [hs0]
  have hp0 : s0.player = player := by rw [hs0]
  have hd0 : sumHand s0.dHand ≤ 21 := by rw [hs0]; exact sumHand_two_le c2 c4
  obtain ⟨i1, i2, i3, _⟩ := loopHead_inv before s0 sh hw0 hhead
  have hret : stand sh.deck sh.pHand sh.dHand 0 player.bet = some r → r.ret = 1 := by
    intro hst
    rw [stand_zero_ret _ _ _ _ _ hst (by rw [i2]; exact hd0), if_pos hbust]
  refine ⟨?_, ?_⟩
  · intro hne hins hst
    have hst2 : stand sh.deck sh.pHand sh.dHand sh.whoWon sh.player.bet = some r := by
      rw [i1, i3, hp0]; exact hst
    have hpc : processChoice 3 sh (ins ++ rest)
        = some ({ sh with deck := r.deck, dHand := r.dHand, whoWon := r.ret,
                          initialPhase := false }, rest) := by
      rcases hins with ⟨hoff, hnil⟩ | ⟨hoff, skipped, he, hskip⟩
      · rw [hnil, List.nil_append, processChoice_three_no_offer _ _ hoff, hst2]
      · rw [he, List.append_assoc, List.singleton_append,
          processChoice_three_declined _ _ _ hoff hskip, hst2]
    rw [hd, playRound_four, ← hs0, roundMenuLoop_append before _ s0 sh hhead,
      roundMenuLoop_cons _ _ _ hne, if_neg (by decide), hpc]
    simp only [ne_eq, not_true_eq_false, false_and, if_false, hret hst]
    simp [settleBet, hne, i3, hp0]
  · intro h21 hlen hst
    have hdne : ¬ sumHand sh.dHand = 21 := by
      intro hd21
      rw [if_pos hd21, stand_nonzero _ _ _ _ _ (by decide)] at hst
      simp only [Option.some.injEq] at hst
      rw [← hst] at hbust
      simp only at hbust
      omega
    rw [if_neg hdne] at hst
    have hcount : ¬ cardCount sh.pHand = 2 := by
      rw [cardCount_eq_length]
      intro e
      have : sh.pHand.length = 2 := by exact_mod_cast e
      omega
    rw [hd, playRound_four, ← hs0, roundMenuLoop_append before _ s0 sh hhead,
      roundMenuLoop_early _ _ h21, if_neg hdne, i3, hp0, hst]
    simp [settleBet, hret hst, hcount, i3, hp0]

/-- Witness of C21: the player stands on 10, Queen (20) against the dealer's 9, 7, who
draws a 6 (22): Player Win with the bet 100. -/
theorem playRound_stand_dealer_bust_witness :
    playRound [⟨10, 0⟩, ⟨9, 2⟩, ⟨12, 1⟩, ⟨7, 3⟩, ⟨6, 0⟩, ⟨2, 0⟩]
        { totalTokens := 500, bet := 100 } ([] ++ 3 :: ([] ++ [1]))
      = some ({ deck := [⟨2, 0⟩], pHand := [⟨10, 0⟩, ⟨12, 1⟩],
                dHand := [⟨9, 2⟩, ⟨7, 3⟩, ⟨6, 0⟩], whoWon := 1,
                player := { totalTokens := 500, bet := 100 },
                initialPhase := false, canDoubleDown := true }, [1]) :=
  (playRound_stand_dealer_bust [⟨10, 0⟩, ⟨9, 2⟩, ⟨12, 1⟩, ⟨7, 3⟩, ⟨6, 0⟩, ⟨2, 0⟩]
    { totalTokens := 500, bet := 100 } [] [] [1]
    { deck := [⟨6, 0⟩, ⟨2, 0⟩], pHand := [⟨10, 0⟩, ⟨12, 1⟩], dHand := [⟨9, 2⟩, ⟨7, 3⟩],
      whoWon := 0, player := { totalTokens := 500, bet := 100 },
      initialPhase := true, canDoubleDown := true }
    { deck := [⟨6, 0⟩, ⟨2, 0⟩], pHand := [⟨10, 0⟩, ⟨12, 1⟩], dHand := [⟨9, 2⟩, ⟨7, 3⟩],
      whoWon := 0, player := { totalTokens := 500, bet := 100 },
      initialPhase := true, canDoubleDown := true }
    { ret := 1, deck := [⟨2, 0⟩], dHand := [⟨9, 2⟩, ⟨7, 3⟩, ⟨6, 0⟩], whoWon := 1 }
    (by decide) (by decide) (by decide)).1 (by decide) (Or.inl ⟨by decide, rfl⟩) (by decide)

/-! ### The sign of the final bet -/

/-- The settlement of a positive bet, whose triple is an `int` when the hand is a two-card
21: positive on `whoWon = 1`, 0 on 2, negative on 3. -/
theorem settleBet_sign (w : Int) (pHand : List card) (bet : Int) (hpos : 0 < bet)
    (hfit : sumHand pHand = 21 ∧ pHand.length = 2 → bet ≤ 715827882) :
    (w = 1 → 0 < settleBet w pHand bet) ∧ (w = 2 → settleBet w pHand bet = 0) ∧
    (w = 3 → settleBet w pHand bet < 0) := by
  obtain ⟨k1, k2, k3, k4, _⟩ := settleBet_cases w pHand bet
  refine ⟨?_, k3, ?_⟩
  · intro h1
    by_cases hn : sumHand pHand = 21 ∧ pHand.length = 2
    · have hle := hfit hn
      rw [k1 h1 hn, wrapInt_eq (bet * 3) (by omega) (by omega),
        Int.tdiv_eq_ediv (by omega) (by omega)]
      omega
    · rw [k2 h1 hn]; exact hpos
  · intro h3
    rw [k4 h3]; omega

/-- Against a dealer's hand of 21 on entry, a player below 21 loses without a draw. -/
theorem stand_dealer_21 (deck pHand dHand : List card) (bet : Int) (r : StandResult)
    (h : stand deck pHand dHand 0 bet = some r) (hd : sumHand dHand = 21)
    (hp : sumHand pHand < 21) : r.ret = 3 ∧ r.dHand = dHand := by
  obtain ⟨n, _, hdh, _, _, hmin, _, _⟩ := stand_zero _ _ _ _ _ h
  have hn0 : n = 0 := by
    by_contra hne
    have := hmin 0 (by omega)
    simp only [List.take_zero, List.append_nil] at this
    omega
  subst hn0
  simp only [List.take_zero, List.append_nil] at hdh
  refine ⟨?_, hdh⟩
  rw [stand_zero_flag _ _ _ _ _ h (by rw [hdh]; omega), hdh, hd]
  have e1 : ¬ sumHand pHand > 21 := by omega
  have e2 : ¬ sumHand pHand = 21 := by omega
  simp [e1, e2]

/-- At every loop head of the menu the player's total is at most 21. -/
theorem loopHead_total_le (before : List Int) (s sh : RoundState) (hw : s.whoWon = 0)
    (hle : sumHand s.pHand ≤ 21) (h : loopHead s before = some sh) :
    sumHand sh.pHand ≤ 21 :=
  (loopHead_ind (fun t => sumHand t.pHand ≤ 21)
    (fun _ _ _ _ _ _ _ hc => hc) (fun _ _ hP _ _ _ => hP) before s sh hw hle h).2

/-- The bet with which the menu loop ends, from the dealt state with a bet of 10 or more
whose double is an `int`: it is positive, or it is 0 and then insurance was on offer and
accepted (answer 1 after choice 3) against the dealer's two dealt cards totalling 21, and
the dealer has won. -/
theorem roundMenuLoop_final_bet (c1 c2 c3 c4 : card) (rest : List card) (player : Player)
    (inputs : List Int) (s : RoundState) (unread : List Int) (hb : 10 ≤ player.bet)
    (hhi : player.bet ≤ 1073741823)
    (hl : roundMenuLoop
      { deck := rest, pHand := [c1, c3], dHand := [c2, c4], whoWon := 0, player := player,
        initialPhase := true, canDoubleDown := true } inputs = some (s, unread)) :
    0 < s.player.bet ∨
    (s.player.bet = 0 ∧ s.whoWon = 3 ∧ sumHand s.dHand = 21 ∧ s.dHand.length = 2 ∧
      canPurchaseInsurance s.dHand player = some true ∧
      ∃ before skipped, inputs = before ++ 3 :: (skipped ++ 1 :: unread) ∧
        ∀ x ∈ skipped, x > 2 ∨ x < 0 ∨ (x = 0 ∧ player.totalTokens ≠ 0)) := by
  obtain ⟨before, after, sh, hin, hhead, hwsh, hexit⟩ :=
    roundMenuLoop_exit inputs _ s unread rfl hl
  obtain ⟨_, i2, i3, _⟩ := loopHead_inv before _ sh rfl hhead
  simp only at i2 i3
  have hple : sumHand sh.pHand ≤ 21 :=
    loopHead_total_le before _ sh rfl (sumHand_two_le c1 c3) hhead
  have hbpos : 0 < sh.player.bet := by rw [i3]; omega
  have hdbl : wrapInt (sh.player.bet * 2) = sh.player.bet * 2 := by
    rw [i3]
    exact wrapInt_eq _ (by omega) (by omega)
  rcases hexit with ⟨_, _, r, _, hs⟩ | ⟨hne, c, rest1, hafter, hc1, hc3, hpc, _⟩
  · left
    rw [hs]
    exact hbpos
  · have hc : c = 1 ∨ c = 2 ∨ c = 3 := by omega
    rcases hc with hc | hc | hc
    · subst hc
      left
      cases hd : sh.deck with
      | nil => rw [processChoice_one_nil _ _ hd] at hpc; cases hpc
      | cons card deck1 =>
        rw [processChoice_one _ _ _ _ hd] at hpc
        simp only [Option.some.injEq, Prod.mk.injEq] at hpc
        rw [← hpc.1]
        exact hbpos
    · subst hc
      left
      by_cases hcdd : sh.canDoubleDown = true
      · by_cases hf : sh.player.totalTokens ≥ wrapInt (sh.player.bet * 2)
        · cases hd : sh.deck with
          | nil => rw [processChoice_two_funded_nil _ _ hcdd hf hd] at hpc; cases hpc
          | cons card deck1 =>
            rw [processChoice_two_funded _ _ hcdd hf _ _ hd] at hpc
            cases hst : stand deck1 (sh.pHand ++ [card]) sh.dHand
                (if sumHand (sh.pHand ++ [card]) = 21 then 0
                 else if sumHand (sh.pHand ++ [card]) > 21 then 3 else sh.whoWon)
                sh.player.bet with
            | none => simp [hst] at hpc
            | some r =>
              simp only [hst, Option.some.injEq, Prod.mk.injEq] at hpc
              rw [← hpc.1]
              simp only
              rw [hdbl]
              split_ifs <;> omega
        · rw [processChoice_two_short _ _ hcdd hf] at hpc
          simp only [Option.some.injEq, Prod.mk.injEq] at hpc
          rw [← hpc.1]
          exact hbpos
      · have hcdd2 : sh.canDoubleDown = false := by simpa using hcdd
        rw [processChoice_two_refused _ _ hcdd2] at hpc
        simp only [Option.some.injEq, Prod.mk.injEq] at hpc
        rw [← hpc.1]
        exact hbpos
    · subst hc
      obtain ⟨bet1, r, hst, hs, hbet⟩ := processChoice_three_trace _ _ _ _ hpc
      rw [hwsh] at hst hbet
      rcases hbet with e | ⟨e, hoff, skipped, hrest, hskip⟩
      · left
        rw [hs, e]
        exact hbpos
      · by_cases hd21 : sumHand sh.dHand = 21
        · right
          have hb0 : bet1 = 0 := by
            rw [e]
            simp [insuredBet, hd21]
          obtain ⟨hret, hdh⟩ := stand_dealer_21 _ _ _ _ _ hst hd21 (by omega)
          rw [hs]
          refine ⟨hb0, hret, by simp only; rw [hdh]; exact hd21,
            by simp only; rw [hdh, i2]; rfl, ?_, before, skipped, ?_, ?_⟩
          · simp only
            rw [hdh, ← i3]
            exact hoff
          · rw [hin, hafter, hrest]
          · intro x hx
            rw [← i3]
            exact hskip x hx
        · left
          have hb1 : bet1 = sh.player.bet - Int.tdiv sh.player.bet 2 := by
            rw [e]
            simp [insuredBet, hd21]
          rw [hs]
          simp only
          rw [hb1, Int.tdiv_eq_ediv (by omega) (by omega)]
          omega

/-- C29, amended: in a round of `playRound` started with a bet of 10 or more whose triple
is within the range of `int` (a bet of at most 715827882), the final bet is positive on
Player Win, 0 on Push and at most 0 on Dealer Win; on Dealer Win it is 0 only when the
dealer's final hand is the two dealt cards totalling 21 with insurance on offer, and the
round ended with choice 3 followed by the answer 1 to `insuranceOffer`. -/
theorem playRound_sign (deck : List card) (player : Player) (inputs : List Int)
    (r : RoundState) (unread : List Int)
    (h : playRound deck player inputs = some (r, unread)) (hb : 10 ≤ player.bet)
    (hhi : player.bet ≤ 715827882) :
    (r.whoWon = 1 → 0 < r.player.bet) ∧ (r.whoWon = 2 → r.player.bet = 0) ∧
    (r.whoWon = 3 → r.player.bet ≤ 0 ∧
      (r.player.bet = 0 →
        sumHand r.dHand = 21 ∧ r.dHand.length = 2 ∧
        canPurchaseInsurance r.dHand player = some true ∧
        ∃ before skipped, inputs = before ++ 3 :: (skipped ++ 1 :: unread) ∧
          ∀ x ∈ skipped, x > 2 ∨ x < 0 ∨ (x = 0 ∧ player.totalTokens ≠ 0))) := by
  rcases playRound_some _ _ _ _ _ h with ⟨_, _, hr⟩ | ⟨c1, c2, c3, c4, rest, s, _, hl, hr⟩
  · rw [hr]
    refine ⟨?_, ?_, ?_⟩ <;> intro hx <;> simp at hx
  · have hw : r.whoWon = s.whoWon := by rw [hr]
    have hd : r.dHand = s.dHand := by rw [hr]
    have hbet : r.player.bet = settleBet s.whoWon s.pHand s.player.bet := by rw [hr]
    rw [hw, hd, hbet]
    obtain ⟨_, hnat⟩ := roundMenuLoop_bet player.bet inputs _ s unread rfl rfl
      (by simp) hl
    rcases roundMenuLoop_final_bet c1 c2 c3 c4 rest player inputs s unread hb (by omega)
        hl with
      hpos | ⟨h0, hw3, hd21, hdl, hoff, htrace⟩
    · obtain ⟨p1, p2, p3⟩ := settleBet_sign s.whoWon s.pHand s.player.bet hpos
        (fun hn => by rw [hnat hn]; exact hhi)
      refine ⟨p1, p2, fun h3 => ⟨le_of_lt (p3 h3), fun e => ?_⟩⟩
      have := p3 h3
      omega
    · have hz : settleBet s.whoWon s.pHand s.player.bet = 0 := by
        rw [hw3, h0]
        simp [settleBet]
      rw [hz]
      refine ⟨fun h1 => ?_, fun _ => rfl, fun _ => ⟨le_refl _, fun _ => ⟨hd21, hdl, hoff, htrace⟩⟩⟩
      rw [hw3] at h1
      exact absurd h1 (by decide)

/-- Witness of C29: the player holds 10, 5 against the dealer's Ace, King, stands and
accepts insurance (the answer 1 after the entry 0, which is asked again): Dealer Win with
the final bet 0. -/
theorem playRound_sign_witness :
    playRound [⟨10, 0⟩, ⟨1, 2⟩, ⟨5, 1⟩, ⟨13, 3⟩, ⟨6, 0⟩] { totalTokens := 500, bet := 100 }
        [3, 0, 1]
      = some ({ deck := [⟨6, 0⟩], pHand := [⟨10, 0⟩, ⟨5, 1⟩], dHand := [⟨1, 2⟩, ⟨13, 3⟩],
                whoWon := 3, player := { totalTokens := 500, bet := 0 },
                initialPhase := false, canDoubleDown := true }, []) ∧
    ((3 : Int) = 3 → (0 : Int) ≤ 0 ∧
      ((0 : Int) = 0 →
        sumHand [⟨1, 2⟩, ⟨13, 3⟩] = 21 ∧ ([⟨1, 2⟩, ⟨13, 3⟩] : List card).length = 2 ∧
        canPurchaseInsurance [⟨1, 2⟩, ⟨13, 3⟩] { totalTokens := 500, bet := 100 } = some true ∧
        ∃ before skipped, [3, 0, 1] = before ++ 3 :: (skipped ++ 1 :: ([] : List Int)) ∧
          ∀ x ∈ skipped, x > 2 ∨ x < 0 ∨ (x = 0 ∧ (500 : Int) ≠ 0))) :=
  ⟨by decide,
    (playRound_sign [⟨10, 0⟩, ⟨1, 2⟩, ⟨5, 1⟩, ⟨13, 3⟩, ⟨6, 0⟩]
      { totalTokens := 500, bet := 100 } [3, 0, 1]
      { deck := [⟨6, 0⟩], pHand := [⟨10, 0⟩, ⟨5, 1⟩], dHand := [⟨1, 2⟩, ⟨13, 3⟩],
        whoWon := 3, player := { totalTokens := 500, bet := 0 },
        initialPhase := false, canDoubleDown := true } []
      (by decide) (by decide) (by decide)).2.2⟩

/-- The counterexample to C29 as stated: with 2000000000 tokens and the validated bet
1100000000 the player doubles down on 5, 6, draws a 2 (13) and loses to the dealer's
10, 9.  `bet * 2` does not fit an `int`: the bet becomes -2094967296 and the settlement
of the Dealer Win negates it, so the final bet is positive, 2094967296. -/
theorem playRound_sign_overflow :
    betMenu 2000000000 [1100000000] = some (1100000000, []) ∧
    playRound [⟨5, 0⟩, ⟨10, 1⟩, ⟨6, 2⟩, ⟨9, 3⟩, ⟨2, 0⟩]
        { totalTokens := 2000000000, bet := 1100000000 } [2]
      = some ({ deck := [], pHand := [⟨5, 0⟩, ⟨6, 2⟩, ⟨2, 0⟩],
                dHand := [⟨10, 1⟩, ⟨9, 3⟩], whoWon := 3,
                player := { totalTokens := 2000000000, bet := 2094967296 },
                initialPhase := false, canDoubleDown := true }, []) ∧
    ¬ ((2094967296 : Int) ≤ 0) := by
  decide

/-! ### Insurance is reached with the flag 0 -/

/-- The bet the answer 1 to `insuranceOffer` sets when the flag is 0: the third branch
(`whoWon == 3`) is not the one taken. -/
theorem insuredBet_flag_zero (pHand dHand : List card) (b : Int) :
    insuredBet pHand dHand 0 b = if sumHand dHand = 21 then 0 else b - Int.tdiv b 2 := by
  unfold insuredBet
  by_cases h : sumHand dHand = 21
  · simp [h]
  · simp [h]

/-- Choice 3 at a loop head where a choice is read ends the menu loop with what
`processChoice` returns. -/
theorem roundMenuLoop_three (s : RoundState) (rest : List Int)
    (hne : sumHand s.pHand ≠ 21) :
    roundMenuLoop s (3 :: rest) = processChoice 3 s rest := by
  rw [roundMenuLoop_cons _ _ _ hne, if_neg (by decide)]
  cases hpc : processChoice 3 s rest with
  | none => rfl
  | some t =>
    obtain ⟨s1, rest1⟩ := t
    simp

/-- C31: in a round of `playRound`, at every loop head of the menu (the state `sh`
reached from the dealt state by the inputs `before`), which are the only states
`processChoice` and through it `insuranceOffer` are called on: the flag `whoWon` is 0
(not 3) and the bet is still the bet of the round; the answer 1 to `insuranceOffer` there
sets the bet to 0 when the dealer's hand totals 21 and to `bet - bet / 2` otherwise, never
through the `whoWon == 3` branch, and every call of `insuranceOffer` that returns leaves
the flag 0 and the bet at one of these two values or, on another answer, untouched;
choice 3 (Stand) is where the round calls it, a choice other than 3 reads no answer, and
a Hit that busts ends the round with flag 3 and no further loop head; a round that ends
with choice 3 is settled on the bet, 0 or `bet - bet / 2`. -/
theorem playRound_insurance_flag (deck : List card) (player : Player)
    (before ins : List Int) (s0 sh : RoundState)
    (hdealt : dealt deck player = some s0) (hhead : loopHead s0 before = some sh) :
    (sh.whoWon = 0 ∧ sh.whoWon ≠ 3 ∧ sh.player = player) ∧
    insuredBet sh.pHand sh.dHand sh.whoWon sh.player.bet =
      (if sumHand sh.dHand = 21 then 0 else player.bet - Int.tdiv player.bet 2) ∧
    (∀ s1 rest, insuranceOffer sh ins = some (s1, rest) →
      s1.whoWon = 0 ∧
      ∃ skipped a, ins = skipped ++ a :: rest ∧
        ((a = 1 ∧ s1.player.bet =
            (if sumHand sh.dHand = 21 then 0 else player.bet - Int.tdiv player.bet 2)) ∨
         (a ≠ 1 ∧ s1 = sh))) ∧
    (sumHand sh.pHand ≠ 21 →
      roundMenuLoop s0 (before ++ 3 :: ins) = processChoice 3 sh ins) ∧
    (∀ c s1 rest, c ≠ 3 → processChoice c sh ins = some (s1, rest) → rest = ins) ∧
    (∀ c deck1, sumHand sh.pHand ≠ 21 → sh.deck = c :: deck1 →
      sumHand (sh.pHand ++ [c]) > 21 →
      roundMenuLoop s0 (before ++ 1 :: ins) =
        some ({ sh with deck := deck1, pHand := sh.pHand ++ [c], whoWon := 3,
                        canDoubleDown := false }, ins) ∧
      loopHead s0 (before ++ 1 :: ins) = none) ∧
    (∀ r unread, sumHand sh.pHand ≠ 21 →
      playRound deck player (before ++ 3 :: ins) = some (r, unread) →
      ∃ bet1, (bet1 = player.bet ∨ bet1 = 0 ∨ bet1 = player.bet - Int.tdiv player.bet 2) ∧
        r.player.bet = settleBet r.whoWon r.pHand bet1) := by
  obtain ⟨c1, c2, c3, c4, rest0, hdeck, hs0⟩ := dealt_some _ _ _ hdealt
  have hw0 : s0.whoWon = 0 := by rw [hs0]
  have hp0 : s0.player = player := by rw [hs0]
  obtain ⟨hw, _, hp, _⟩ := loopHead_inv before s0 sh hw0 hhead
  have hpl : sh.player = player := by rw [hp, hp0]
  have hib : insuredBet sh.pHand sh.dHand sh.whoWon sh.player.bet =
      (if sumHand sh.dHand = 21 then 0 else player.bet - Int.tdiv player.bet 2) := by
    rw [hw, hpl]
    exact insuredBet_flag_zero _ _ _
  refine ⟨⟨hw, by rw [hw]; decide, hpl⟩, hib, ?_, ?_, ?_, ?_, ?_⟩
  · intro s1 rest h
    obtain ⟨sk, a, he, _, ha⟩ := insuranceOffer_trace _ _ _ _ h
    rcases ha with ⟨ha1, hs1⟩ | ⟨ha1, hs1⟩
    · refine ⟨by rw [hs1]; exact hw, sk, a, he, Or.inl ⟨ha1, ?_⟩⟩
      rw [hs1]
      exact hib
    · exact ⟨by rw [hs1]; exact hw, sk, a, he, Or.inr ⟨ha1, hs1⟩⟩
  · intro hne
    rw [roundMenuLoop_append before (3 :: ins) s0 sh hhead, roundMenuLoop_three _ _ hne]
  · intro c s1 rest hc h
    rw [processChoice_inputs c sh ins hc] at h
    cases hp1 : processChoice c sh [] with
    | none => simp [hp1] at h
    | some t =>
      obtain ⟨s2, r2⟩ := t
      simp only [hp1, Option.some.injEq, Prod.mk.injEq] at h
      exact h.2.symm
  · intro c deck1 hne hd hbust
    have h21 : ¬ sumHand (sh.pHand ++ [c]) = 21 := by omega
    have hpc : ∀ inp, processChoice 1 sh inp =
        some ({ sh with deck := deck1, pHand := sh.pHand ++ [c], whoWon := 3,
                        canDoubleDown := false }, inp) := by
      intro inp
      rw [processChoice_one sh inp c deck1 hd, if_neg h21, if_pos hbust]
    constructor
    · rw [roundMenuLoop_append before (1 :: ins) s0 sh hhead, roundMenuLoop_cons _ _ _ hne,
        if_neg (by decide), hpc ins]
      simp
    · rw [loopHead_append before (1 :: ins) s0 sh hhead,
        loopHead_cons_valid _ _ _ hne (by decide), hpc ins]
      simp
  · intro r unread hne h
    rcases playRound_some _ _ _ _ _ h with ⟨hnil, _, _⟩ | ⟨d1, d2, d3, d4, rest1, s, hd, hl, hr⟩
    · rw [hdeck] at hnil
      cases hnil
    · rw [hdeck] at hd
      simp only [List.cons.injEq] at hd
      obtain ⟨e1, e2, e3, e4, e5⟩ := hd
      subst e1 e2 e3 e4 e5
      rw [← hs0, roundMenuLoop_append before (3 :: ins) s0 sh hhead,
        roundMenuLoop_three _ _ hne] at hl
      obtain ⟨bet1, rs, _, hs1, hb⟩ := processChoice_three_trace _ _ _ _ hl
      refine ⟨bet1, ?_, ?_⟩
      · rcases hb with hb | ⟨hb, _, _⟩
        · left
          rw [hb, hpl]
        · right
          rw [hb, hib]
          by_cases h21 : sumHand sh.dHand = 21
          · left
            rw [if_pos h21]
          · right
            rw [if_neg h21]
      · rw [hr, hs1]

/-- Witness of C31: the player holds 10, 5 against the dealer's Ace, 9, hits a 2 (17) and
stands; insurance is on offer at that loop head, where the flag is 0, and the answer 1
(after the entry 0, which is asked again) sets the bet of 100 to 50. -/
theorem playRound_insurance_flag_witness :
    dealt [⟨10, 0⟩, ⟨1, 2⟩, ⟨5, 1⟩, ⟨9, 3⟩, ⟨2, 0⟩, ⟨7, 1⟩] { totalTokens := 500, bet := 100 }
      = some { deck := [⟨2, 0⟩, ⟨7, 1⟩], pHand := [⟨10, 0⟩, ⟨5, 1⟩], dHand := [⟨1, 2⟩, ⟨9, 3⟩],
               whoWon := 0, player := { totalTokens := 500, bet := 100 },
               initialPhase := true, canDoubleDown := true } ∧
    loopHead { deck := [⟨2, 0⟩, ⟨7, 1⟩], pHand := [⟨10, 0⟩, ⟨5, 1⟩], dHand := [⟨1, 2⟩, ⟨9, 3⟩],
               whoWon := 0, player := { totalTokens := 500, bet := 100 },
               initialPhase := true, canDoubleDown := true } [1]
      = some { deck := [⟨7, 1⟩], pHand := [⟨10, 0⟩, ⟨5, 1⟩, ⟨2, 0⟩], dHand := [⟨1, 2⟩, ⟨9, 3⟩],
               whoWon := 0, player := { totalTokens := 500, bet := 100 },
               initialPhase := true, canDoubleDown := false } ∧
    playRound [⟨10, 0⟩, ⟨1, 2⟩, ⟨5, 1⟩, ⟨9, 3⟩, ⟨2, 0⟩, ⟨7, 1⟩]
        { totalTokens := 500, bet := 100 } [1, 3, 0, 1]
      = some ({ deck := [⟨7, 1⟩], pHand := [⟨10, 0⟩, ⟨5, 1⟩, ⟨2, 0⟩],
                dHand := [⟨1, 2⟩, ⟨9, 3⟩], whoWon := 3,
                player := { totalTokens := 500, bet := -50 },
                initialPhase := false, canDoubleDown := false }, []) ∧
    insuredBet [⟨10, 0⟩, ⟨5, 1⟩, ⟨2, 0⟩] [⟨1, 2⟩, ⟨9, 3⟩] 0 100 =
      (if sumHand [⟨1, 2⟩, ⟨9, 3⟩] = 21 then 0 else 100 - Int.tdiv 100 2) :=
  ⟨by decide, by decide, by decide,
    (playRound_insurance_flag [⟨10, 0⟩, ⟨1, 2⟩, ⟨5, 1⟩, ⟨9, 3⟩, ⟨2, 0⟩, ⟨7, 1⟩]
      { totalTokens := 500, bet := 100 } [1] [0, 1]
      { deck := [⟨2, 0⟩, ⟨7, 1⟩], pHand := [⟨10, 0⟩, ⟨5, 1⟩], dHand := [⟨1, 2⟩, ⟨9, 3⟩],
        whoWon := 0, player := { totalTokens := 500, bet := 100 },
        initialPhase := true, canDoubleDown := true }
      { deck := [⟨7, 1⟩], pHand := [⟨10, 0⟩, ⟨5, 1⟩, ⟨2, 0⟩], dHand := [⟨1, 2⟩, ⟨9, 3⟩],
        whoWon := 0, player := { totalTokens := 500, bet := 100 },
        initialPhase := true, canDoubleDown := false }
      (by decide) (by decide)).2.1⟩

end Blackjack
